import Mathlib

/-!
Verification development for the maze-quest-explorer core:
a shallow embedding of `src/utils/mazeUtils.ts` (grid model, maze
generation, connectivity repair, reset, clone) and of the four
resumable search steppers in the pathfinding-algorithms module
(BFS, DFS, A*, Dijkstra), together with theorems checking the
natural-language specification against this code.

Modelling conventions:
* JS numbers used as grid coordinates are modelled as `Int`
  (so that `row - 1` at row 0 is genuinely out of bounds).
* The cost fields `g`, `h`, `f` are `Option (WithTop Nat)`:
  `none` models the JS `undefined`, `some ⊤` models `Infinity`.
  JS comparisons involving `undefined` evaluate to `false`; the
  helpers `jsLt`/`jsGe` reproduce that.
* `Math.random()` draws are modelled by an oracle stream
  `R : Nat → Nat` together with a cursor; a draw in range `[0, k)`
  is modelled as `R cursor % k`, which ranges over exactly the
  outcomes `Math.floor(Math.random() * k)` can produce, so
  quantifying over all oracles covers all random behaviours.
* Wall-clock time (`Date.now()`~based `elapsedTime`) is modelled
  as the constant 0; no claim concerns it.
* Recursions that the source runs as unbounded loops are given
  explicit fuel where no termination measure exists in general;
  fuel amounts are chosen so that they cannot be exhausted on the
  executions the theorems talk about.
-/

namespace MazeQuest

/-- Cell kinds, from the `CellType` enum of `mazeUtils.ts`. -/
inductive CellType where
  | WALL
  | PATH
  | START
  | END
  | VISITED
  | VISITING
  | SOLUTION
  | ALTERNATE_PATH
deriving DecidableEq, Repr

/-- Integer (row, col) pair, from the `Position` interface. -/
structure Position where
  row : Int
  col : Int
deriving DecidableEq, Repr

instance : Inhabited Position := ⟨⟨0, 0⟩⟩

/-- Grid cell, from the `Cell` interface.  `g`, `h`, `f` use
`Option (WithTop Nat)`: `none` is `undefined`, `some ⊤` is `Infinity`. -/
structure Cell where
  type : CellType
  position : Position
  visited : Bool
  parent : Option Position := none
  isStart : Bool
  isEnd : Bool
  g : Option (WithTop Nat) := none
  h : Option (WithTop Nat) := none
  f : Option (WithTop Nat) := none
deriving DecidableEq, Repr

instance : Inhabited Cell :=
  ⟨{ type := CellType.WALL, position := ⟨0, 0⟩, visited := false,
     isStart := false, isEnd := false }⟩

/-- Row-major grid, `Cell[][]` in the source. -/
abbrev Grid := List (List Cell)

/-- The `MazeData` interface. -/
structure MazeData where
  grid : Grid
  startPosition : Position
  endPosition : Position
  width : Nat
  height : Nat
deriving DecidableEq

/-- Read `grid[p.row][p.col]`, `none` when out of bounds. -/
def gridGet (g : Grid) (p : Position) : Option Cell :=
  if p.row < 0 ∨ p.col < 0 then none
  else match g[p.row.toNat]? with
    | none => none
    | some row => row[p.col.toNat]?

/-- Read with the (WALL) default cell; only used after bounds checks. -/
def cellAt (g : Grid) (p : Position) : Cell :=
  (gridGet g p).getD default

/-- Write `grid[p.row][p.col] = c` (no-op out of bounds, as the source
only writes after bounds checks). -/
def gridSet (g : Grid) (p : Position) (c : Cell) : Grid :=
  if p.row < 0 ∨ p.col < 0 then g
  else g.set p.row.toNat ((g[p.row.toNat]?.getD []).set p.col.toNat c)

/-- In-place field update `grid[p.row][p.col] = f (grid[p.row][p.col])`. -/
def modCell (g : Grid) (p : Position) (f : Cell → Cell) : Grid :=
  match gridGet g p with
  | none => g
  | some c => gridSet g p (f c)

/-- `grid.length` (number of rows). -/
def gRows (g : Grid) : Nat := g.length

/-- `grid[0].length` (number of columns, per the source's convention). -/
def gCols (g : Grid) : Nat := (g.headD []).length

/-- Bounds test `row >= 0 && row < grid.length && col >= 0 && col < grid[0].length`. -/
def inBoundsB (g : Grid) (p : Position) : Bool :=
  decide (0 ≤ p.row) && decide (p.row < (gRows g : Int)) &&
  decide (0 ≤ p.col) && decide (p.col < (gCols g : Int))

/-- `isValidPosition` from `mazeUtils.ts`: in bounds and not a WALL. -/
def isValidPosition (g : Grid) (p : Position) : Bool :=
  inBoundsB g p && decide ((cellAt g p).type ≠ CellType.WALL)

/-- `manhattanDistance` from `mazeUtils.ts`. -/
def manhattanDistance (p1 p2 : Position) : Nat :=
  (p1.row - p2.row).natAbs + (p1.col - p2.col).natAbs

/-- Cell copy performed by `cloneMazeData`'s inner loop. -/
def cloneCell (c : Cell) : Cell :=
  { c with parent := c.parent.map (fun p => { row := p.row, col := p.col }) }

/-- `cloneMazeData` from `mazeUtils.ts`. -/
def cloneMazeData (m : MazeData) : MazeData :=
  { grid := m.grid.map (fun row => row.map cloneCell)
    startPosition := { row := m.startPosition.row, col := m.startPosition.col }
    endPosition := { row := m.endPosition.row, col := m.endPosition.col }
    width := m.width
    height := m.height }

/-- `resetMazeVisitation`'s per-cell update. -/
def resetCell (c : Cell) : Cell :=
  let c1 : Cell :=
    { c with visited := false, parent := none, g := none, h := none, f := none }
  if c1.type = CellType.VISITED ∨ c1.type = CellType.VISITING ∨
      c1.type = CellType.SOLUTION then
    if c1.isStart then { c1 with type := CellType.START }
    else if c1.isEnd then { c1 with type := CellType.END }
    else { c1 with type := CellType.PATH }
  else c1

/-- `resetMazeVisitation` from `mazeUtils.ts` (clone, then clear scratch
state and restore derived kinds). -/
def resetMazeVisitation (m : MazeData) : MazeData :=
  let cloned := cloneMazeData m
  { cloned with grid := cloned.grid.map (fun row => row.map resetCell) }

/-- `createEmptyMaze` from `mazeUtils.ts`: all walls, start cell at (0,0),
provisional end at the bottom-right corner. -/
def createEmptyMaze (width height : Nat) : MazeData :=
  let grid : Grid :=
    (List.range height).map (fun (row : Nat) =>
      (List.range width).map (fun (col : Nat) =>
        { type := CellType.WALL, position := ⟨(row : Int), (col : Int)⟩, visited := false,
          isStart := false, isEnd := false }))
  let startPosition : Position := ⟨0, 0⟩
  let grid := gridSet grid startPosition
    { type := CellType.START, position := startPosition, visited := false,
      isStart := true, isEnd := false }
  { grid := grid
    startPosition := startPosition
    endPosition := ⟨(height : Int) - 1, (width : Int) - 1⟩
    width := width
    height := height }

/-! ### Maze generation (`generateMaze` and helpers)

Randomness: the oracle `R : Nat → Nat` is sampled at an increasing
cursor; `draw R k n` models `Math.floor(Math.random() * n)`. -/

/-- One random draw in `[0, n)` (0 when the range is empty). -/
def draw (R : Nat → Nat) (k n : Nat) : Nat :=
  if n = 0 then 0 else R k % n

/-- `getUnvisitedNeighbors` from `generateMaze`: the four ±2 lattice
neighbours that are in bounds and still WALL (order up, down, left, right). -/
def getUnvisitedNeighbors (g : Grid) (width height : Nat) (pos : Position) : List Position :=
  [⟨pos.row - 2, pos.col⟩, ⟨pos.row + 2, pos.col⟩,
   ⟨pos.row, pos.col - 2⟩, ⟨pos.row, pos.col + 2⟩].filter
    (fun d =>
      decide (0 ≤ d.row) && decide (d.row < (height : Int)) &&
      decide (0 ≤ d.col) && decide (d.col < (width : Int)) &&
      decide ((cellAt g d).type = CellType.WALL))

/-- Model of `neighbors.sort(() => Math.random() - 0.5)`: repeatedly pick
a remaining element by a fresh draw.  Quantifying over all oracles, the
results range over all permutations, which covers every outcome of the
source's implementation-defined random shuffle. -/
def shuffleDraws (R : Nat → Nat) (l : List Position) (k : Nat) : List Position × Nat :=
  match hl : l with
  | [] => ([], k)
  | _ :: _ =>
    let i := draw R k l.length
    let x := l.getD i default
    let (rest, k2) := shuffleDraws R (l.eraseIdx i) (k + 1)
    (x :: rest, k2)
termination_by l.length
decreasing_by
  have hi : draw R k l.length < l.length := by
    rw [hl]
    unfold draw
    rw [if_neg (by simp)]
    exact Nat.mod_lt _ (by simp)
  simp only [hl] at hi ⊢
  simp only [List.length_eraseIdx, if_pos hi]
  omega

mutual

/-- `carvePath` from `generateMaze`: mark the current cell PATH (unless
start/end), shuffle the unvisited ±2 neighbours, and recurse through them.
The source recursion terminates because each recursive call converts a
WALL cell to PATH; here it carries fuel (`width*height+1` at the top
call), which those executions cannot exhaust. -/
def carvePath (R : Nat → Nat) (width height : Nat) (fuel : Nat) (g : Grid)
    (pos : Position) (k : Nat) : Grid × Nat :=
  match fuel with
  | 0 => (g, k)
  | fuel' + 1 =>
    let g1 := if !(cellAt g pos).isStart && !(cellAt g pos).isEnd then
        modCell g pos (fun c => { c with type := CellType.PATH }) else g
    let ns := getUnvisitedNeighbors g1 width height pos
    let (ns2, k2) := shuffleDraws R ns k
    carveSeq R width height fuel' g1 pos ns2 k2
termination_by (fuel, 0)

/-- The `for (const neighbor of neighbors)` loop of `carvePath`: re-check
that the neighbour is still WALL, carve the cell in between, recurse. -/
def carveSeq (R : Nat → Nat) (width height : Nat) (fuel : Nat) (g : Grid)
    (pos : Position) (ns : List Position) (k : Nat) : Grid × Nat :=
  match ns with
  | [] => (g, k)
  | n :: rest =>
    if (cellAt g n).type = CellType.WALL then
      let mid : Position := ⟨pos.row + (n.row - pos.row) / 2, pos.col + (n.col - pos.col) / 2⟩
      let g1 := modCell g mid (fun c => { c with type := CellType.PATH })
      let (g2, k2) := carvePath R width height fuel g1 n k
      carveSeq R width height fuel g2 pos rest k2
    else carveSeq R width height fuel g pos rest k
termination_by (fuel, ns.length + 1)

end

/-- The "extra openings" post-processing loop of `generateMaze`
(`additionalPaths` iterations; each picks a random interior cell and, if
it is a WALL bridging two PATH cells horizontally, vertically or
diagonally, converts it to PATH). -/
def extraOpenings (R : Nat → Nat) (width height : Nat) :
    Nat → Grid → Nat → Grid × Nat
  | 0, g, k => (g, k)
  | i + 1, g, k =>
    let row : Int := (draw R k (height - 2) : Int) + 1
    let col : Int := (draw R (k + 1) (width - 2) : Int) + 1
    let p : Position := ⟨row, col⟩
    let g2 :=
      if (cellAt g p).type = CellType.WALL then
        let hasH :=
          (decide (0 < col) && decide ((cellAt g ⟨row, col - 1⟩).type = CellType.PATH)) &&
          (decide (col < (width : Int) - 1) && decide ((cellAt g ⟨row, col + 1⟩).type = CellType.PATH))
        let hasV :=
          (decide (0 < row) && decide ((cellAt g ⟨row - 1, col⟩).type = CellType.PATH)) &&
          (decide (row < (height : Int) - 1) && decide ((cellAt g ⟨row + 1, col⟩).type = CellType.PATH))
        let hasD :=
          (decide (0 < row) && decide (0 < col) &&
            decide ((cellAt g ⟨row - 1, col - 1⟩).type = CellType.PATH)) &&
          (decide (row < (height : Int) - 1) && decide (col < (width : Int) - 1) &&
            decide ((cellAt g ⟨row + 1, col + 1⟩).type = CellType.PATH))
        if hasH || hasV || hasD then
          modCell g p (fun c => { c with type := CellType.PATH })
        else g
      else g
    extraOpenings R width height i g2 (k + 2)

/-- The inner `while (r !== endRow || c !== endCol)` walk of the
"approach corridors" post-processing: each iteration flips a coin to move
one step toward the end in the row or the column, then converts the new
cell (if in bounds and not the start) to PATH.  An adversarial coin
stream can starve this loop (moves along an already-matching axis do not
progress), which in the source means non-termination; the fuel bound
cuts such executions short.  No theorem depends on where it stops. -/
def corridorWalk (R : Nat → Nat) (width height : Nat) (endR endC : Int) :
    Nat → Grid → Int → Int → Nat → Grid × Nat
  | 0, g, _, _, k => (g, k)
  | fuel + 1, g, r, c, k =>
    if r = endR ∧ c = endC then (g, k)
    else
      let coin := draw R k 2
      let r2 : Int := if coin = 0 then (if r < endR then r + 1 else if r > endR then r - 1 else r) else r
      let c2 : Int := if coin = 0 then c else (if c < endC then c + 1 else if c > endC then c - 1 else c)
      let g2 :=
        if decide (0 ≤ r2) && decide (r2 < (height : Int)) && decide (0 ≤ c2) &&
            decide (c2 < (width : Int)) && !(cellAt g ⟨r2, c2⟩).isStart then
          modCell g ⟨r2, c2⟩ (fun cell => { cell with type := CellType.PATH })
        else g
      corridorWalk R width height endR endC fuel g2 r2 c2 (k + 1)

/-- The `for (let i = 0; i < 3; i++)` "approach corridors" loop of
`generateMaze`: pick a random cell near the end and, if it is PATH,
randomly walk a corridor toward the end. -/
def approachLoop (R : Nat → Nat) (width height : Nat) (endR endC : Int) :
    Nat → Grid → Nat → Grid × Nat
  | 0, g, k => (g, k)
  | i + 1, g, k =>
    let rRow : Int := max 0 (min (endR - 3 + (draw R k 6 : Int)) ((height : Int) - 1))
    let rCol : Int := max 0 (min (endC - 3 + (draw R (k + 1) 6 : Int)) ((width : Int) - 1))
    let (g2, k2) :=
      if (cellAt g ⟨rRow, rCol⟩).type = CellType.PATH then
        corridorWalk R width height endR endC ((width + height) * 4 + 8) g rRow rCol (k + 2)
      else (g, k + 2)
    approachLoop R width height endR endC i g2 k2

/-! ### Connectivity validation and repair (`ensurePathExists`) -/

/-- Visited matrix of the connectivity BFS (`boolean[][]`). -/
abbrev VisMat := List (List Bool)

/-- `Array(grid.length).fill(0).map(() => Array(grid[0].length).fill(false))`. -/
def initVis (g : Grid) : VisMat :=
  (List.range (gRows g)).map (fun _ => List.replicate (gCols g) false)

/-- Read `visited[p.row][p.col]` (false out of bounds). -/
def visGet (v : VisMat) (p : Position) : Bool :=
  if p.row < 0 ∨ p.col < 0 then false
  else ((v[p.row.toNat]?).getD []).getD p.col.toNat false

/-- Write `visited[p.row][p.col] = b` (no-op out of bounds). -/
def visSet (v : VisMat) (p : Position) (b : Bool) : VisMat :=
  if p.row < 0 ∨ p.col < 0 then v
  else v.set p.row.toNat (((v[p.row.toNat]?).getD []).set p.col.toNat b)

/-- The four orthogonal neighbours in the search order up, right, down,
left used by every search loop in the source. -/
def dirsOf (p : Position) : List Position :=
  [⟨p.row - 1, p.col⟩, ⟨p.row, p.col + 1⟩, ⟨p.row + 1, p.col⟩, ⟨p.row, p.col - 1⟩]

/-- The `while (queue.length > 0)` BFS loop of `ensurePathExists`:
returns true iff the end position is popped.  Each iteration pops one
cell and marks each newly enqueued cell visited, so the loop runs at most
`#cells` iterations; the fuel (`#cells + 1` at the call site) cannot run
out (proved below), and exhaustion is mapped to the not-found result. -/
def bfsCheckLoop (g : Grid) (endP : Position) :
    Nat → List Position → VisMat → Bool
  | 0, _, _ => false
  | fuel + 1, q, vis =>
    match q with
    | [] => false
    | cur :: rest =>
      if cur.row = endP.row ∧ cur.col = endP.col then true
      else
        let st := (dirsOf cur).foldl
          (fun (acc : List Position × VisMat) dir =>
            if isValidPosition g dir && !(visGet acc.2 dir) then
              (acc.1 ++ [dir], visSet acc.2 dir true)
            else acc)
          (rest, vis)
        bfsCheckLoop g endP fuel st.1 st.2

/-- The one-cell move of the repair walk of `createPathToEnd`:
horizontally toward the end column first, and only then vertically
toward the end row. -/
def zigzagStep (endP cur : Position) : Position :=
  if cur.col < endP.col then ⟨cur.row, cur.col + 1⟩
  else if cur.col > endP.col then ⟨cur.row, cur.col - 1⟩
  else if cur.row < endP.row then ⟨cur.row + 1, cur.col⟩
  else ⟨cur.row - 1, cur.col⟩

/-- The repair walk of `createPathToEnd`: repeat `zigzagStep`,
converting each visited non-start/non-end cell to PATH, until the end
is reached. -/
def zigzagLoop (endP : Position) (g : Grid) (cur : Position) : Grid :=
  if cur.row = endP.row ∧ cur.col = endP.col then g
  else
    let cur2 : Position := zigzagStep endP cur
    let g2 := if !(cellAt g cur2).isStart && !(cellAt g cur2).isEnd then
        modCell g cur2 (fun c => { c with type := CellType.PATH }) else g
    zigzagLoop endP g2 cur2
termination_by (cur.row - endP.row).natAbs + (cur.col - endP.col).natAbs
decreasing_by
  simp only [zigzagStep]
  split_ifs <;> simp <;> omega

/-- The per-cell write of the repair walk: convert a non-start/non-end
cell to PATH, leave start/end cells alone. -/
def carveCell (g : Grid) (p : Position) : Grid :=
  if !(cellAt g p).isStart && !(cellAt g p).isEnd then
    modCell g p (fun c => { c with type := CellType.PATH }) else g

/-- `createPathToEnd` from `mazeUtils.ts`. -/
def createPathToEnd (m : MazeData) : MazeData :=
  let cloned := cloneMazeData m
  let grid := zigzagLoop cloned.endPosition cloned.grid cloned.startPosition
  { m with grid := grid }

/-- `ensurePathExists` from `mazeUtils.ts`: BFS from the start over
walkable cells; if the end is reached, return the maze unchanged,
otherwise repair with `createPathToEnd`. -/
def ensurePathExists (m : MazeData) : MazeData :=
  let vis0 := visSet (initVis m.grid) m.startPosition true
  if bfsCheckLoop m.grid m.endPosition (gRows m.grid * gCols m.grid + 1)
      [m.startPosition] vis0 then m
  else createPathToEnd m

/-- The end-corner choice of `generateMaze`: one of the three non-start
corners, drawn at cursor 0. -/
def genEnd (R : Nat → Nat) (width height : Nat) : Position :=
  let startPosition : Position := ⟨0, 0⟩
  let potentialEndPositions : List Position :=
    [⟨0, (width : Int) - 1⟩, ⟨(height : Int) - 1, 0⟩,
     ⟨(height : Int) - 1, (width : Int) - 1⟩]
  let filteredPositions := potentialEndPositions.filter
    (fun pos => !(decide (pos.row = startPosition.row) && decide (pos.col = startPosition.col)))
  filteredPositions.getD (draw R 0 filteredPositions.length) default

/-- `generateMaze` after the end cell has been set (before carving). -/
def genGrid0 (R : Nat → Nat) (width height : Nat) : Grid :=
  gridSet (createEmptyMaze width height).grid (genEnd R width height)
    { type := CellType.END, position := genEnd R width height, visited := false,
      isStart := false, isEnd := true }

/-- The grid and cursor after `carvePath(startPosition)`. -/
def genCarved (R : Nat → Nat) (width height : Nat) : Grid × Nat :=
  carvePath R width height (width * height + 1) (genGrid0 R width height)
    (createEmptyMaze width height).startPosition 1

/-- The grid after `grid[endRow][endCol].type = CellType.END`. -/
def genGrid2 (R : Nat → Nat) (width height : Nat) : Grid :=
  modCell (genCarved R width height).1 (genEnd R width height)
    (fun c => { c with type := CellType.END })

/-- The grid and cursor after the extra-openings loop.
`Math.floor(width*height*0.15)` is modelled as `width*height*15/100`
(float rounding can differ by one iteration; every theorem below holds
for any iteration count). -/
def genOpened (R : Nat → Nat) (width height : Nat) : Grid × Nat :=
  extraOpenings R width height (width * height * 15 / 100)
    (genGrid2 R width height) (genCarved R width height).2

/-- The grid and cursor after the three approach corridors. -/
def genApproached (R : Nat → Nat) (width height : Nat) : Grid × Nat :=
  approachLoop R width height (genEnd R width height).row (genEnd R width height).col 3
    (genOpened R width height).1 (genOpened R width height).2

/-- The grid after the final adjacent-path fix next to the end. -/
def genAdjFixed (R : Nat → Nat) (width height : Nat) : Grid :=
  let endR := (genEnd R width height).row
  let endC := (genEnd R width height).col
  let grid := (genApproached R width height).1
  let adjacentDirections : List Position :=
    [⟨endR - 1, endC⟩, ⟨endR, endC + 1⟩, ⟨endR + 1, endC⟩, ⟨endR, endC - 1⟩]
  let validAdjacents := adjacentDirections.filter
    (fun d =>
      decide (0 ≤ d.row) && decide (d.row < (height : Int)) &&
      decide (0 ≤ d.col) && decide (d.col < (width : Int)))
  let hasAdjacentPath := validAdjacents.any
    (fun d => decide ((cellAt grid d).type = CellType.PATH))
  if !hasAdjacentPath && decide (0 < validAdjacents.length) then
    let randomAdjacent := validAdjacents.getD
      (draw R (genApproached R width height).2 validAdjacents.length) default
    modCell grid randomAdjacent (fun c => { c with type := CellType.PATH })
  else grid

/-- The maze assembled by `generateMaze` just before the final
`ensurePathExists` call. -/
def genPre (R : Nat → Nat) (width height : Nat) : MazeData :=
  { grid := genAdjFixed R width height
    startPosition := (createEmptyMaze width height).startPosition
    endPosition := genEnd R width height
    width := width
    height := height }

/-- `generateMaze` from `mazeUtils.ts`, parameterised by the random
oracle `R`: set up start and end, carve, post-process, and validate with
`ensurePathExists`. -/
def generateMaze (R : Nat → Nat) (width height : Nat) : MazeData :=
  ensurePathExists (genPre R width height)

/-! ### The four step algorithms (pathfinding-algorithms module)

Each source algorithm is a closure over `{grid, queue/stack/openSet,
closedSet, visitedCount, isDone, success}`; here that closure state is
the explicit record `AlgState`, and `next` is a function
`AlgState → Option AlgorithmStep × AlgState`.  `elapsedTime` (wall
clock) is modelled as 0. -/

/-- The `AlgorithmStep` interface. -/
structure AlgorithmStep where
  grid : Grid
  visitedCount : Nat
  pathLength : Nat
  elapsedTime : Nat
  isDone : Bool
  success : Bool
deriving DecidableEq, Repr

/-- The closure state of one algorithm instance.  `frontier` is the
BFS/Dijkstra queue, the DFS stack (head = top), or the A* open set;
`closed` is A*'s `closedSet` (as the list of its members). -/
structure AlgState where
  maze : MazeData
  frontier : List Position
  closed : List Position := []
  visitedCount : Nat := 0
  isDone : Bool := false
  success : Bool := false
deriving DecidableEq

/-- The `countVisited` helper shared by all four algorithms. -/
def countVisited (g : Grid) : Nat :=
  g.foldl (fun acc row => row.foldl (fun a c => if c.visited then a + 1 else a) acc) 0

/-- The `reconstructPath` helper shared by all four algorithms: walk the
`parent` back-references from the end, collecting the path (in
start-to-end order, as built by `unshift`) and marking each cell that
has a further parent and is not start/end as SOLUTION.  The source's
`while (current)` loop would diverge on a cyclic parent chain; the fuel
(`#cells + 1` at every call site) covers every chain that can arise. -/
def reconstructPathMark (g : Grid) (pos : Position) : Nat → List Position × Grid
  | 0 => ([], g)
  | fuel + 1 =>
    match (cellAt g pos).parent with
    | none => ([pos], g)
    | some par =>
      let g2 := if !(cellAt g par).isStart && !(cellAt g par).isEnd then
          modCell g par (fun c => { c with type := CellType.SOLUTION }) else g
      let pg := reconstructPathMark g2 par fuel
      (pg.1 ++ [pos], pg.2)

/-- Fuel used for `reconstructPathMark`. -/
def pathFuel (g : Grid) : Nat := gRows g * gCols g + 1

/-- The final (end-popped) step shared by all four algorithms:
reconstruct and mark the path, report `countVisited`, the path length,
`isDone = true`, `success = true`. -/
def finishRun (s : AlgState) (rest : List Position) : Option AlgorithmStep × AlgState :=
  let g := s.maze.grid
  let pg := reconstructPathMark g s.maze.endPosition (pathFuel g)
  let m2 := { s.maze with grid := pg.2 }
  (some { grid := pg.2, visitedCount := countVisited pg.2, pathLength := pg.1.length,
          elapsedTime := 0, isDone := true, success := true },
   { s with maze := m2, frontier := rest, isDone := true, success := true })

/-- Neighbour expansion of BFS and DFS: for each direction in order, if
the cell is walkable and unvisited, mark it visited, record its parent,
set its kind to VISITING unless it is the end, and enqueue it (BFS
appends at the back, DFS pushes on the top of the stack). -/
def expandUnvisited (cur : Position) (push : List Position → Position → List Position)
    (dirs : List Position) (g : Grid) (q : List Position) : Grid × List Position :=
  dirs.foldl
    (fun (acc : Grid × List Position) dir =>
      if isValidPosition acc.1 dir && !(cellAt acc.1 dir).visited then
        (modCell acc.1 dir (fun c =>
           { c with visited := true, parent := some cur,
                    type := if c.isEnd then c.type else CellType.VISITING }),
         push acc.2 dir)
      else acc)
    (g, q)

/-- `bfs(mazeData)` construction: mark the start visited and VISITING,
queue = [start]. -/
def bfsInit (m : MazeData) : AlgState :=
  { maze := { m with grid := (modCell m.grid m.startPosition
      (fun c => { c with visited := true, type := CellType.VISITING })) }
    frontier := [m.startPosition] }

/-- One `next()` call of the BFS stepper. -/
def bfsNext (s : AlgState) : Option AlgorithmStep × AlgState :=
  if s.isDone || s.frontier.isEmpty then (none, { s with isDone := true })
  else
    match s.frontier with
    | [] => (none, { s with isDone := true })
    | cur :: rest =>
      if cur.row = s.maze.endPosition.row ∧ cur.col = s.maze.endPosition.col then
        finishRun s rest
      else
        let g := s.maze.grid
        let g1 := if !(cellAt g cur).isStart && !(cellAt g cur).isEnd then
            modCell g cur (fun c => { c with type := CellType.VISITED }) else g
        let gq := expandUnvisited cur (fun q d => q ++ [d]) (dirsOf cur) g1 rest
        let m2 := { s.maze with grid := gq.1 }
        (some { grid := gq.1, visitedCount := countVisited gq.1, pathLength := 0,
                elapsedTime := 0, isDone := false, success := s.success },
         { s with maze := m2, frontier := gq.2 })

/-- `dfs(mazeData)` construction. -/
def dfsInit (m : MazeData) : AlgState :=
  { maze := { m with grid := (modCell m.grid m.startPosition
      (fun c => { c with visited := true, type := CellType.VISITING })) }
    frontier := [m.startPosition] }

/-- The DFS neighbour order (left, down, right, up — the reverse of
`dirsOf`). -/
def dfsDirsOf (p : Position) : List Position :=
  [⟨p.row, p.col - 1⟩, ⟨p.row + 1, p.col⟩, ⟨p.row, p.col + 1⟩, ⟨p.row - 1, p.col⟩]

/-- One `next()` call of the DFS stepper.  The JS array used as a stack
(push/pop at the back) is modelled with the head of `frontier` as the
top of the stack, so push is `cons` and pop takes the head. -/
def dfsNext (s : AlgState) : Option AlgorithmStep × AlgState :=
  if s.isDone || s.frontier.isEmpty then (none, { s with isDone := true })
  else
    match s.frontier with
    | [] => (none, { s with isDone := true })
    | cur :: rest =>
      if cur.row = s.maze.endPosition.row ∧ cur.col = s.maze.endPosition.col then
        finishRun s rest
      else
        let g := s.maze.grid
        let g1 := if !(cellAt g cur).isStart && !(cellAt g cur).isEnd then
            modCell g cur (fun c => { c with type := CellType.VISITED }) else g
        let vc := s.visitedCount + 1
        let gq := expandUnvisited cur (fun q d => d :: q) (dfsDirsOf cur) g1 rest
        let m2 := { s.maze with grid := gq.1 }
        (some { grid := gq.1, visitedCount := vc, pathLength := 0,
                elapsedTime := 0, isDone := false, success := s.success },
         { s with maze := m2, frontier := gq.2, visitedCount := vc })

/-! JS comparisons on possibly-undefined numbers: any comparison with
`undefined` is false. -/

def jsLt : Option (WithTop Nat) → Option (WithTop Nat) → Bool
  | some a, some b => decide (a < b)
  | _, _ => false

def jsGe : Option (WithTop Nat) → Option (WithTop Nat) → Bool
  | some a, some b => decide (b ≤ a)
  | _, _ => false

/-- `x! + 1` on a possibly-undefined number (`undefined + 1` is `NaN`,
which compares false just like `none` does under `jsLt`/`jsGe`). -/
def jsAdd1 (a : Option (WithTop Nat)) : Option (WithTop Nat) :=
  a.map (· + 1)

/-- `a + b` on possibly-undefined numbers. -/
def jsAdd (a b : Option (WithTop Nat)) : Option (WithTop Nat) :=
  match a, b with
  | some x, some y => some (x + y)
  | _, _ => none

/-- The linear scan `for (i …) if (score(l[i]) < score(l[best])) best = i`
used by A* (score = `f`) and Dijkstra (score = `g`), starting at index 0;
ties keep the earliest index. -/
def scanMinIdx (score : Position → Option (WithTop Nat)) (l : List Position) : Nat :=
  (List.range l.length).foldl
    (fun best i =>
      if jsLt (score (l.getD i default)) (score (l.getD best default)) then i else best)
    0

/-- `astar(mazeData)` construction: start cell gets `g=0`,
`h=f=manhattan(start,end)`, is marked visited and VISITING. -/
def astarInit (m : MazeData) : AlgState :=
  let h0 : WithTop Nat := (manhattanDistance m.startPosition m.endPosition : Nat)
  { maze := { m with grid := (modCell m.grid m.startPosition
      (fun c => { c with g := some 0, h := some h0, f := some h0,
                         visited := true, type := CellType.VISITING })) }
    frontier := [m.startPosition] }

/-- The body of A*'s neighbour loop for one direction. -/
def astarRelaxDir (endP cur : Position) (closed : List Position)
    (acc : Grid × List Position) (dir : Position) : Grid × List Position :=
  if !(isValidPosition acc.1 dir) || decide (dir ∈ closed) then acc
  else
    let tentativeG := jsAdd1 (cellAt acc.1 cur).g
    let relax : Grid → Grid := fun g0 =>
      modCell g0 dir (fun c =>
        let hv : WithTop Nat := (manhattanDistance dir endP : Nat)
        { c with parent := some cur, g := tentativeG, h := some hv,
                 f := jsAdd tentativeG (some hv) })
    if !(decide (dir ∈ acc.2)) then
      let g1 := modCell acc.1 dir (fun c =>
        { c with visited := true,
                 type := if c.isEnd then c.type else CellType.VISITING })
      (relax g1, acc.2 ++ [dir])
    else if jsGe tentativeG (cellAt acc.1 dir).g then acc
    else (relax acc.1, acc.2)

/-- One `next()` call of the A* stepper. -/
def astarNext (s : AlgState) : Option AlgorithmStep × AlgState :=
  if s.isDone || s.frontier.isEmpty then (none, { s with isDone := true })
  else
    let g := s.maze.grid
    let lowestIndex := scanMinIdx (fun p => (cellAt g p).f) s.frontier
    let cur := s.frontier.getD lowestIndex default
    if cur.row = s.maze.endPosition.row ∧ cur.col = s.maze.endPosition.col then
      finishRun s s.frontier
    else
      let open2 := s.frontier.eraseIdx lowestIndex
      let closed2 := cur :: s.closed
      let g1 := if !(cellAt g cur).isStart && !(cellAt g cur).isEnd then
          modCell g cur (fun c => { c with type := CellType.VISITED }) else g
      let vc := s.visitedCount + 1
      let gq := (dirsOf cur).foldl (astarRelaxDir s.maze.endPosition cur closed2) (g1, open2)
      let m2 := { s.maze with grid := gq.1 }
      (some { grid := gq.1, visitedCount := vc, pathLength := 0,
              elapsedTime := 0, isDone := false, success := s.success },
       { s with maze := m2, frontier := gq.2, closed := closed2, visitedCount := vc })

/-- `dijkstra(mazeData)` construction: every cell gets `g = Infinity`,
then the start cell `g = 0`, visited, VISITING. -/
def dijkstraInit (m : MazeData) : AlgState :=
  let g0 : Grid := m.grid.map (fun row => row.map (fun c => { c with g := some ⊤ }))
  { maze := { m with grid := (modCell g0 m.startPosition
      (fun c => { c with g := some 0, visited := true, type := CellType.VISITING })) }
    frontier := [m.startPosition] }

/-- The body of Dijkstra's neighbour loop for one direction: relax
`g`/`parent` whenever the new distance improves, and enqueue (and mark
visited/VISITING) on first discovery. -/
def dijkstraRelaxDir (cur : Position) (acc : Grid × List Position)
    (dir : Position) : Grid × List Position :=
  if isValidPosition acc.1 dir then
    let newDist := jsAdd1 (cellAt acc.1 cur).g
    if jsLt newDist (cellAt acc.1 dir).g then
      let notVisited := !(cellAt acc.1 dir).visited
      let g2 := modCell acc.1 dir (fun c =>
        if !c.visited then
          { c with g := newDist, parent := some cur, visited := true,
                   type := if c.isEnd then c.type else CellType.VISITING }
        else { c with g := newDist, parent := some cur })
      (g2, if notVisited then acc.2 ++ [dir] else acc.2)
    else acc
  else acc

/-- One `next()` call of the Dijkstra stepper.  Note the source removes
the minimum element from the queue before the end test. -/
def dijkstraNext (s : AlgState) : Option AlgorithmStep × AlgState :=
  if s.isDone || s.frontier.isEmpty then (none, { s with isDone := true })
  else
    let g := s.maze.grid
    let minIndex := scanMinIdx (fun p => (cellAt g p).g) s.frontier
    let cur := s.frontier.getD minIndex default
    let rest := s.frontier.eraseIdx minIndex
    if cur.row = s.maze.endPosition.row ∧ cur.col = s.maze.endPosition.col then
      finishRun s rest
    else
      let g1 := if !(cellAt g cur).isStart && !(cellAt g cur).isEnd then
          modCell g cur (fun c => { c with type := CellType.VISITED }) else g
      let vc := s.visitedCount + 1
      let gq := (dirsOf cur).foldl (dijkstraRelaxDir cur) (g1, rest)
      let m2 := { s.maze with grid := gq.1 }
      (some { grid := gq.1, visitedCount := vc, pathLength := 0,
              elapsedTime := 0, isDone := false, success := s.success },
       { s with maze := m2, frontier := gq.2, visitedCount := vc })

/-- Drive a stepper: the state after `n` calls to `next()`. -/
def iterState (next : AlgState → Option AlgorithmStep × AlgState) (s : AlgState) :
    Nat → AlgState
  | 0 => s
  | n + 1 => (next (iterState next s n)).2

/-! ### Specification layer: walkability, paths, distance, parent chains -/

/-- One orthogonal grid step (symmetric). -/
def adjStep (p q : Position) : Prop :=
  (p.row = q.row ∧ (p.col - q.col).natAbs = 1) ∨
  (p.col = q.col ∧ (p.row - q.row).natAbs = 1)

instance (p q : Position) : Decidable (adjStep p q) := by
  unfold adjStep
  infer_instance

/-- A walkable path with `n` orthogonal steps: every cell on it (both
endpoints included) is in bounds and not a WALL. -/
inductive PathN (g : Grid) : Position → Position → Nat → Prop where
  | refl (p : Position) : isValidPosition g p = true → PathN g p p 0
  | cons (p q r : Position) (n : Nat) : isValidPosition g p = true → adjStep p q →
      PathN g q r n → PathN g p r (n + 1)

/-- Some walkable path exists. -/
def Reach (g : Grid) (a b : Position) : Prop := ∃ n, PathN g a b n

/-- `n` is the length (in steps) of a shortest walkable path from `a`
to `b`. -/
def IsDist (g : Grid) (a b : Position) (n : Nat) : Prop :=
  PathN g a b n ∧ ∀ j, PathN g a b j → n ≤ j

/-- The walk along `parent` back-references from `p` down to `s`,
taking `k` steps. -/
inductive ChainTo (g : Grid) (s : Position) : Position → Nat → Prop where
  | base : ChainTo g s s 0
  | step (p q : Position) (k : Nat) : (cellAt g p).parent = some q →
      ChainTo g s q k → ChainTo g s p (k + 1)

/-- The grid has `h` rows, each of length `w`. -/
def GridDims (g : Grid) (h w : Nat) : Prop :=
  gRows g = h ∧ ∀ row ∈ g, row.length = w

/-- Scratch-state cleanliness and flag consistency of one cell, used by
the grid-invariant checker. -/
def cellClean (m : MazeData) (r c : Nat) (cell : Cell) : Bool :=
  (cell.isStart == decide ((⟨(r : Int), (c : Int)⟩ : Position) = m.startPosition)) &&
  (cell.isEnd == decide ((⟨(r : Int), (c : Int)⟩ : Position) = m.endPosition)) &&
  !cell.visited && decide (cell.parent = none)

/-- Executable form of the spec's grid invariants (§3 of the spec),
together with the lifecycle requirement that a maze handed to a stepper
has clean scratch state: consistent dimensions, start and end in bounds,
distinct, not WALL, `isStart`/`isEnd` exactly at `startPosition` /
`endPosition`, all cells unvisited with no parent. -/
def gridInvB (m : MazeData) : Bool :=
  decide (gRows m.grid = m.height) &&
  decide (gCols m.grid = m.width) &&
  m.grid.all (fun row => decide (row.length = gCols m.grid)) &&
  inBoundsB m.grid m.startPosition && inBoundsB m.grid m.endPosition &&
  decide (m.startPosition ≠ m.endPosition) &&
  decide ((cellAt m.grid m.startPosition).type ≠ CellType.WALL) &&
  decide ((cellAt m.grid m.endPosition).type ≠ CellType.WALL) &&
  (m.grid.enum.all (fun rowi => rowi.2.enum.all (fun celli => cellClean m rowi.1 celli.1 celli.2)))

/-- The kinds a maze can show after a search run, per the claim about
`resetMazeVisitation` (everything except ALTERNATE_PATH). -/
def postSearchB (m : MazeData) : Bool :=
  m.grid.all (fun row => row.all (fun c =>
    decide (c.type ∈ [CellType.WALL, CellType.PATH, CellType.START, CellType.END,
      CellType.VISITED, CellType.VISITING, CellType.SOLUTION])))

/-- Modelled from the spec wording of the repair walk ("walking from
start to end moving horizontally toward the end column first and only
then vertically"): the cells visited after leaving `s`, as one
horizontal segment followed by one vertical segment. -/
def specZigzagWalk (s e : Position) : List Position :=
  let dcol : Int := if s.col ≤ e.col then 1 else -1
  let drow : Int := if s.row ≤ e.row then 1 else -1
  ((List.range (e.col - s.col).natAbs).map
    (fun (i : Nat) => (⟨s.row, s.col + dcol * ((i : Int) + 1)⟩ : Position))) ++
  ((List.range (e.row - s.row).natAbs).map
    (fun (i : Nat) => (⟨s.row + drow * ((i : Int) + 1), e.col⟩ : Position)))

/-- Modelled from the spec wording of the repair: convert every visited
non-start/non-end cell on the zigzag walk to PATH. -/
def specRepair (m : MazeData) : MazeData :=
  { m with grid := ((specZigzagWalk m.startPosition m.endPosition).foldl
      carveCell m.grid) }

/-- All in-bounds positions of an `h × w` grid, as a finset. -/
def posRange (h w : Nat) : Finset Position :=
  (Finset.range h ×ˢ Finset.range w).image (fun rc => ⟨(rc.1 : Int), (rc.2 : Int)⟩)

/-- The unvisited in-bounds cells of a grid (termination measure of the
steppers: each `next()` call pops one frontier entry and marks each cell
it enqueues). -/
def unvisFinset (g : Grid) : Finset Position :=
  (posRange (gRows g) (gCols g)).filter (fun p => ¬(cellAt g p).visited)

/-- Termination measure of a stepper state. -/
def stepMeasure (s : AlgState) : Nat :=
  s.frontier.length + (unvisFinset s.maze.grid).card

/-- The visited matrix of the connectivity BFS has `h` rows of length `w`. -/
def VisDims (v : VisMat) (h w : Nat) : Prop :=
  v.length = h ∧ ∀ row ∈ v, row.length = w

/-- Number of unmarked in-bounds entries of a visited matrix
(termination measure of the connectivity BFS). -/
def uncVis (h w : Nat) (v : VisMat) : Nat :=
  ((posRange h w).filter (fun p => visGet v p = false)).card

/-! ### Concrete mazes used as witnesses and counterexamples -/

/-- Shorthand for building concrete cells. -/
def mkCell (t : CellType) (r c : Int) (s e : Bool) : Cell :=
  { type := t, position := ⟨r, c⟩, visited := false, isStart := s, isEnd := e }

/-- A 2×2 maze whose end is reachable. -/
def wMaze : MazeData :=
  { grid := [[mkCell CellType.START 0 0 true false, mkCell CellType.PATH 0 1 false false],
             [mkCell CellType.PATH 1 0 false false, mkCell CellType.END 1 1 false true]]
    startPosition := ⟨0, 0⟩, endPosition := ⟨1, 1⟩, width := 2, height := 2 }

/-- A 2×2 maze whose end is walled off (no walkable path). -/
def deadMaze : MazeData :=
  { grid := [[mkCell CellType.START 0 0 true false, mkCell CellType.WALL 0 1 false false],
             [mkCell CellType.WALL 1 0 false false, mkCell CellType.END 1 1 false true]]
    startPosition := ⟨0, 0⟩, endPosition := ⟨1, 1⟩, width := 2, height := 2 }

/-- The two grids have the same shape: equally many rows, of pairwise
equal lengths. -/
def ShapeEq (g g' : Grid) : Prop :=
  g'.length = g.length ∧ ∀ i : Nat, (g'[i]?).map List.length = (g[i]?).map List.length

/-- `g'` never turns a walkable (non-WALL) cell of `g` into a WALL: the
set of walkable cells can only grow. -/
def WallMono (g g' : Grid) : Prop :=
  ∀ p, (cellAt g' p).type = CellType.WALL → (cellAt g p).type = CellType.WALL

/-- Pointwise cell evolution under a search step or a reset: the shape
is unchanged, no cell's `isStart`/`isEnd` flag changes, and no cell
becomes a WALL. -/
def CellEvo (g g' : Grid) : Prop :=
  ShapeEq g g' ∧
  ∀ p, (cellAt g' p).isStart = (cellAt g p).isStart ∧
       (cellAt g' p).isEnd = (cellAt g p).isEnd ∧
       ((cellAt g' p).type = CellType.WALL → (cellAt g p).type = CellType.WALL)

/-- Pointwise cell evolution under the maze-generation phases: each cell
is unchanged, or has exactly its `type` overwritten with PATH or END. -/
def GenEvo (g g' : Grid) : Prop :=
  ShapeEq g g' ∧
  ∀ p, cellAt g' p = cellAt g p ∨
       cellAt g' p = { cellAt g p with type := CellType.PATH } ∨
       cellAt g' p = { cellAt g p with type := CellType.END }

/-- A 3×3 grid with a PATH source cell at (0,0) and the END cell at
(2,2): an approach corridor carves straight through to the end cell. -/
def corrGrid : Grid :=
  [[mkCell CellType.PATH 0 0 false false, mkCell CellType.WALL 0 1 false false,
    mkCell CellType.WALL 0 2 false false],
   [mkCell CellType.WALL 1 0 false false, mkCell CellType.WALL 1 1 false false,
    mkCell CellType.WALL 1 2 false false],
   [mkCell CellType.WALL 2 0 false false, mkCell CellType.WALL 2 1 false false,
    mkCell CellType.END 2 2 false true]]

/-- Walkability frame between the original grid and a stepper's grid:
same shape, and exactly the same WALL cells (searches overwrite kinds
with VISITED/VISITING/SOLUTION, never with WALL, and never write to a
WALL cell). -/
def WalkEq (g0 g : Grid) : Prop :=
  ShapeEq g0 g ∧ ∀ p, ((cellAt g p).type = CellType.WALL ↔ (cellAt g0 p).type = CellType.WALL)

/-- Run invariant of the BFS stepper relative to the initial maze `m0`
(holding from `bfsInit` up to — not including — the final step):
endpoint fields are fixed, walkability is preserved, the start is
visited with no parent; every visited cell's parent chain is a
shortest walkable path back to the start; unvisited cells have no
parent; the queue holds visited cells whose distances are sorted,
spread over at most two consecutive BFS layers, and below the current
layer everything is already visited and dequeued; dequeued cells are
fully expanded; and once the end is visited it sits in the queue until
popped. -/
def BfsInv (m0 : MazeData) (s : AlgState) : Prop :=
  s.maze.startPosition = m0.startPosition ∧
  s.maze.endPosition = m0.endPosition ∧
  s.isDone = false ∧
  s.success = false ∧
  WalkEq m0.grid s.maze.grid ∧
  ((cellAt s.maze.grid m0.startPosition).visited = true ∧
   (cellAt s.maze.grid m0.startPosition).parent = none) ∧
  (∀ p, (cellAt s.maze.grid p).visited = true →
    ∃ k, IsDist m0.grid m0.startPosition p k ∧
      ChainTo s.maze.grid m0.startPosition p k) ∧
  (∀ p, (cellAt s.maze.grid p).visited = false →
    (cellAt s.maze.grid p).parent = none) ∧
  (∀ p ∈ s.frontier, (cellAt s.maze.grid p).visited = true) ∧
  (∀ p, (cellAt s.maze.grid p).visited = true → p ∉ s.frontier →
    ∀ q, adjStep p q → isValidPosition m0.grid q = true →
      (cellAt s.maze.grid q).visited = true) ∧
  ((cellAt s.maze.grid m0.endPosition).visited = true →
    m0.endPosition ∈ s.frontier) ∧
  (∃ ds : List Nat,
    List.Forall₂ (fun p k => IsDist m0.grid m0.startPosition p k) s.frontier ds ∧
    ds.Pairwise (· ≤ ·) ∧
    (∀ a ∈ ds, ∀ b ∈ ds, a ≤ b + 1) ∧
    (∀ x kx, isValidPosition m0.grid x = true →
      IsDist m0.grid m0.startPosition x kx →
      ∀ D, ds.head? = some D →
        (kx ≤ D → (cellAt s.maze.grid x).visited = true) ∧
        (kx < D → x ∉ s.frontier)))

/-- Run invariant of the Dijkstra stepper relative to the initial maze
`m0` (holding from `dijkstraInit` up to — not including — the final
step): endpoint fields fixed and walkability preserved; every cell
carries a `g` value; the start has `g = 0`, no parent and is visited;
`g` is finite exactly on visited in-grid cells; `g` strictly decreases
along parent pointers, which link adjacent valid cells; visited
non-start cells have parents; every finite `g` is witnessed by a
walkable path at most that long; settled cells (visited, not in the
queue) have `g` equal to their true shortest distance and are fully
relaxed towards their neighbours; queue entries are visited; and once
the end is visited it sits in the queue until popped. -/
def DijInv (m0 : MazeData) (s : AlgState) : Prop :=
  s.maze.startPosition = m0.startPosition ∧
  s.maze.endPosition = m0.endPosition ∧
  s.isDone = false ∧
  s.success = false ∧
  WalkEq m0.grid s.maze.grid ∧
  (∀ p c, gridGet s.maze.grid p = some c → ∃ w : WithTop Nat, c.g = some w) ∧
  ((cellAt s.maze.grid m0.startPosition).g = some ((0 : Nat) : WithTop Nat) ∧
   (cellAt s.maze.grid m0.startPosition).parent = none ∧
   (cellAt s.maze.grid m0.startPosition).visited = true) ∧
  (∀ p, (∃ n : Nat, (cellAt s.maze.grid p).g = some ((n : Nat) : WithTop Nat)) ↔
    ((cellAt s.maze.grid p).visited = true ∧ (gridGet s.maze.grid p).isSome = true)) ∧
  (∀ p q, (cellAt s.maze.grid p).parent = some q →
    adjStep q p ∧ isValidPosition m0.grid p = true ∧
    ∃ np nq : Nat, (cellAt s.maze.grid p).g = some ((np : Nat) : WithTop Nat) ∧
      (cellAt s.maze.grid q).g = some ((nq : Nat) : WithTop Nat) ∧ nq < np) ∧
  (∀ p, (cellAt s.maze.grid p).visited = true → p ≠ m0.startPosition →
    ∃ q, (cellAt s.maze.grid p).parent = some q) ∧
  (∀ p, (cellAt s.maze.grid p).visited = true → isValidPosition m0.grid p = true) ∧
  (∀ p (n : Nat), (cellAt s.maze.grid p).g = some ((n : Nat) : WithTop Nat) →
    ∃ l2, l2 ≤ n ∧ PathN m0.grid m0.startPosition p l2) ∧
  (∀ p, (cellAt s.maze.grid p).visited = true → p ∉ s.frontier →
    ∀ kp, IsDist m0.grid m0.startPosition p kp →
      (cellAt s.maze.grid p).g = some ((kp : Nat) : WithTop Nat)) ∧
  (∀ u, (cellAt s.maze.grid u).visited = true → u ∉ s.frontier →
    ∀ v, adjStep u v → isValidPosition m0.grid v = true →
      (cellAt s.maze.grid v).visited = true ∧
      (∀ nu : Nat, (cellAt s.maze.grid u).g = some ((nu : Nat) : WithTop Nat) →
        ∃ nv : Nat, (cellAt s.maze.grid v).g = some ((nv : Nat) : WithTop Nat) ∧
          nv ≤ nu + 1)) ∧
  (∀ p ∈ s.frontier, (cellAt s.maze.grid p).visited = true) ∧
  ((cellAt s.maze.grid m0.endPosition).visited = true →
    m0.endPosition ∈ s.frontier)

/-! ## Lemmas about the grid primitives -/

theorem gridGet_set_self {g : Grid} {p : Position} (h : (gridGet g p).isSome)
    (c : Cell) : gridGet (gridSet g p c) p = some c := by
  unfold gridGet gridSet at *
  by_cases hneg : p.row < 0 ∨ p.col < 0
  · rw [if_pos hneg] at h; simp at h
  · rw [if_neg hneg] at h ⊢
    rw [if_neg hneg]
    match hrow : g[p.row.toNat]? with
    | none => rw [hrow] at h; simp at h
    | some rowl =>
      rw [hrow] at h
      simp only [Option.getD_some] at h ⊢
      have hrlen : p.row.toNat < g.length := (List.getElem?_eq_some_iff.mp hrow).1
      have hclen : p.col.toNat < rowl.length := by
        cases hcol : rowl[p.col.toNat]? with
        | none => rw [hcol] at h; simp at h
        | some c0 => exact (List.getElem?_eq_some_iff.mp hcol).1
      rw [List.getElem?_set_self hrlen]
      simp [List.getElem?_set_self hclen]

theorem gridGet_set_ne {g : Grid} {p q : Position} (hq : q ≠ p) (c : Cell) :
    gridGet (gridSet g p c) q = gridGet g q := by
  unfold gridGet gridSet
  by_cases hp : p.row < 0 ∨ p.col < 0
  · rw [if_pos hp]
  · rw [if_neg hp]
    by_cases hqn : q.row < 0 ∨ q.col < 0
    · rw [if_pos hqn, if_pos hqn]
    · rw [if_neg hqn, if_neg hqn]
      push_neg at hp hqn
      by_cases hrow : q.row = p.row
      · have hcol : q.col ≠ p.col := fun hc => hq (by cases p; cases q; simp_all)
        have hrn : q.row.toNat = p.row.toNat := by rw [hrow]
        rw [hrn, List.getElem?_set]
        by_cases hlt : p.row.toNat < g.length
        · rw [if_pos rfl, if_pos hlt]
          match hr : g[p.row.toNat]? with
          | none =>
            have := List.getElem?_eq_none_iff.mp hr
            omega
          | some rowl =>
            simp only [Option.getD_some]
            rw [List.getElem?_set_ne (show p.col.toNat ≠ q.col.toNat by omega)]
        · rw [if_pos rfl, if_neg hlt]
          have hr : g[p.row.toNat]? = none := List.getElem?_eq_none (by omega)
          rw [hr]
      · rw [List.getElem?_set_ne (show p.row.toNat ≠ q.row.toNat by omega)]

theorem modCell_get_self (g : Grid) (p : Position) (f : Cell → Cell) :
    gridGet (modCell g p f) p = (gridGet g p).map f := by
  unfold modCell
  cases hg : gridGet g p with
  | none => simp [hg]
  | some c => rw [gridGet_set_self (by rw [hg]; rfl)]; rfl

theorem modCell_get_ne {q p : Position} (g : Grid) (f : Cell → Cell) (hq : q ≠ p) :
    gridGet (modCell g p f) q = gridGet g q := by
  unfold modCell
  cases gridGet g p with
  | none => rfl
  | some c => exact gridGet_set_ne hq _

theorem cellAt_modCell_self {g : Grid} {p : Position} (f : Cell → Cell)
    (h : (gridGet g p).isSome) : cellAt (modCell g p f) p = f (cellAt g p) := by
  unfold cellAt
  rw [modCell_get_self]
  cases hg : gridGet g p with
  | none => rw [hg] at h; simp at h
  | some c => rfl

theorem cellAt_modCell_ne {q p : Position} (g : Grid) (f : Cell → Cell) (hq : q ≠ p) :
    cellAt (modCell g p f) q = cellAt g q := by
  unfold cellAt
  rw [modCell_get_ne g f hq]

theorem gRows_gridSet (g : Grid) (p : Position) (c : Cell) :
    gRows (gridSet g p c) = gRows g := by
  unfold gridSet gRows
  split
  · rfl
  · simp

theorem gCols_gridSet (g : Grid) (p : Position) (c : Cell) :
    gCols (gridSet g p c) = gCols g := by
  unfold gridSet gCols
  split
  · rfl
  · cases g with
    | nil => simp
    | cons r rs =>
      cases hn : p.row.toNat with
      | zero => simp [List.set]
      | succ m => simp [List.set]

theorem gRows_modCell (g : Grid) (p : Position) (f : Cell → Cell) :
    gRows (modCell g p f) = gRows g := by
  unfold modCell
  cases gridGet g p with
  | none => rfl
  | some c => exact gRows_gridSet _ _ _

theorem gCols_modCell (g : Grid) (p : Position) (f : Cell → Cell) :
    gCols (modCell g p f) = gCols g := by
  unfold modCell
  cases gridGet g p with
  | none => rfl
  | some c => exact gCols_gridSet _ _ _

theorem GridDims_gridSet {g : Grid} {h w : Nat} (hd : GridDims g h w)
    (p : Position) (c : Cell) : GridDims (gridSet g p c) h w := by
  obtain ⟨h1, h2⟩ := hd
  refine ⟨by rw [gRows_gridSet]; exact h1, ?_⟩
  intro row hrow
  unfold gridSet at hrow
  split at hrow
  · exact h2 row hrow
  · by_cases hlt : p.row.toNat < g.length
    · rcases List.mem_or_eq_of_mem_set hrow with hrow | hrow
      · exact h2 row hrow
      · subst hrow
        match hr : g[p.row.toNat]? with
        | none =>
          have := List.getElem?_eq_none_iff.mp hr
          omega
        | some rowl =>
          simp only [Option.getD_some, List.length_set]
          exact h2 rowl (List.getElem?_mem hr)
    · rw [List.set_eq_of_length_le (by omega)] at hrow
      exact h2 row hrow

theorem GridDims_modCell {g : Grid} {h w : Nat} (hd : GridDims g h w)
    (p : Position) (f : Cell → Cell) : GridDims (modCell g p f) h w := by
  unfold modCell
  cases gridGet g p with
  | none => exact hd
  | some c => exact GridDims_gridSet hd _ _

theorem gridGet_map (F : Cell → Cell) (g : Grid) (p : Position) :
    gridGet (g.map (fun row => row.map F)) p = (gridGet g p).map F := by
  unfold gridGet
  split
  · rfl
  · rw [List.getElem?_map]
    cases g[p.row.toNat]? with
    | none => rfl
    | some row => simp [List.getElem?_map]

theorem GridDims_map (F : Cell → Cell) {g : Grid} {h w : Nat}
    (hd : GridDims g h w) : GridDims (g.map (fun row => row.map F)) h w := by
  obtain ⟨h1, h2⟩ := hd
  refine ⟨by simpa [gRows] using h1, ?_⟩
  intro row hrow
  rw [List.mem_map] at hrow
  obtain ⟨r0, hr0, rfl⟩ := hrow
  simpa using h2 r0 hr0

theorem gridGet_isSome_iff {g : Grid} {h w : Nat} (hd : GridDims g h w)
    (p : Position) :
    (gridGet g p).isSome ↔
      0 ≤ p.row ∧ p.row < (h : Int) ∧ 0 ≤ p.col ∧ p.col < (w : Int) := by
  obtain ⟨h1, h2⟩ := hd
  unfold gridGet
  by_cases hneg : p.row < 0 ∨ p.col < 0
  · rw [if_pos hneg]
    simp only [Option.isSome_none, Bool.false_eq_true, false_iff]
    omega
  · rw [if_neg hneg]
    push_neg at hneg
    cases hr : g[p.row.toNat]? with
    | none =>
      have := List.getElem?_eq_none_iff.mp hr
      simp only [Option.isSome_none, Bool.false_eq_true, false_iff]
      unfold gRows at h1
      omega
    | some rowl =>
      have hrl : p.row.toNat < g.length := (List.getElem?_eq_some_iff.mp hr).1
      have hw : rowl.length = w := h2 rowl (List.getElem?_mem hr)
      constructor
      · intro hs
        have hs2 : (rowl[p.col.toNat]?).isSome = true := hs
        cases hc : rowl[p.col.toNat]? with
        | none => rw [hc] at hs2; simp at hs2
        | some c =>
          have := (List.getElem?_eq_some_iff.mp hc).1
          unfold gRows at h1
          omega
      · intro hb
        have : p.col.toNat < rowl.length := by omega
        cases hc : rowl[p.col.toNat]? with
        | none =>
          have := List.getElem?_eq_none_iff.mp hc
          omega
        | some c => simp [hc]

/-! ## Lemmas about adjacency, paths and shortest distance -/

theorem adjStep_symm {p q : Position} (h : adjStep p q) : adjStep q p := by
  unfold adjStep at *
  omega

theorem adjStep_ne {p q : Position} (h : adjStep p q) : p ≠ q := by
  unfold adjStep at h
  intro he
  subst he
  omega

theorem mem_dirsOf_iff {p q : Position} : q ∈ dirsOf p ↔ adjStep p q := by
  unfold dirsOf adjStep
  cases p with
  | mk pr pc =>
    cases q with
    | mk qr qc =>
      simp only [List.mem_cons, List.mem_singleton, List.not_mem_nil, or_false,
        Position.mk.injEq]
      constructor
      · intro h
        rcases h with ⟨h1, h2⟩ | ⟨h1, h2⟩ | ⟨h1, h2⟩ | ⟨h1, h2⟩ <;> omega
      · intro h
        omega

theorem mem_dfsDirsOf_iff {p q : Position} : q ∈ dfsDirsOf p ↔ adjStep p q := by
  unfold dfsDirsOf adjStep
  cases p with
  | mk pr pc =>
    cases q with
    | mk qr qc =>
      simp only [List.mem_cons, List.mem_singleton, List.not_mem_nil, or_false,
        Position.mk.injEq]
      constructor
      · intro h
        rcases h with ⟨h1, h2⟩ | ⟨h1, h2⟩ | ⟨h1, h2⟩ | ⟨h1, h2⟩ <;> omega
      · intro h
        omega

theorem PathN.valid_left {g : Grid} {p r : Position} {n : Nat}
    (h : PathN g p r n) : isValidPosition g p = true := by
  cases h with
  | refl _ hv => exact hv
  | cons _ _ _ _ hv _ _ => exact hv

theorem PathN.valid_right {g : Grid} {p r : Position} {n : Nat}
    (h : PathN g p r n) : isValidPosition g r = true := by
  induction h with
  | refl _ hv => exact hv
  | cons _ _ _ _ _ _ _ ih => exact ih

theorem PathN.append {g : Grid} {a b c : Position} {m n : Nat}
    (h1 : PathN g a b m) (h2 : PathN g b c n) : PathN g a c (m + n) := by
  induction h1 with
  | refl _ _ => simpa using h2
  | cons p q _ k hv ha _ ih =>
    have := PathN.cons p q c (k + n) hv ha (ih h2)
    simpa [Nat.add_right_comm] using this

theorem PathN.snoc {g : Grid} {a b c : Position} {n : Nat}
    (h1 : PathN g a b n) (ha : adjStep b c) (hc : isValidPosition g c = true) :
    PathN g a c (n + 1) :=
  h1.append (PathN.cons b c c 0 h1.valid_right ha (PathN.refl c hc))

theorem PathN_congr {g g' : Grid} {a b : Position} {n : Nat}
    (hval : ∀ p, isValidPosition g' p = isValidPosition g p)
    (h : PathN g a b n) : PathN g' a b n := by
  induction h with
  | refl p hv => exact PathN.refl p ((hval p).trans hv)
  | cons p q r k hv ha _ ih => exact PathN.cons p q r k ((hval p).trans hv) ha ih

theorem PathN.peel_last {g : Grid} {a c : Position} {n : Nat}
    (h : PathN g a c (n + 1)) :
    ∃ b, PathN g a b n ∧ adjStep b c ∧ isValidPosition g c = true := by
  induction n generalizing a with
  | zero =>
    match h with
    | PathN.cons _ q _ _ hv ha htail =>
      match htail with
      | PathN.refl _ hv2 =>
        exact ⟨a, PathN.refl a hv, ha, hv2⟩
  | succ m ih =>
    match h with
    | PathN.cons _ q _ _ hv ha htail =>
      obtain ⟨b, hb, hbc, hc⟩ := ih htail
      exact ⟨b, PathN.cons a q b m hv ha hb, hbc, hc⟩

theorem PathN.zero_eq {g : Grid} {a b : Position} (h : PathN g a b 0) : a = b := by
  cases h
  rfl

theorem exists_isDist {g : Grid} {a b : Position} (h : Reach g a b) :
    ∃ d, IsDist g a b d := by
  obtain ⟨n, hn⟩ := h
  refine ⟨sInf { n | PathN g a b n }, ?_, ?_⟩
  · exact Nat.sInf_mem ⟨n, hn⟩
  · intro j hj
    exact Nat.sInf_le hj

theorem IsDist.unique {g : Grid} {a b : Position} {m n : Nat}
    (hm : IsDist g a b m) (hn : IsDist g a b n) : m = n :=
  Nat.le_antisymm (hm.2 n hn.1) (hn.2 m hm.1)

/-- A walkable path as a list of cells (head `a`, last `b`,
`n + 1` cells). -/
theorem PathN_toList {g : Grid} {a b : Position} {n : Nat} (h : PathN g a b n) :
    ∃ l : List Position, l.length = n + 1 ∧ l.head? = some a ∧
      l.getLast? = some b ∧ l.Chain' adjStep ∧
      ∀ x ∈ l, isValidPosition g x = true := by
  induction h with
  | refl p hv =>
    exact ⟨[p], rfl, rfl, rfl, List.chain'_singleton p, by simpa using hv⟩
  | cons p q r k hv ha _ ih =>
    obtain ⟨l, hlen, hhead, hlast, hchain, hall⟩ := ih
    refine ⟨p :: l, by simp [hlen], rfl, ?_, ?_, ?_⟩
    · rw [List.getLast?_cons, hlast]
      cases l <;> simp_all
    · cases l with
      | nil => simp at hlen
      | cons x xs =>
        refine List.Chain'.cons ?_ hchain
        cases hhead
        exact ha
    · intro x hx
      rcases List.mem_cons.mp hx with rfl | hx
      · exact hv
      · exact hall x hx

theorem PathN_ofList {g : Grid} :
    ∀ (l : List Position) (a b : Position), l.head? = some a →
      l.getLast? = some b → l.Chain' adjStep →
      (∀ x ∈ l, isValidPosition g x = true) → PathN g a b (l.length - 1) := by
  intro l
  induction l with
  | nil => intro a b h; simp at h
  | cons x xs ih =>
    intro a b hhead hlast hchain hall
    simp only [List.head?_cons, Option.some.injEq] at hhead
    subst hhead
    cases xs with
    | nil =>
      simp only [List.getLast?_singleton, Option.some.injEq] at hlast
      subst hlast
      exact PathN.refl x (hall x (by simp))
    | cons y ys =>
      have hchain2 : (y :: ys).Chain' adjStep := hchain.tail
      have hadj : adjStep x y := List.chain'_cons.mp hchain |>.1
      have hlast2 : (y :: ys).getLast? = some b := by
        rwa [List.getLast?_cons_cons] at hlast
      have htail := ih y b rfl hlast2 hchain2
        (fun z hz => hall z (List.mem_cons_of_mem _ hz))
      have hstep := PathN.cons x y b ((y :: ys).length - 1)
        (hall x (by simp)) hadj htail
      simpa using hstep

theorem gCols_eq {g : Grid} {h w : Nat} (hd : GridDims g h w) (hh : 0 < h) :
    gCols g = w := by
  obtain ⟨h1, h2⟩ := hd
  cases g with
  | nil => simp [gRows] at h1; omega
  | cons r rs => exact h2 r (by simp)

theorem inBoundsB_iff {g : Grid} {h w : Nat} (hd : GridDims g h w) (hh : 0 < h)
    (p : Position) :
    inBoundsB g p = true ↔
      0 ≤ p.row ∧ p.row < (h : Int) ∧ 0 ≤ p.col ∧ p.col < (w : Int) := by
  unfold inBoundsB
  rw [hd.1, gCols_eq hd hh]
  simp only [Bool.and_eq_true, decide_eq_true_eq]
  tauto

theorem mem_posRange {h w : Nat} {p : Position} :
    p ∈ posRange h w ↔
      0 ≤ p.row ∧ p.row < (h : Int) ∧ 0 ≤ p.col ∧ p.col < (w : Int) := by
  unfold posRange
  rw [Finset.mem_image]
  constructor
  · rintro ⟨rc, hrc, rfl⟩
    rw [Finset.mem_product, Finset.mem_range, Finset.mem_range] at hrc
    obtain ⟨hr, hc⟩ := hrc
    refine ⟨Int.ofNat_nonneg _, ?_, Int.ofNat_nonneg _, ?_⟩
    · show (rc.1 : Int) < (h : Int)
      exact_mod_cast hr
    · show (rc.2 : Int) < (w : Int)
      exact_mod_cast hc
  · rintro ⟨h1, h2, h3, h4⟩
    refine ⟨(p.row.toNat, p.col.toNat), ?_, ?_⟩
    · rw [Finset.mem_product, Finset.mem_range, Finset.mem_range]
      omega
    · show (⟨(p.row.toNat : Int), (p.col.toNat : Int)⟩ : Position) = p
      have e1 : (p.row.toNat : Int) = p.row := Int.toNat_of_nonneg h1
      have e2 : (p.col.toNat : Int) = p.col := Int.toNat_of_nonneg h3
      rw [e1, e2]

theorem posRange_card (h w : Nat) : (posRange h w).card ≤ h * w := by
  unfold posRange
  calc ((Finset.range h ×ˢ Finset.range w).image _).card
      ≤ (Finset.range h ×ˢ Finset.range w).card := Finset.card_image_le
    _ = h * w := by rw [Finset.card_product, Finset.card_range, Finset.card_range]

theorem nodup_valid_length_le {g : Grid} {h w : Nat} (hd : GridDims g h w)
    (hh : 0 < h) {l : List Position} (hnd : l.Nodup)
    (hall : ∀ x ∈ l, isValidPosition g x = true) : l.length ≤ h * w := by
  have hsub : l.toFinset ⊆ posRange h w := by
    intro x hx
    rw [List.mem_toFinset] at hx
    have hv := hall x hx
    unfold isValidPosition at hv
    rw [Bool.and_eq_true] at hv
    rw [mem_posRange]
    exact (inBoundsB_iff hd hh x).mp hv.1
  calc l.length = l.toFinset.card := (List.toFinset_card_of_nodup hnd).symm
    _ ≤ (posRange h w).card := Finset.card_le_card hsub
    _ ≤ h * w := posRange_card h w

/-- Any chain of positions can be shortened to a duplicate-free chain
with the same endpoints, over the same set of cells. -/
theorem chain_shorten :
    ∀ l : List Position, l.Chain' adjStep →
      ∃ l' : List Position, l'.Chain' adjStep ∧ l'.Nodup ∧
        l'.head? = l.head? ∧ l'.getLast? = l.getLast? ∧
        l'.length ≤ l.length ∧ ∀ x ∈ l', x ∈ l := by
  intro l
  induction l with
  | nil => exact fun _ => ⟨[], by simp⟩
  | cons x xs ih =>
    intro hchain
    obtain ⟨xs', hc', hnd', hh', hl', hlen', hsub'⟩ := ih hchain.tail
    by_cases hx : x ∈ xs'
    · obtain ⟨u, v, rfl⟩ := List.append_of_mem hx
      refine ⟨x :: v, ?_, ?_, rfl, ?_, ?_, ?_⟩
      · exact (List.chain'_append.mp hc').2.1
      · have : (x :: v).Sublist (u ++ x :: v) := (List.sublist_append_right u _)
        exact this.nodup hnd'
      · have hxs_ne : xs ≠ [] := by
          intro he
          rw [he] at hh'
          simp at hh'
        have h1 : (u ++ x :: v).getLast? = (x :: v).getLast? :=
          List.getLast?_append_of_ne_nil u (by simp)
        rw [← h1, hl']
        obtain ⟨z, zs, rfl⟩ := List.exists_cons_of_ne_nil hxs_ne
        rw [List.getLast?_cons_cons]
      · have : (x :: v).length ≤ (u ++ x :: v).length := by
          simp only [List.length_append, List.length_cons]
          omega
        calc (x :: v).length ≤ (u ++ x :: v).length := this
          _ ≤ xs.length := hlen'
          _ ≤ (x :: xs).length := by simp
      · intro y hy
        rcases List.mem_cons.mp hy with rfl | hy
        · exact List.mem_cons_self _ _
        · exact List.mem_cons_of_mem _ (hsub' y (by simp [hy]))
    · refine ⟨x :: xs', ?_, ?_, rfl, ?_, ?_, ?_⟩
      · rw [List.chain'_cons']
        refine ⟨?_, hc'⟩
        intro y hy
        rw [hh'] at hy
        have := List.chain'_cons'.mp hchain
        exact this.1 y hy
      · exact List.nodup_cons.mpr ⟨hx, hnd'⟩
      · cases hxs : xs with
        | nil =>
          subst hxs
          simp only [List.head?_nil] at hh'
          have : xs' = [] := by
            cases xs' with
            | nil => rfl
            | cons z zs => simp at hh'
          subst this
          rfl
        | cons z zs =>
          subst hxs
          have hne : xs' ≠ [] := by
            intro he
            rw [he] at hh'
            simp at hh'
          rcases List.exists_cons_of_ne_nil hne with ⟨z', zs', rfl⟩
          rw [List.getLast?_cons_cons, List.getLast?_cons_cons]
          exact hl'
      · simpa using Nat.succ_le_succ hlen'
      · intro y hy
        rcases List.mem_cons.mp hy with rfl | hy
        · exact List.mem_cons_self _ _
        · exact List.mem_cons_of_mem _ (hsub' y hy)

/-- A shortest path length is less than the number of grid cells. -/
theorem isDist_lt_cells {g : Grid} {h w : Nat} {a b : Position} {d : Nat}
    (hd : GridDims g h w) (hh : 0 < h) (hdist : IsDist g a b d) :
    d + 1 ≤ h * w := by
  obtain ⟨l, hlen, hhead, hlast, hchain, hall⟩ := PathN_toList hdist.1
  obtain ⟨l', hc', hnd', hh', hl', hlen', hsub'⟩ := chain_shorten l hchain
  have hne : l' ≠ [] := by
    intro he
    rw [he] at hh'
    rw [hhead] at hh'
    simp at hh'
  have hpath' : PathN g a b (l'.length - 1) :=
    PathN_ofList l' a b (hh'.trans hhead) (hl'.trans hlast) hc'
      (fun x hx => hall x (hsub' x hx))
  have hdle : d ≤ l'.length - 1 := hdist.2 _ hpath'
  have hlpos : 0 < l'.length := List.length_pos.mpr hne
  have := nodup_valid_length_le hd hh hnd' (fun x hx => hall x (hsub' x hx))
  omega

/-! ## Lemmas about parent chains and `reconstructPathMark` -/

theorem ChainTo_mono {g g' : Grid} {s p : Position} {k : Nat}
    (hpar : ∀ x q, (cellAt g x).parent = some q → (cellAt g' x).parent = some q)
    (h : ChainTo g s p k) : ChainTo g' s p k := by
  induction h with
  | base => exact ChainTo.base
  | step p q k hp _ ih => exact ChainTo.step p q k (hpar p q hp) ih

theorem cellAt_modCell_parent_eq (g : Grid) (p : Position) (f : Cell → Cell)
    (hf : ∀ c, (f c).parent = c.parent) (x : Position) :
    (cellAt (modCell g p f) x).parent = (cellAt g x).parent := by
  by_cases hx : x = p
  · subst hx
    unfold cellAt
    rw [modCell_get_self]
    cases gridGet g x with
    | none => rfl
    | some c => exact hf c
  · rw [cellAt_modCell_ne g f hx]

/-- `reconstructPathMark` returns a path of `k + 1` cells when the
parent chain from `pos` reaches the start (whose parent is unset) in
`k` steps and the fuel suffices. -/
theorem reconstruct_len {s : Position} :
    ∀ {k fuel : Nat} {g : Grid} {p : Position}, ChainTo g s p k →
      (cellAt g s).parent = none → k + 1 ≤ fuel →
      (reconstructPathMark g p fuel).1.length = k + 1 := by
  intro k
  induction k with
  | zero =>
    intro fuel g p hch hs hf
    cases hch with
    | base =>
      match fuel, hf with
      | fuel' + 1, _ =>
        unfold reconstructPathMark
        rw [hs]
        rfl
  | succ k ih =>
    intro fuel g p hch hs hf
    match hch with
    | ChainTo.step _ q _ hp htail =>
      match fuel, hf with
      | fuel' + 1, hf =>
        unfold reconstructPathMark
        rw [hp]
        simp only []
        by_cases hguard : (!(cellAt g q).isStart && !(cellAt g q).isEnd) = true
        · rw [if_pos hguard]
          have hpar : ∀ x r, (cellAt g x).parent = some r →
              (cellAt (modCell g q (fun c => { c with type := CellType.SOLUTION })) x).parent
                = some r := by
            intro x r hx
            rw [cellAt_modCell_parent_eq g q
              (fun c => { c with type := CellType.SOLUTION }) (fun c => rfl) x]
            exact hx
          have hch2 := ChainTo_mono hpar htail
          have hs2 : (cellAt (modCell g q
              (fun c => { c with type := CellType.SOLUTION })) s).parent = none := by
            rw [cellAt_modCell_parent_eq g q
              (fun c => { c with type := CellType.SOLUTION }) (fun c => rfl) s]
            exact hs
          have hlen := ih hch2 hs2 (show k + 1 ≤ fuel' by omega)
          simp [hlen]
        · rw [if_neg hguard]
          have hlen := ih htail hs (show k + 1 ≤ fuel' by omega)
          simp [hlen]

/-! ## Claim C1 (and C7): behaviour at and after termination -/

/-- C1, counterexample: on a 2×2 maze whose end is walled off, the BFS
frontier empties after the first `next()` call without the end having
been popped (`success` is still false), and the following `next()` call
returns null — not a final `AlgorithmStep` with `isDone = true`,
`success = false` as the claim states. -/
theorem claim_C1_counterexample :
    (iterState bfsNext (bfsInit deadMaze) 1).isDone = false ∧
    (iterState bfsNext (bfsInit deadMaze) 1).frontier = [] ∧
    (iterState bfsNext (bfsInit deadMaze) 1).success = false ∧
    (bfsNext (iterState bfsNext (bfsInit deadMaze) 1)).1 = none := by
  refine ⟨?_, ?_, ?_, ?_⟩ <;> rfl

/-- C1, amended: for each of the four step algorithms, if the frontier
is empty and the run is not yet done (the end was never popped), the
next call to `next()` returns null — not a step value — marks the
instance done, and leaves the maze and the `success` flag (still false)
untouched. -/
theorem claim_C1_amended (s : AlgState) (hdone : s.isDone = false)
    (hempty : s.frontier = []) :
    bfsNext s = (none, { s with isDone := true }) ∧
    dfsNext s = (none, { s with isDone := true }) ∧
    astarNext s = (none, { s with isDone := true }) ∧
    dijkstraNext s = (none, { s with isDone := true }) := by
  refine ⟨?_, ?_, ?_, ?_⟩ <;>
    simp [bfsNext, dfsNext, astarNext, dijkstraNext, hdone, hempty]

/-- C1, witness for the amended claim at a concrete state: the state
reached after one BFS call on the dead maze. -/
theorem claim_C1_amended_witness :
    (iterState bfsNext (bfsInit deadMaze) 1).isDone = false ∧
    (iterState bfsNext (bfsInit deadMaze) 1).frontier = [] ∧
    bfsNext (iterState bfsNext (bfsInit deadMaze) 1) =
      (none, { iterState bfsNext (bfsInit deadMaze) 1 with isDone := true }) :=
  ⟨rfl, rfl, (claim_C1_amended _ rfl rfl).1⟩

theorem bfsNext_done_of_none (s : AlgState) :
    (bfsNext s).1 = none → (bfsNext s).2.isDone = true := by
  unfold bfsNext
  split
  · intro _; rfl
  · split
    · intro _; rfl
    · intro h
      split at h
      · simp [finishRun] at h
      · simp at h

theorem dfsNext_done_of_none (s : AlgState) :
    (dfsNext s).1 = none → (dfsNext s).2.isDone = true := by
  unfold dfsNext
  split
  · intro _; rfl
  · split
    · intro _; rfl
    · intro h
      split at h
      · simp [finishRun] at h
      · simp at h

theorem astarNext_done_of_none (s : AlgState) :
    (astarNext s).1 = none → (astarNext s).2.isDone = true := by
  unfold astarNext
  split
  · intro _; rfl
  · intro h
    simp only [] at h
    split at h
    · simp [finishRun] at h
    · simp at h

theorem dijkstraNext_done_of_none (s : AlgState) :
    (dijkstraNext s).1 = none → (dijkstraNext s).2.isDone = true := by
  unfold dijkstraNext
  split
  · intro _; rfl
  · intro h
    simp only [] at h
    split at h
    · simp [finishRun] at h
    · simp at h

theorem bfsNext_done_of_some (s : AlgState) (st : AlgorithmStep)
    (hst : st.isDone = true) :
    (bfsNext s).1 = some st → (bfsNext s).2.isDone = true := by
  unfold bfsNext
  split
  · intro h; simp at h
  · split
    · intro h; simp at h
    · intro h
      split at h
      · simp_all [finishRun]
      · rw [Option.some_inj] at h
        rw [← h] at hst
        simp at hst

theorem dfsNext_done_of_some (s : AlgState) (st : AlgorithmStep)
    (hst : st.isDone = true) :
    (dfsNext s).1 = some st → (dfsNext s).2.isDone = true := by
  unfold dfsNext
  split
  · intro h; simp at h
  · split
    · intro h; simp at h
    · intro h
      split at h
      · simp_all [finishRun]
      · rw [Option.some_inj] at h
        rw [← h] at hst
        simp at hst

theorem astarNext_done_of_some (s : AlgState) (st : AlgorithmStep)
    (hst : st.isDone = true) :
    (astarNext s).1 = some st → (astarNext s).2.isDone = true := by
  unfold astarNext
  split
  · intro h; simp at h
  · intro h
    simp only [] at h ⊢
    split at h
    · simp_all [finishRun]
    · rw [Option.some_inj] at h
      rw [← h] at hst
      simp at hst

theorem dijkstraNext_done_of_some (s : AlgState) (st : AlgorithmStep)
    (hst : st.isDone = true) :
    (dijkstraNext s).1 = some st → (dijkstraNext s).2.isDone = true := by
  unfold dijkstraNext
  split
  · intro h; simp at h
  · intro h
    simp only [] at h ⊢
    split at h
    · simp_all [finishRun]
    · rw [Option.some_inj] at h
      rw [← h] at hst
      simp at hst

/-- C7: once an algorithm instance is done (`isDone` — which holds as
soon as a call has reported a final step or silently reached the empty
frontier), every further `next()` call returns null and leaves the
entire state — in particular the grid and every cell field — unchanged;
moreover any call that returns a final step, or returns null, leaves the
instance in a done state. -/
theorem claim_C7 :
    (∀ s : AlgState, s.isDone = true →
      bfsNext s = (none, s) ∧ dfsNext s = (none, s) ∧
      astarNext s = (none, s) ∧ dijkstraNext s = (none, s)) ∧
    (∀ s : AlgState, ∀ st : AlgorithmStep, st.isDone = true →
      ((bfsNext s).1 = some st → (bfsNext s).2.isDone = true) ∧
      ((dfsNext s).1 = some st → (dfsNext s).2.isDone = true) ∧
      ((astarNext s).1 = some st → (astarNext s).2.isDone = true) ∧
      ((dijkstraNext s).1 = some st → (dijkstraNext s).2.isDone = true)) ∧
    (∀ s : AlgState,
      ((bfsNext s).1 = none → (bfsNext s).2.isDone = true) ∧
      ((dfsNext s).1 = none → (dfsNext s).2.isDone = true) ∧
      ((astarNext s).1 = none → (astarNext s).2.isDone = true) ∧
      ((dijkstraNext s).1 = none → (dijkstraNext s).2.isDone = true)) := by
  refine ⟨?_, ?_, ?_⟩
  · intro s h
    cases s with
    | mk maze frontier closed vc d succ =>
      cases h
      refine ⟨?_, ?_, ?_, ?_⟩ <;> rfl
  · intro s st hdone
    exact ⟨bfsNext_done_of_some s st hdone, dfsNext_done_of_some s st hdone,
      astarNext_done_of_some s st hdone, dijkstraNext_done_of_some s st hdone⟩
  · intro s
    exact ⟨bfsNext_done_of_none s, dfsNext_done_of_none s,
      astarNext_done_of_none s, dijkstraNext_done_of_none s⟩

/-- C7, witness: a concrete done state (the BFS run on the dead maze
after two calls) really gets null and an unchanged state. -/
theorem claim_C7_witness :
    (iterState bfsNext (bfsInit deadMaze) 2).isDone = true ∧
    bfsNext (iterState bfsNext (bfsInit deadMaze) 2) =
      (none, iterState bfsNext (bfsInit deadMaze) 2) :=
  ⟨rfl, (claim_C7.1 _ rfl).1⟩

/-! ## Claim C8: `resetMazeVisitation` -/

theorem cloneCell_id (c : Cell) : cloneCell c = c := by
  unfold cloneCell
  cases c with
  | mk t pos v par s e g h f =>
    cases par with
    | none => rfl
    | some q => rfl

theorem gridGet_mem {g : Grid} {p : Position} {c : Cell}
    (h : gridGet g p = some c) : ∃ row ∈ g, c ∈ row := by
  unfold gridGet at h
  split at h
  · simp at h
  · split at h
    · simp at h
    · rename_i row hrow
      exact ⟨row, List.getElem?_mem hrow, List.getElem?_mem h⟩

/-- C8: on any maze whose cell kinds lie in the post-search set
{WALL, PATH, START, END, VISITED, VISITING, SOLUTION},
`resetMazeVisitation` clears every cell's scratch state
(`visited = false`, `parent`, `g`, `h`, `f` unset), leaves every
cell's kind in {WALL, PATH, START, END}, maps each formerly derived
kind (VISITED/VISITING/SOLUTION) to START where `isStart` holds, END
where `isEnd` holds and PATH otherwise, and leaves the other kinds
unchanged. -/
theorem claim_C8 (m : MazeData) (hpost : postSearchB m = true) :
    ∀ p c, gridGet (resetMazeVisitation m).grid p = some c →
      ∃ c0, gridGet m.grid p = some c0 ∧
        c.visited = false ∧ c.parent = none ∧
        c.g = none ∧ c.h = none ∧ c.f = none ∧
        (c.type = CellType.WALL ∨ c.type = CellType.PATH ∨
         c.type = CellType.START ∨ c.type = CellType.END) ∧
        ((c0.type = CellType.VISITED ∨ c0.type = CellType.VISITING ∨
          c0.type = CellType.SOLUTION) →
          c.type = (if c0.isStart then CellType.START
            else if c0.isEnd then CellType.END else CellType.PATH)) ∧
        (¬(c0.type = CellType.VISITED ∨ c0.type = CellType.VISITING ∨
           c0.type = CellType.SOLUTION) → c.type = c0.type) := by
  intro p c hget
  unfold resetMazeVisitation at hget
  simp only [] at hget
  unfold cloneMazeData at hget
  simp only [] at hget
  rw [gridGet_map] at hget
  rw [gridGet_map] at hget
  rw [Option.map_map] at hget
  rw [Option.map_eq_some'] at hget
  obtain ⟨c0, hc0, hc⟩ := hget
  refine ⟨c0, hc0, ?_⟩
  have htype : c0.type ∈ [CellType.WALL, CellType.PATH, CellType.START,
      CellType.END, CellType.VISITED, CellType.VISITING, CellType.SOLUTION] := by
    obtain ⟨row, hrow, hcm⟩ := gridGet_mem hc0
    unfold postSearchB at hpost
    rw [List.all_eq_true] at hpost
    have := hpost row hrow
    rw [List.all_eq_true] at this
    have := this c0 hcm
    simpa using this
  subst hc
  rw [Function.comp_apply, cloneCell_id]
  unfold resetCell
  simp only [List.mem_cons, List.not_mem_nil, or_false] at htype
  by_cases hder : c0.type = CellType.VISITED ∨ c0.type = CellType.VISITING ∨
      c0.type = CellType.SOLUTION
  · rw [if_pos hder]
    by_cases hs : c0.isStart
    · simp [hs, hder]
    · by_cases he : c0.isEnd
      · simp [hs, he, hder]
      · simp [hs, he, hder]
  · rw [if_neg hder]
    rcases htype with h | h | h | h | h | h | h <;> simp_all

/-- C8, witness: instantiation at a concrete post-search 2×2 maze (the
grid left by a finished BFS run on `wMaze`). -/
theorem claim_C8_witness :
    postSearchB { wMaze with
        grid := (iterState bfsNext (bfsInit wMaze) 4).maze.grid } = true ∧
    (∀ p c, gridGet (resetMazeVisitation { wMaze with
        grid := (iterState bfsNext (bfsInit wMaze) 4).maze.grid }).grid p = some c →
      ∃ c0, gridGet { wMaze with
          grid := (iterState bfsNext (bfsInit wMaze) 4).maze.grid }.grid p = some c0 ∧
        c.visited = false ∧ c.parent = none ∧
        c.g = none ∧ c.h = none ∧ c.f = none ∧
        (c.type = CellType.WALL ∨ c.type = CellType.PATH ∨
         c.type = CellType.START ∨ c.type = CellType.END) ∧
        ((c0.type = CellType.VISITED ∨ c0.type = CellType.VISITING ∨
          c0.type = CellType.SOLUTION) →
          c.type = (if c0.isStart then CellType.START
            else if c0.isEnd then CellType.END else CellType.PATH)) ∧
        (¬(c0.type = CellType.VISITED ∨ c0.type = CellType.VISITING ∨
           c0.type = CellType.SOLUTION) → c.type = c0.type)) :=
  ⟨by decide, claim_C8 _ (by decide)⟩

/-! ## Lemmas about the visited matrix of the connectivity BFS -/

theorem visGet_set_ne {v : VisMat} {p q : Position} (hq : q ≠ p) (b : Bool) :
    visGet (visSet v p b) q = visGet v q := by
  unfold visGet visSet
  by_cases hp : p.row < 0 ∨ p.col < 0
  · rw [if_pos hp]
  · rw [if_neg hp]
    by_cases hqn : q.row < 0 ∨ q.col < 0
    · rw [if_pos hqn, if_pos hqn]
    · rw [if_neg hqn, if_neg hqn]
      push_neg at hp hqn
      by_cases hrow : q.row = p.row
      · have hcol : q.col ≠ p.col := fun hc => hq (by cases p; cases q; simp_all)
        have hrn : q.row.toNat = p.row.toNat := by rw [hrow]
        rw [hrn, List.getElem?_set]
        by_cases hlt : p.row.toNat < v.length
        · rw [if_pos rfl, if_pos hlt]
          match hr : v[p.row.toNat]? with
          | none =>
            have := List.getElem?_eq_none_iff.mp hr
            omega
          | some rowl =>
            simp only [Option.getD_some]
            rw [List.getD_eq_getElem?_getD, List.getD_eq_getElem?_getD]
            rw [List.getElem?_set_ne (show p.col.toNat ≠ q.col.toNat by omega)]
        · rw [if_pos rfl, if_neg hlt]
          have hr : v[p.row.toNat]? = none := List.getElem?_eq_none (by omega)
          rw [hr]
      · rw [List.getElem?_set_ne (show p.row.toNat ≠ q.row.toNat by omega)]

theorem visGet_set_self {v : VisMat} {h w : Nat} {p : Position}
    (hd : VisDims v h w)
    (hb : 0 ≤ p.row ∧ p.row < (h : Int) ∧ 0 ≤ p.col ∧ p.col < (w : Int))
    (b : Bool) : visGet (visSet v p b) p = b := by
  obtain ⟨h1, h2⟩ := hd
  unfold visGet visSet
  have hneg : ¬(p.row < 0 ∨ p.col < 0) := by omega
  rw [if_neg hneg, if_neg hneg]
  have hrl : p.row.toNat < v.length := by omega
  match hr : v[p.row.toNat]? with
  | none =>
    have := List.getElem?_eq_none_iff.mp hr
    omega
  | some rowl =>
    have hw : rowl.length = w := h2 rowl (List.getElem?_mem hr)
    have hcl : p.col.toNat < rowl.length := by omega
    rw [List.getElem?_set_self hrl]
    simp only [Option.getD_some]
    rw [List.getD_eq_getElem?_getD, List.getElem?_set_self hcl]
    rfl

theorem visGet_visSet_true_or (v : VisMat) (p x : Position) :
    visGet (visSet v p true) x = visGet v x ∨
    visGet (visSet v p true) x = true := by
  by_cases hx : x = p
  · subst hx
    by_cases hneg : x.row < 0 ∨ x.col < 0
    · left
      have hv : visSet v x true = v := by
        unfold visSet
        rw [if_pos hneg]
      rw [hv]
    · by_cases hrl : x.row.toNat < v.length
      · match hr : v[x.row.toNat]? with
        | none =>
          exact absurd (List.getElem?_eq_none_iff.mp hr) (by omega)
        | some rowl =>
          by_cases hcl : x.col.toNat < rowl.length
          · right
            unfold visGet visSet
            rw [if_neg hneg, if_neg hneg, hr]
            simp only [Option.getD_some]
            rw [List.getElem?_set_self hrl]
            simp only [Option.getD_some]
            rw [List.getD_eq_getElem?_getD, List.getElem?_set_self hcl]
            rfl
          · left
            have hv : visSet v x true = v.set x.row.toNat rowl := by
              unfold visSet
              rw [if_neg hneg, hr]
              simp only [Option.getD_some]
              rw [show rowl.set x.col.toNat true = rowl from
                List.set_eq_of_length_le (by omega)]
            rw [hv]
            unfold visGet
            rw [if_neg hneg, if_neg hneg]
            rw [List.getElem?_set_self hrl, hr]
      · left
        have hv : visSet v x true = v := by
          unfold visSet
          rw [if_neg hneg]
          rw [List.set_eq_of_length_le (by omega)]
        rw [hv]
  · left
    exact visGet_set_ne hx true

theorem VisDims_visSet {v : VisMat} {h w : Nat} (hd : VisDims v h w)
    (p : Position) (b : Bool) : VisDims (visSet v p b) h w := by
  obtain ⟨h1, h2⟩ := hd
  unfold visSet
  split
  · exact ⟨h1, h2⟩
  · refine ⟨by simpa using h1, ?_⟩
    intro row hrow
    by_cases hlt : p.row.toNat < v.length
    · rcases List.mem_or_eq_of_mem_set hrow with hrow | hrow
      · exact h2 row hrow
      · subst hrow
        match hr : v[p.row.toNat]? with
        | none =>
          have := List.getElem?_eq_none_iff.mp hr
          omega
        | some rowl =>
          simp only [Option.getD_some, List.length_set]
          exact h2 rowl (List.getElem?_mem hr)
    · rw [List.set_eq_of_length_le (by omega)] at hrow
      exact h2 row hrow

theorem VisDims_initVis (g : Grid) : VisDims (initVis g) (gRows g) (gCols g) := by
  unfold initVis VisDims
  constructor
  · simp
  · intro row hrow
    rw [List.mem_map] at hrow
    obtain ⟨i, _, rfl⟩ := hrow
    simp

theorem uncVis_visSet_true {v : VisMat} {h w : Nat} {p : Position}
    (hd : VisDims v h w)
    (hb : 0 ≤ p.row ∧ p.row < (h : Int) ∧ 0 ≤ p.col ∧ p.col < (w : Int))
    (hf : visGet v p = false) :
    uncVis h w (visSet v p true) + 1 = uncVis h w v := by
  unfold uncVis
  have hmem : p ∈ (posRange h w).filter (fun q => visGet v q = false) := by
    rw [Finset.mem_filter]
    exact ⟨mem_posRange.mpr hb, hf⟩
  have hext : (posRange h w).filter (fun q => visGet (visSet v p true) q = false) =
      ((posRange h w).filter (fun q => visGet v q = false)).erase p := by
    ext x
    rw [Finset.mem_filter, Finset.mem_erase, Finset.mem_filter]
    constructor
    · intro ⟨hx1, hx2⟩
      by_cases hxp : x = p
      · subst hxp
        rw [visGet_set_self hd hb] at hx2
        simp at hx2
      · rw [visGet_set_ne hxp] at hx2
        exact ⟨hxp, hx1, hx2⟩
    · intro ⟨hxp, hx1, hx2⟩
      rw [visGet_set_ne hxp]
      exact ⟨hx1, hx2⟩
  rw [hext, Finset.card_erase_of_mem hmem]
  have : 0 < ((posRange h w).filter (fun q => visGet v q = false)).card :=
    Finset.card_pos.mpr ⟨p, hmem⟩
  omega

theorem uncVis_visSet_true_le (v : VisMat) (h w : Nat) (p : Position) :
    uncVis h w (visSet v p true) ≤ uncVis h w v := by
  unfold uncVis
  apply Finset.card_le_card
  intro x hx
  rw [Finset.mem_filter] at hx ⊢
  refine ⟨hx.1, ?_⟩
  rcases visGet_visSet_true_or v p x with he | he
  · rw [← he]
    exact hx.2
  · rw [he] at hx
    simp at hx

/-! ## The connectivity BFS of `ensurePathExists` -/

theorem visGet_visSet_true_inv {v : VisMat} {p x : Position}
    (h : visGet (visSet v p true) x = true) :
    visGet v x = true ∨ x = p := by
  by_cases hx : x = p
  · right; exact hx
  · left
    rw [visGet_set_ne hx] at h
    exact h

theorem checkFold_facts {g : Grid} {h w : Nat} (hd : GridDims g h w) (hh : 0 < h)
    (dirs : List Position) :
    ∀ (q : List Position) (vis : VisMat), VisDims vis h w →
      (let r := dirs.foldl (fun (acc : List Position × VisMat) dir =>
          if isValidPosition g dir && !(visGet acc.2 dir) then
            (acc.1 ++ [dir], visSet acc.2 dir true)
          else acc) (q, vis)
       VisDims r.2 h w ∧
       r.1.length + uncVis h w r.2 ≤ q.length + uncVis h w vis ∧
       (∀ x, visGet vis x = true → visGet r.2 x = true) ∧
       (∀ d ∈ dirs, isValidPosition g d = true → visGet r.2 d = true) ∧
       (∀ x ∈ q, x ∈ r.1) ∧
       (∀ x, visGet r.2 x = true → visGet vis x = true ∨ x ∈ r.1) ∧
       (∀ x ∈ r.1, x ∈ q ∨ (x ∈ dirs ∧ isValidPosition g x = true)) ∧
       (∀ x ∈ r.1, x ∈ q ∨ visGet r.2 x = true)) := by
  induction dirs with
  | nil =>
    intro q vis hvd
    refine ⟨hvd, le_refl _, fun x hx => hx, by simp, fun x hx => hx,
      fun x hx => Or.inl hx, fun x hx => Or.inl hx, fun x hx => Or.inl hx⟩
  | cons d ds ih =>
    intro q vis hvd
    simp only [List.foldl_cons]
    by_cases hc : (isValidPosition g d && !(visGet vis d)) = true
    · rw [if_pos hc]
      rw [Bool.and_eq_true, Bool.not_eq_true'] at hc
      obtain ⟨hcv, hcf⟩ := hc
      have hbounds : 0 ≤ d.row ∧ d.row < (h : Int) ∧ 0 ≤ d.col ∧ d.col < (w : Int) := by
        unfold isValidPosition at hcv
        rw [Bool.and_eq_true] at hcv
        exact (inBoundsB_iff hd hh d).mp hcv.1
      have hvd2 : VisDims (visSet vis d true) h w := VisDims_visSet hvd d true
      obtain ⟨f1, f2, f3, f4, f5, f6, f7, f8⟩ := ih (q ++ [d]) (visSet vis d true) hvd2
      have hdmark : visGet (visSet vis d true) d = true :=
        visGet_set_self hvd hbounds true
      have hmono1 : ∀ x, visGet vis x = true → visGet (visSet vis d true) x = true := by
        intro x hx
        rcases visGet_visSet_true_or vis d x with he | he
        · rw [he]; exact hx
        · exact he
      refine ⟨f1, ?_, ?_, ?_, ?_, ?_, ?_, ?_⟩
      · have huv := uncVis_visSet_true hvd hbounds hcf
        have hstep : (q ++ [d]).length + uncVis h w (visSet vis d true)
            = q.length + uncVis h w vis := by
          simp only [List.length_append, List.length_cons, List.length_nil]
          omega
        exact le_trans f2 (le_of_eq hstep)
      · intro x hx
        exact f3 x (hmono1 x hx)
      · intro d2 hd2 hval
        rcases List.mem_cons.mp hd2 with rfl | hd2
        · exact f3 d2 hdmark
        · exact f4 d2 hd2 hval
      · intro x hx
        exact f5 x (by simp [hx])
      · intro x hx
        rcases f6 x hx with hx2 | hx2
        · rcases visGet_visSet_true_inv hx2 with hx3 | rfl
          · exact Or.inl hx3
          · exact Or.inr (f5 x (by simp))
        · exact Or.inr hx2
      · intro x hx
        rcases f7 x hx with hx2 | hx2
        · rcases List.mem_append.mp hx2 with hx3 | hx3
          · exact Or.inl hx3
          · rw [List.mem_singleton] at hx3
            subst hx3
            exact Or.inr ⟨List.mem_cons_self _ _, hcv⟩
        · exact Or.inr ⟨List.mem_cons_of_mem _ hx2.1, hx2.2⟩
      · intro x hx
        rcases f8 x hx with hx2 | hx2
        · rcases List.mem_append.mp hx2 with hx3 | hx3
          · exact Or.inl hx3
          · rw [List.mem_singleton] at hx3
            subst hx3
            exact Or.inr (f3 x hdmark)
        · exact Or.inr hx2
    · rw [if_neg hc]
      obtain ⟨f1, f2, f3, f4, f5, f6, f7, f8⟩ := ih q vis hvd
      refine ⟨f1, f2, f3, ?_, f5, f6, ?_, f8⟩
      · intro d2 hd2 hval
        rcases List.mem_cons.mp hd2 with rfl | hd2
        · have hvt : visGet vis d2 = true := by
            by_contra hf
            rw [Bool.not_eq_true] at hf
            apply hc
            rw [Bool.and_eq_true, Bool.not_eq_true']
            exact ⟨hval, hf⟩
          exact f3 d2 hvt
        · exact f4 d2 hd2 hval
      · intro x hx
        rcases f7 x hx with hx2 | hx2
        · exact Or.inl hx2
        · exact Or.inr ⟨List.mem_cons_of_mem _ hx2.1, hx2.2⟩

theorem bfsCheckLoop_sound {g : Grid} {h w : Nat} (hd : GridDims g h w)
    (hh : 0 < h) (e s0 : Position) :
    ∀ (fuel : Nat) (q : List Position) (vis : VisMat), VisDims vis h w →
      (∀ x ∈ q, Reach g s0 x) →
      bfsCheckLoop g e fuel q vis = true → Reach g s0 e := by
  intro fuel
  induction fuel with
  | zero =>
    intro q vis _ _ hrun
    simp [bfsCheckLoop] at hrun
  | succ f ih =>
    intro q vis hvd hq hrun
    unfold bfsCheckLoop at hrun
    match hq0 : q with
    | [] => simp at hrun
    | cur :: rest =>
      simp only [] at hrun
      split at hrun
      · rename_i hcur
        have : cur = e := by
          cases cur; cases e
          simp only [Position.mk.injEq]
          exact hcur
        subst this
        exact hq cur (by simp)
      · obtain ⟨f1, f2, f3, f4, f5, f6, f7, f8⟩ :=
          checkFold_facts hd hh (dirsOf cur) rest vis hvd
        apply ih _ _ f1 _ hrun
        intro x hx
        rcases f7 x hx with hx2 | hx2
        · exact hq x (List.mem_cons_of_mem _ hx2)
        · have hcur : Reach g s0 cur := hq cur (by simp)
          obtain ⟨n, hp⟩ := hcur
          exact ⟨n + 1, hp.snoc (mem_dirsOf_iff.mp hx2.1) hx2.2⟩

theorem visited_closed_of_path {g : Grid} {vis : VisMat}
    (hclosed : ∀ x, visGet vis x = true → ∀ y, adjStep x y →
      isValidPosition g y = true → visGet vis y = true) :
    ∀ {n : Nat} {x y : Position}, PathN g x y n → visGet vis x = true →
      visGet vis y = true := by
  intro n
  induction n with
  | zero =>
    intro x y hp hx
    rw [← hp.zero_eq]
    exact hx
  | succ m ih =>
    intro x y hp hx
    match hp with
    | PathN.cons _ q _ _ hv ha htail =>
      exact ih htail (hclosed x hx q ha htail.valid_left)

theorem bfsCheckLoop_complete {g : Grid} {h w : Nat} (hd : GridDims g h w)
    (hh : 0 < h) (e s0 : Position) :
    ∀ (fuel : Nat) (q : List Position) (vis : VisMat), VisDims vis h w →
      q.length + uncVis h w vis < fuel →
      visGet vis s0 = true →
      (∀ x ∈ q, visGet vis x = true) →
      (∀ x, visGet vis x = true → x ∈ q ∨ ∀ y, adjStep x y →
        isValidPosition g y = true → visGet vis y = true) →
      (visGet vis e = false ∨ e ∈ q) →
      Reach g s0 e →
      bfsCheckLoop g e fuel q vis = true := by
  intro fuel
  induction fuel with
  | zero =>
    intro q vis _ hm
    omega
  | succ f ih =>
    intro q vis hvd hm hs hqv hcl hce hreach
    unfold bfsCheckLoop
    match hq0 : q with
    | [] =>
      exfalso
      have hclosed : ∀ x, visGet vis x = true → ∀ y, adjStep x y →
          isValidPosition g y = true → visGet vis y = true := by
        intro x hx
        rcases hcl x hx with hx2 | hx2
        · simp at hx2
        · exact hx2
      obtain ⟨n, hp⟩ := hreach
      have hev := visited_closed_of_path hclosed hp hs
      rcases hce with hce | hce
      · rw [hev] at hce
        simp at hce
      · simp at hce
    | cur :: rest =>
      show (if cur.row = e.row ∧ cur.col = e.col then true
        else
          let st := (dirsOf cur).foldl
            (fun (acc : List Position × VisMat) dir =>
              if isValidPosition g dir && !(visGet acc.2 dir) then
                (acc.1 ++ [dir], visSet acc.2 dir true)
              else acc)
            (rest, vis)
          bfsCheckLoop g e f st.1 st.2) = true
      split
      · rfl
      · rename_i hcur
        have hcurne : cur ≠ e := by
          intro hceq
          subst hceq
          exact hcur ⟨rfl, rfl⟩
        obtain ⟨f1, f2, f3, f4, f5, f6, f7, f8⟩ :=
          checkFold_facts hd hh (dirsOf cur) rest vis hvd
        apply ih _ _ f1
        · have : rest.length + uncVis h w vis < f := by
            simp only [List.length_cons] at hm
            omega
          omega
        · exact f3 s0 hs
        · intro x hx
          rcases f8 x hx with hx2 | hx2
          · exact f3 x (hqv x (List.mem_cons_of_mem _ hx2))
          · exact hx2
        · intro x hx
          rcases f6 x hx with hx2 | hx2
          · rcases hcl x hx2 with hx3 | hx3
            · rcases List.mem_cons.mp hx3 with rfl | hx3
              · right
                intro y hadj hval
                exact f4 y (mem_dirsOf_iff.mpr hadj) hval
              · exact Or.inl (f5 x hx3)
            · right
              intro y hadj hval
              exact f3 y (hx3 y hadj hval)
          · exact Or.inl hx2
        · by_cases hre : visGet ((dirsOf cur).foldl
              (fun (acc : List Position × VisMat) dir =>
                if isValidPosition g dir && !(visGet acc.2 dir) then
                  (acc.1 ++ [dir], visSet acc.2 dir true)
                else acc) (rest, vis)).2 e = true
          · right
            rcases f6 e hre with hx2 | hx2
            · rcases hce with hce | hce
              · rw [hx2] at hce
                simp at hce
              · rcases List.mem_cons.mp hce with rfl | hce
                · exact absurd rfl hcurne
                · exact f5 e hce
            · exact hx2
          · left
            rw [Bool.not_eq_true] at hre
            exact hre
        · exact hreach

/-! ## Unpacking the executable grid invariants -/

theorem gridGet_eq_some_unpack {g : Grid} {p : Position} {c : Cell}
    (h : gridGet g p = some c) :
    0 ≤ p.row ∧ 0 ≤ p.col ∧
      ∃ row, g[p.row.toNat]? = some row ∧ row[p.col.toNat]? = some c := by
  unfold gridGet at h
  split at h
  · simp at h
  · rename_i hneg
    push_neg at hneg
    split at h
    · simp at h
    · rename_i row hrow
      exact ⟨hneg.1, hneg.2, row, hrow, h⟩

theorem gridInvB_unpack {m : MazeData} (hm : gridInvB m = true) :
    GridDims m.grid m.height m.width ∧
    0 < m.height ∧ 0 < m.width ∧
    (0 ≤ m.startPosition.row ∧ m.startPosition.row < (m.height : Int) ∧
     0 ≤ m.startPosition.col ∧ m.startPosition.col < (m.width : Int)) ∧
    (0 ≤ m.endPosition.row ∧ m.endPosition.row < (m.height : Int) ∧
     0 ≤ m.endPosition.col ∧ m.endPosition.col < (m.width : Int)) ∧
    m.startPosition ≠ m.endPosition ∧
    (cellAt m.grid m.startPosition).type ≠ CellType.WALL ∧
    (cellAt m.grid m.endPosition).type ≠ CellType.WALL ∧
    (∀ p c, gridGet m.grid p = some c →
      (c.isStart = true ↔ p = m.startPosition) ∧
      (c.isEnd = true ↔ p = m.endPosition) ∧
      c.visited = false ∧ c.parent = none) := by
  unfold gridInvB at hm
  simp only [Bool.and_eq_true, decide_eq_true_eq, List.all_eq_true] at hm
  obtain ⟨⟨⟨⟨⟨⟨⟨⟨hrows, hcols⟩, hall⟩, hsb⟩, heb⟩, hne⟩, hsw⟩, hew⟩, hclean⟩ := hm
  have hdims : GridDims m.grid m.height m.width := by
    refine ⟨hrows, ?_⟩
    intro row hrow
    rw [hall row hrow, hcols]
  have hrowpos : 0 < gRows m.grid := by
    unfold inBoundsB at hsb
    simp only [Bool.and_eq_true, decide_eq_true_eq] at hsb
    omega
  have hh : 0 < m.height := by rw [← hrows]; exact hrowpos
  have hsb2 := (inBoundsB_iff hdims hh m.startPosition).mp hsb
  have heb2 := (inBoundsB_iff hdims hh m.endPosition).mp heb
  have hw : 0 < m.width := by omega
  refine ⟨hdims, hh, hw, hsb2, heb2, hne, hsw, hew, ?_⟩
  intro p c hget
  obtain ⟨hr0, hc0, row, hrow, hcell⟩ := gridGet_eq_some_unpack hget
  have hrow_mem : (p.row.toNat, row) ∈ m.grid.enum :=
    List.mk_mem_enum_iff_getElem?.mpr hrow
  have hcell_mem : (p.col.toNat, c) ∈ row.enum :=
    List.mk_mem_enum_iff_getElem?.mpr hcell
  have hcl := hclean _ hrow_mem _ hcell_mem
  unfold cellClean at hcl
  simp only [Bool.and_eq_true, beq_iff_eq, Bool.not_eq_true', decide_eq_true_eq] at hcl
  obtain ⟨⟨⟨hcs, hce⟩, hcv⟩, hcp⟩ := hcl
  have hpp : (⟨(p.row.toNat : Int), (p.col.toNat : Int)⟩ : Position) = p := by
    show (⟨(p.row.toNat : Int), (p.col.toNat : Int)⟩ : Position) = p
    have e1 : (p.row.toNat : Int) = p.row := Int.toNat_of_nonneg hr0
    have e2 : (p.col.toNat : Int) = p.col := Int.toNat_of_nonneg hc0
    rw [e1, e2]
  rw [hpp] at hcs hce
  refine ⟨?_, ?_, hcv, hcp⟩
  · rw [hcs]
    simp
  · rw [hce]
    simp

/-! ## `ensurePathExists`: branch characterisation -/

theorem visGet_initVis (g : Grid) (p : Position) : visGet (initVis g) p = false := by
  unfold visGet initVis
  split
  · rfl
  · cases hr : ((List.range (gRows g)).map
        (fun _ => List.replicate (gCols g) false))[p.row.toNat]? with
    | none => rfl
    | some row =>
      rw [List.getElem?_map] at hr
      cases hr2 : (List.range (gRows g))[p.row.toNat]? with
      | none => rw [hr2] at hr; simp at hr
      | some i =>
        rw [hr2] at hr
        simp only [Option.map_some'] at hr
        have : row = List.replicate (gCols g) false := by
          injection hr.symm
        subst this
        simp only [Option.getD_some]
        rw [List.getD_eq_getElem?_getD, List.getElem?_replicate]
        split <;> rfl

theorem uncVis_le_cells (h w : Nat) (v : VisMat) : uncVis h w v ≤ h * w := by
  unfold uncVis
  calc ((posRange h w).filter _).card ≤ (posRange h w).card :=
        Finset.card_le_card (Finset.filter_subset _ _)
    _ ≤ h * w := posRange_card h w

/-- The connectivity BFS of `ensurePathExists` returns true exactly when
the end is reachable from the start over walkable cells. -/
theorem ensure_check_iff {m : MazeData} (hm : gridInvB m = true) :
    (bfsCheckLoop m.grid m.endPosition (gRows m.grid * gCols m.grid + 1)
      [m.startPosition] (visSet (initVis m.grid) m.startPosition true)) = true ↔
    Reach m.grid m.startPosition m.endPosition := by
  obtain ⟨hdims, hh, hw, hsb, heb, hne, hsw, hew, hflags⟩ := gridInvB_unpack hm
  have hdims0 : GridDims m.grid (gRows m.grid) (gCols m.grid) := by
    refine ⟨rfl, ?_⟩
    intro row hrow
    rw [hdims.2 row hrow, gCols_eq hdims hh]
  have hh0 : 0 < gRows m.grid := by
    rw [hdims.1]
    exact hh
  have hsb0 : 0 ≤ m.startPosition.row ∧
      m.startPosition.row < (gRows m.grid : Int) ∧
      0 ≤ m.startPosition.col ∧ m.startPosition.col < (gCols m.grid : Int) := by
    rw [hdims.1, gCols_eq hdims hh]
    exact hsb
  have hvd0 : VisDims (initVis m.grid) (gRows m.grid) (gCols m.grid) :=
    VisDims_initVis m.grid
  have hvd1 : VisDims (visSet (initVis m.grid) m.startPosition true)
      (gRows m.grid) (gCols m.grid) := VisDims_visSet hvd0 _ _
  have hsvalid : isValidPosition m.grid m.startPosition = true := by
    unfold isValidPosition
    rw [Bool.and_eq_true, decide_eq_true_eq]
    refine ⟨(inBoundsB_iff hdims hh _).mpr hsb, hsw⟩
  constructor
  · intro hrun
    apply bfsCheckLoop_sound hdims0 hh0 m.endPosition m.startPosition _ _ _ hvd1 _ hrun
    intro x hx
    rw [List.mem_singleton] at hx
    subst hx
    exact ⟨0, PathN.refl m.startPosition hsvalid⟩
  · intro hreach
    apply bfsCheckLoop_complete hdims0 hh0 m.endPosition m.startPosition _ _ _ hvd1
    · have h1 : uncVis (gRows m.grid) (gCols m.grid)
          (visSet (initVis m.grid) m.startPosition true) + 1 =
          uncVis (gRows m.grid) (gCols m.grid) (initVis m.grid) :=
        uncVis_visSet_true hvd0 hsb0 (visGet_initVis m.grid m.startPosition)
      have h2 := uncVis_le_cells (gRows m.grid) (gCols m.grid) (initVis m.grid)
      simp only [List.length_singleton]
      omega
    · exact visGet_set_self hvd0 hsb0 true
    · intro x hx
      rw [List.mem_singleton] at hx
      subst hx
      exact visGet_set_self hvd0 hsb0 true
    · intro x hx
      rcases visGet_visSet_true_inv hx with hx2 | rfl
      · rw [visGet_initVis] at hx2
        simp at hx2
      · left
        simp
    · left
      rw [visGet_set_ne (Ne.symm hne)]
      exact visGet_initVis m.grid m.endPosition
    · exact hreach

theorem ensurePathExists_of_reach {m : MazeData} (hm : gridInvB m = true)
    (hreach : Reach m.grid m.startPosition m.endPosition) :
    ensurePathExists m = m := by
  unfold ensurePathExists
  rw [if_pos ((ensure_check_iff hm).mpr hreach)]

theorem ensurePathExists_of_not_reach {m : MazeData} (hm : gridInvB m = true)
    (hreach : ¬Reach m.grid m.startPosition m.endPosition) :
    ensurePathExists m = createPathToEnd m := by
  unfold ensurePathExists
  rw [if_neg (fun hc => hreach ((ensure_check_iff hm).mp hc))]

/-! ## The repair walk equals the spec-side zigzag -/

theorem specZigzagWalk_nil {cur e : Position}
    (h : cur.row = e.row ∧ cur.col = e.col) : specZigzagWalk cur e = [] := by
  unfold specZigzagWalk
  rw [h.1, h.2]
  simp

theorem specZigzagWalk_cons {cur e : Position}
    (h : ¬(cur.row = e.row ∧ cur.col = e.col)) :
    specZigzagWalk cur e =
      zigzagStep e cur :: specZigzagWalk (zigzagStep e cur) e := by
  cases cur with
  | mk r c =>
    cases e with
    | mk er ec =>
      unfold specZigzagWalk zigzagStep
      dsimp only at h ⊢
      by_cases hc1 : c < ec
      · rw [if_pos hc1]
        try dsimp only
        rw [if_pos (le_of_lt hc1), if_pos (by omega : c + 1 ≤ ec)]
        have hn : (ec - c).natAbs = (ec - (c + 1)).natAbs + 1 := by omega
        rw [hn, List.range_succ_eq_map]
        simp only [List.map_cons, List.map_map, List.cons_append]
        congr 1
        congr 1
        apply List.map_congr_left
        intro i _
        simp only [Function.comp_apply, Position.mk.injEq]
        refine ⟨trivial, by push_cast; ring⟩
      · by_cases hc2 : ec < c
        · rw [if_neg hc1, if_pos hc2]
          try dsimp only
          rw [if_neg (by omega : ¬(c ≤ ec))]
          have hn : (ec - c).natAbs = (ec - (c - 1)).natAbs + 1 := by omega
          rw [hn, List.range_succ_eq_map]
          simp only [List.map_cons, List.map_map, List.cons_append]
          by_cases hd : c - 1 ≤ ec
          · have hceq : c - 1 = ec := by omega
            rw [if_pos hd]
            have hz : (ec - (c - 1)).natAbs = 0 := by omega
            rw [hz]
            simp only [List.range_zero, List.map_nil, List.nil_append]
            congr 1
          · rw [if_neg hd]
            congr 1
            congr 1
            apply List.map_congr_left
            intro i _
            simp only [Function.comp_apply, Position.mk.injEq]
            refine ⟨trivial, by push_cast; ring⟩
        · have hceq : c = ec := by omega
          subst hceq
          rw [if_neg hc1, if_neg hc2]
          try dsimp only
          have hz : (c - c).natAbs = 0 := by omega
          rw [hz]
          simp only [List.range_zero, List.map_nil, List.nil_append]
          by_cases hr1 : r < er
          · rw [if_pos hr1]
            try dsimp only
            rw [if_pos (le_of_lt hr1), if_pos (by omega : r + 1 ≤ er)]
            have hn : (er - r).natAbs = (er - (r + 1)).natAbs + 1 := by omega
            rw [hn, List.range_succ_eq_map]
            simp only [List.map_cons, List.map_map]
            rw [hz]
            simp only [List.range_zero, List.map_nil, List.nil_append]
            congr 1
            apply List.map_congr_left
            intro i _
            simp only [Function.comp_apply, Position.mk.injEq]
            refine ⟨by push_cast; ring, trivial⟩
          · have hr2 : er < r := by omega
            rw [if_neg hr1]
            try dsimp only
            rw [if_neg (by omega : ¬(r ≤ er))]
            have hn : (er - r).natAbs = (er - (r - 1)).natAbs + 1 := by omega
            rw [hn, List.range_succ_eq_map]
            simp only [List.map_cons, List.map_map]
            by_cases hd : r - 1 ≤ er
            · have hreq : r - 1 = er := by omega
              rw [if_pos hd]
              have hz2 : (er - (r - 1)).natAbs = 0 := by omega
              rw [hz2]
              simp only [List.range_zero, List.map_nil]
              rw [hz]
              simp only [List.range_zero, List.map_nil, List.nil_append]
              congr 1
            · rw [if_neg hd]
              rw [hz]
              simp only [List.range_zero, List.map_nil, List.nil_append]
              congr 1
              apply List.map_congr_left
              intro i _
              simp only [Function.comp_apply, Position.mk.injEq]
              refine ⟨by push_cast; ring, trivial⟩

theorem zigzagLoop_eq_fold (endP cur : Position) (g : Grid) :
    zigzagLoop endP g cur = (specZigzagWalk cur endP).foldl carveCell g := by
  rw [zigzagLoop]
  split
  · rename_i hcond
    rw [specZigzagWalk_nil hcond]
    rfl
  · rename_i hcond
    rw [specZigzagWalk_cons hcond]
    rw [List.foldl_cons]
    exact zigzagLoop_eq_fold endP (zigzagStep endP cur) _
termination_by (cur.row - endP.row).natAbs + (cur.col - endP.col).natAbs
decreasing_by
  simp only [zigzagStep]
  split_ifs <;> simp <;> omega

theorem cloneMazeData_eq (m : MazeData) : cloneMazeData m = m := by
  unfold cloneMazeData
  cases m with
  | mk g sp ep w h =>
    simp only [MazeData.mk.injEq]
    refine ⟨?_, by simp⟩
    calc List.map (fun row => List.map cloneCell row) g
        = List.map (fun row => row) g :=
          List.map_congr_left (fun row _ => by
            rw [show cloneCell = id from funext cloneCell_id, List.map_id])
      _ = g := by simp

/-- `createPathToEnd` is exactly the spec-side repair. -/
theorem createPathToEnd_eq_specRepair (m : MazeData) :
    createPathToEnd m = specRepair m := by
  unfold createPathToEnd specRepair
  rw [cloneMazeData_eq]
  simp only []
  rw [zigzagLoop_eq_fold]

/-! ## After the repair, the end is reachable -/

theorem GridDims_carveCell {g : Grid} {h w : Nat} (hd : GridDims g h w)
    (p : Position) : GridDims (carveCell g p) h w := by
  unfold carveCell
  split
  · exact GridDims_modCell hd p _
  · exact hd

theorem carveCell_isSome (g : Grid) (p q : Position) :
    (gridGet (carveCell g q) p).isSome = (gridGet g p).isSome := by
  unfold carveCell
  split
  · by_cases hpq : p = q
    · subst hpq
      rw [modCell_get_self]
      cases gridGet g p <;> rfl
    · rw [modCell_get_ne g _ hpq]
  · rfl

theorem carveCell_flags (g : Grid) (p q : Position) :
    (cellAt (carveCell g q) p).isStart = (cellAt g p).isStart ∧
    (cellAt (carveCell g q) p).isEnd = (cellAt g p).isEnd := by
  unfold carveCell
  split
  · by_cases hpq : p = q
    · subst hpq
      cases hg : gridGet g p with
      | none =>
        unfold modCell
        rw [hg]
        exact ⟨rfl, rfl⟩
      | some c =>
        rw [cellAt_modCell_self _ (by rw [hg]; rfl)]
        exact ⟨rfl, rfl⟩
    · rw [cellAt_modCell_ne g _ hpq]
      exact ⟨rfl, rfl⟩
  · exact ⟨rfl, rfl⟩

theorem carveCell_flagged (g : Grid) (q p : Position)
    (hf : (cellAt g p).isStart = true ∨ (cellAt g p).isEnd = true) :
    cellAt (carveCell g q) p = cellAt g p := by
  unfold carveCell
  split
  · rename_i hcond
    by_cases hpq : p = q
    · subst hpq
      simp only [Bool.and_eq_true, Bool.not_eq_true'] at hcond
      rcases hf with hf | hf
      · rw [hf] at hcond
        exact absurd hcond.1 (by simp)
      · rw [hf] at hcond
        exact absurd hcond.2 (by simp)
    · exact cellAt_modCell_ne g _ hpq
  · rfl

theorem carveCell_path (g : Grid) (q p : Position)
    (hp : (cellAt g p).type = CellType.PATH) :
    (cellAt (carveCell g q) p).type = CellType.PATH := by
  unfold carveCell
  split
  · by_cases hpq : p = q
    · subst hpq
      cases hg : gridGet g p with
      | none =>
        unfold modCell
        rw [hg]
        exact hp
      | some c =>
        rw [cellAt_modCell_self _ (by rw [hg]; rfl)]
    · rw [cellAt_modCell_ne g _ hpq]
      exact hp
  · exact hp

theorem carveCell_sets (g : Grid) (p : Position)
    (hsome : (gridGet g p).isSome = true)
    (hs : (cellAt g p).isStart = false) (he : (cellAt g p).isEnd = false) :
    (cellAt (carveCell g p) p).type = CellType.PATH := by
  unfold carveCell
  split
  · rw [cellAt_modCell_self _ hsome]
  · rename_i hcond
    rw [hs, he] at hcond
    simp at hcond

theorem foldCarve_dims {h w : Nat} :
    ∀ (L : List Position) (g : Grid), GridDims g h w →
      GridDims (L.foldl carveCell g) h w
  | [], _, hd => hd
  | p :: rest, g, hd => foldCarve_dims rest (carveCell g p) (GridDims_carveCell hd p)

theorem foldCarve_isSome : ∀ (L : List Position) (g : Grid) (p : Position),
    (gridGet (L.foldl carveCell g) p).isSome = (gridGet g p).isSome
  | [], _, _ => rfl
  | q :: rest, g, p =>
    (foldCarve_isSome rest (carveCell g q) p).trans (carveCell_isSome g p q)

theorem foldCarve_flags : ∀ (L : List Position) (g : Grid) (p : Position),
    (cellAt (L.foldl carveCell g) p).isStart = (cellAt g p).isStart ∧
    (cellAt (L.foldl carveCell g) p).isEnd = (cellAt g p).isEnd
  | [], _, _ => ⟨rfl, rfl⟩
  | q :: rest, g, p =>
    ⟨((foldCarve_flags rest (carveCell g q) p).1).trans (carveCell_flags g p q).1,
     ((foldCarve_flags rest (carveCell g q) p).2).trans (carveCell_flags g p q).2⟩

theorem foldCarve_flagged : ∀ (L : List Position) (g : Grid) (p : Position),
    ((cellAt g p).isStart = true ∨ (cellAt g p).isEnd = true) →
    cellAt (L.foldl carveCell g) p = cellAt g p
  | [], _, _, _ => rfl
  | q :: rest, g, p, hf => by
    have h1 := carveCell_flagged g q p hf
    have h2 := foldCarve_flagged rest (carveCell g q) p (by rw [h1]; exact hf)
    simp only [List.foldl_cons]
    rw [h2, h1]

theorem foldCarve_path : ∀ (L : List Position) (g : Grid) (p : Position),
    (cellAt g p).type = CellType.PATH →
    (cellAt (L.foldl carveCell g) p).type = CellType.PATH
  | [], _, _, hp => hp
  | q :: rest, g, p, hp => foldCarve_path rest (carveCell g q) p (carveCell_path g q p hp)

theorem foldCarve_mem : ∀ (L : List Position) (g : Grid) (p : Position),
    p ∈ L → (gridGet g p).isSome = true →
    (cellAt g p).isStart = false → (cellAt g p).isEnd = false →
    (cellAt (L.foldl carveCell g) p).type = CellType.PATH
  | [], _, _, hmem, _, _, _ => by simp at hmem
  | q :: rest, g, p, hmem, hsome, hs, he => by
    simp only [List.foldl_cons]
    by_cases hrest : p ∈ rest
    · exact foldCarve_mem rest (carveCell g q) p hrest
        (by rw [carveCell_isSome g p q]; exact hsome)
        (by rw [(carveCell_flags g p q).1]; exact hs)
        (by rw [(carveCell_flags g p q).2]; exact he)
    · have hpq : p = q := by
        rcases List.mem_cons.mp hmem with h | h
        · exact h
        · exact absurd h hrest
      subst hpq
      exact foldCarve_path rest (carveCell g p) p (carveCell_sets g p hsome hs he)

theorem mem_specZigzagWalk_bounds {s e : Position} {h w : Nat}
    (hs : 0 ≤ s.row ∧ s.row < (h : Int) ∧ 0 ≤ s.col ∧ s.col < (w : Int))
    (he : 0 ≤ e.row ∧ e.row < (h : Int) ∧ 0 ≤ e.col ∧ e.col < (w : Int)) :
    ∀ p ∈ specZigzagWalk s e,
      0 ≤ p.row ∧ p.row < (h : Int) ∧ 0 ≤ p.col ∧ p.col < (w : Int) := by
  intro p hp
  obtain ⟨h1, h2, h3, h4⟩ := hs
  obtain ⟨g1, g2, g3, g4⟩ := he
  unfold specZigzagWalk at hp
  simp only [List.mem_append, List.mem_map, List.mem_range] at hp
  rcases hp with ⟨i, hi, rfl⟩ | ⟨i, hi, rfl⟩
  · dsimp only
    split_ifs at hi ⊢ with hc <;> refine ⟨h1, h2, ?_, ?_⟩ <;> omega
  · dsimp only
    split_ifs at hi ⊢ with hr <;> refine ⟨?_, ?_, g3, g4⟩ <;> omega

theorem adjStep_zigzagStep (e cur : Position) : adjStep cur (zigzagStep e cur) := by
  unfold adjStep zigzagStep
  split_ifs with h1 h2 h3
  · left
    exact ⟨rfl, by dsimp only; omega⟩
  · left
    exact ⟨rfl, by dsimp only; omega⟩
  · right
    exact ⟨rfl, by dsimp only; omega⟩
  · right
    exact ⟨rfl, by dsimp only; omega⟩

theorem specZigzagWalk_reach (G : Grid) (e : Position) :
    ∀ (n : Nat) (cur : Position), manhattanDistance cur e ≤ n →
    isValidPosition G cur = true →
    (∀ p ∈ specZigzagWalk cur e, isValidPosition G p = true) →
    Reach G cur e := by
  intro n
  induction n with
  | zero =>
    intro cur hm hv _
    have hcur : cur = e := by
      unfold manhattanDistance at hm
      cases cur with
      | mk r c =>
        cases e with
        | mk er ec =>
          dsimp only at hm
          have : r = er ∧ c = ec := by omega
          rw [this.1, this.2]
    subst hcur
    exact ⟨0, PathN.refl cur hv⟩
  | succ n ih =>
    intro cur hm hv hw
    by_cases hend : cur.row = e.row ∧ cur.col = e.col
    · have hcur : cur = e := by
        cases cur with
        | mk r c =>
          cases e with
          | mk er ec =>
            dsimp only at hend
            rw [hend.1, hend.2]
      subst hcur
      exact ⟨0, PathN.refl cur hv⟩
    · have hcons := specZigzagWalk_cons hend
      have hvnx : isValidPosition G (zigzagStep e cur) = true := by
        apply hw
        rw [hcons]
        exact List.mem_cons_self _ _
      have hw2 : ∀ p ∈ specZigzagWalk (zigzagStep e cur) e,
          isValidPosition G p = true := by
        intro p hp
        apply hw
        rw [hcons]
        exact List.mem_cons_of_mem _ hp
      have hne : cur.row ≠ e.row ∨ cur.col ≠ e.col := by
        by_cases hr : cur.row = e.row
        · right
          intro hc
          exact hend ⟨hr, hc⟩
        · left
          exact hr
      have hm2 : manhattanDistance (zigzagStep e cur) e ≤ n := by
        unfold manhattanDistance at hm ⊢
        unfold zigzagStep
        rcases hne with hne | hne <;> split_ifs <;> dsimp only <;> omega
      obtain ⟨k, hk⟩ := ih (zigzagStep e cur) hm2 hvnx hw2
      exact ⟨k + 1, PathN.cons cur (zigzagStep e cur) e k hv (adjStep_zigzagStep e cur) hk⟩

theorem repairGrid_reach {m : MazeData} (hm : gridInvB m = true) :
    Reach ((specZigzagWalk m.startPosition m.endPosition).foldl carveCell m.grid)
      m.startPosition m.endPosition := by
  obtain ⟨hd, hh, hwpos, hsb, heb, hne, hsw, hew, hcells⟩ := gridInvB_unpack hm
  have hdims2 : GridDims
      ((specZigzagWalk m.startPosition m.endPosition).foldl carveCell m.grid)
      m.height m.width := foldCarve_dims _ _ hd
  apply specZigzagWalk_reach _ _ (manhattanDistance m.startPosition m.endPosition) _ le_rfl
  · obtain ⟨c, hc⟩ : ∃ c, gridGet m.grid m.startPosition = some c :=
      Option.isSome_iff_exists.mp ((gridGet_isSome_iff hd _).mpr hsb)
    have hcell : cellAt m.grid m.startPosition = c := by
      unfold cellAt
      rw [hc]
      rfl
    have hflag : (cellAt m.grid m.startPosition).isStart = true := by
      rw [hcell]
      exact (hcells _ c hc).1.mpr rfl
    simp only [isValidPosition, Bool.and_eq_true, decide_eq_true_eq]
    refine ⟨(inBoundsB_iff hdims2 hh _).mpr hsb, ?_⟩
    rw [foldCarve_flagged _ _ _ (Or.inl hflag)]
    exact hsw
  · intro p hp
    have hpb := mem_specZigzagWalk_bounds hsb heb p hp
    have hsome : (gridGet m.grid p).isSome = true := (gridGet_isSome_iff hd p).mpr hpb
    obtain ⟨c, hc⟩ : ∃ c, gridGet m.grid p = some c := Option.isSome_iff_exists.mp hsome
    have hcell : cellAt m.grid p = c := by
      unfold cellAt
      rw [hc]
      rfl
    have hcc := hcells p c hc
    simp only [isValidPosition, Bool.and_eq_true, decide_eq_true_eq]
    refine ⟨(inBoundsB_iff hdims2 hh p).mpr hpb, ?_⟩
    by_cases hflag : c.isStart = true ∨ c.isEnd = true
    · rw [foldCarve_flagged _ _ _ (by rw [hcell]; exact hflag), hcell]
      rcases hflag with hf | hf
      · have hps : p = m.startPosition := hcc.1.mp hf
        subst hps
        rw [← hcell]
        exact hsw
      · have hpe : p = m.endPosition := hcc.2.1.mp hf
        subst hpe
        rw [← hcell]
        exact hew
    · push_neg at hflag
      have h1 : c.isStart = false := Bool.not_eq_true _ ▸ hflag.1
      have h2 : c.isEnd = false := Bool.not_eq_true _ ▸ hflag.2
      rw [foldCarve_mem _ m.grid p hp hsome (by rw [hcell]; exact h1)
        (by rw [hcell]; exact h2)]
      simp

/-- C5: for every maze satisfying the grid invariants, if the end is
reachable from the start over walkable cells then `ensurePathExists`
returns the maze unchanged; otherwise it returns exactly the spec-side
repair `specRepair` — the walk from start to end that moves horizontally
toward the end column first and only then vertically, with every visited
non-start/non-end cell converted to PATH — and in the repaired maze the
end is reachable from the start. -/
theorem claim_C5 (m : MazeData) (hm : gridInvB m = true) :
    (Reach m.grid m.startPosition m.endPosition → ensurePathExists m = m) ∧
    (¬Reach m.grid m.startPosition m.endPosition →
      ensurePathExists m = specRepair m ∧
      Reach (ensurePathExists m).grid m.startPosition m.endPosition) := by
  constructor
  · intro hr
    exact ensurePathExists_of_reach hm hr
  · intro hnr
    have he : ensurePathExists m = specRepair m := by
      rw [ensurePathExists_of_not_reach hm hnr, createPathToEnd_eq_specRepair]
    refine ⟨he, ?_⟩
    rw [he]
    exact repairGrid_reach hm

/-- C5, witness: instantiation at the concrete walled-off 2×2 maze,
whose grid invariants hold by evaluation. -/
theorem claim_C5_witness :
    gridInvB deadMaze = true ∧
    ((Reach deadMaze.grid deadMaze.startPosition deadMaze.endPosition →
        ensurePathExists deadMaze = deadMaze) ∧
     (¬Reach deadMaze.grid deadMaze.startPosition deadMaze.endPosition →
        ensurePathExists deadMaze = specRepair deadMaze ∧
        Reach (ensurePathExists deadMaze).grid deadMaze.startPosition
          deadMaze.endPosition)) :=
  ⟨by decide, claim_C5 deadMaze (by decide)⟩

/-! ## Cell-evolution relations: basic properties -/

theorem shapeEq_refl (g : Grid) : ShapeEq g g := ⟨rfl, fun _ => rfl⟩

theorem shapeEq_trans {g g' g'' : Grid} (h1 : ShapeEq g g') (h2 : ShapeEq g' g'') :
    ShapeEq g g'' :=
  ⟨h2.1.trans h1.1, fun i => (h2.2 i).trans (h1.2 i)⟩

theorem headD_eq_getElem? (l : List (List Cell)) : l.headD [] = (l[0]?).getD [] := by
  cases l <;> simp

theorem isSome_getElem_iff {α : Type} (l : List α) (n : Nat) :
    (l[n]?).isSome = true ↔ n < l.length := by
  rw [Option.isSome_iff_exists]
  constructor
  · rintro ⟨a, ha⟩
    exact (List.getElem?_eq_some_iff.mp ha).1
  · intro h
    exact ⟨l[n], List.getElem?_eq_getElem h⟩

theorem isSome_getElem_eq {α : Type} {l m : List α} (n : Nat)
    (h : l.length = m.length) : (l[n]?).isSome = (m[n]?).isSome := by
  rcases hb : (m[n]?).isSome with hv | hv
  · rcases hb2 : (l[n]?).isSome with hv2 | hv2
    · rfl
    · have h1 := (isSome_getElem_iff l n).mp hb2
      have h2 : ¬(n < m.length) := fun hc => by
        rw [(isSome_getElem_iff m n).mpr hc] at hb
        cases hb
      omega
  · have h1 := (isSome_getElem_iff m n).mp hb
    exact (isSome_getElem_iff l n).mpr (by omega)

theorem shapeEq_isSome {g g' : Grid} (h : ShapeEq g g') (p : Position) :
    (gridGet g' p).isSome = (gridGet g p).isSome := by
  unfold gridGet
  split
  · rfl
  · have hrow := h.2 p.row.toNat
    cases hg : g[p.row.toNat]? with
    | none =>
      cases hg' : g'[p.row.toNat]? with
      | none => rfl
      | some row' =>
        rw [hg, hg'] at hrow
        simp at hrow
    | some row =>
      cases hg' : g'[p.row.toNat]? with
      | none =>
        rw [hg, hg'] at hrow
        simp at hrow
      | some row' =>
        rw [hg, hg'] at hrow
        simp only [Option.map_some', Option.some.injEq] at hrow
        show (row'[p.col.toNat]?).isSome = (row[p.col.toNat]?).isSome
        exact isSome_getElem_eq _ hrow

theorem shapeEq_gRows {g g' : Grid} (h : ShapeEq g g') : gRows g' = gRows g := h.1

theorem shapeEq_gCols {g g' : Grid} (h : ShapeEq g g') : gCols g' = gCols g := by
  unfold gCols
  rw [headD_eq_getElem?, headD_eq_getElem?]
  have h0 := h.2 0
  cases hg : g[0]? with
  | none =>
    rw [hg] at h0
    simp only [Option.map_none'] at h0
    cases hg' : g'[0]? with
    | none => rfl
    | some row' =>
      rw [hg'] at h0
      simp at h0
  | some row =>
    rw [hg] at h0
    cases hg' : g'[0]? with
    | none =>
      rw [hg'] at h0
      simp at h0
    | some row' =>
      rw [hg'] at h0
      simp only [Option.map_some', Option.some.injEq] at h0
      simpa using h0

theorem shapeEq_gridSet (g : Grid) (p : Position) (c : Cell) :
    ShapeEq g (gridSet g p c) := by
  unfold gridSet
  split
  · exact shapeEq_refl g
  · refine ⟨by simp, ?_⟩
    intro i
    rw [List.getElem?_set]
    split
    · rename_i hi
      subst hi
      split
      · rename_i hlt
        cases hg : g[p.row.toNat]? with
        | none =>
          have := List.getElem?_eq_none_iff.mp hg
          omega
        | some row =>
          simp
      · rename_i hge
        rw [List.getElem?_eq_none_iff.mpr (by omega)]
    · rfl

theorem shapeEq_modCell (g : Grid) (p : Position) (f : Cell → Cell) :
    ShapeEq g (modCell g p f) := by
  unfold modCell
  cases gridGet g p with
  | none => exact shapeEq_refl g
  | some c => exact shapeEq_gridSet g p _

theorem cellEvo_refl (g : Grid) : CellEvo g g :=
  ⟨shapeEq_refl g, fun _ => ⟨rfl, rfl, fun h => h⟩⟩

theorem cellEvo_trans {g g' g'' : Grid} (h1 : CellEvo g g') (h2 : CellEvo g' g'') :
    CellEvo g g'' := by
  refine ⟨shapeEq_trans h1.1 h2.1, fun p => ?_⟩
  obtain ⟨a1, b1, c1⟩ := h1.2 p
  obtain ⟨a2, b2, c2⟩ := h2.2 p
  exact ⟨a2.trans a1, b2.trans b1, fun h => c1 (c2 h)⟩

theorem genEvo_refl (g : Grid) : GenEvo g g :=
  ⟨shapeEq_refl g, fun _ => Or.inl rfl⟩

theorem genEvo_trans {g g' g'' : Grid} (h1 : GenEvo g g') (h2 : GenEvo g' g'') :
    GenEvo g g'' := by
  refine ⟨shapeEq_trans h1.1 h2.1, fun p => ?_⟩
  rcases h2.2 p with h2c | h2c | h2c <;> rcases h1.2 p with h1c | h1c | h1c <;>
    rw [h2c, h1c] <;> simp

theorem genEvo_cellEvo {g g' : Grid} (h : GenEvo g g') : CellEvo g g' := by
  refine ⟨h.1, fun p => ?_⟩
  rcases h.2 p with hc | hc | hc <;> rw [hc]
  · exact ⟨rfl, rfl, fun h => h⟩
  · exact ⟨rfl, rfl, fun h => by simp at h⟩
  · exact ⟨rfl, rfl, fun h => by simp at h⟩

theorem cellEvo_wallMono {g g' : Grid} (h : CellEvo g g') : WallMono g g' :=
  fun p => (h.2 p).2.2

theorem cellEvo_modCell (g : Grid) (p : Position) (f : Cell → Cell)
    (hf : ∀ c, (f c).isStart = c.isStart ∧ (f c).isEnd = c.isEnd ∧
      ((f c).type = CellType.WALL → c.type = CellType.WALL)) :
    CellEvo g (modCell g p f) := by
  refine ⟨shapeEq_modCell g p f, fun q => ?_⟩
  by_cases hq : q = p
  · subst hq
    cases hg : gridGet g q with
    | none =>
      unfold modCell
      rw [hg]
      exact ⟨rfl, rfl, fun h => h⟩
    | some c =>
      rw [cellAt_modCell_self _ (by rw [hg]; rfl)]
      exact hf _
  · rw [cellAt_modCell_ne g _ hq]
    exact ⟨rfl, rfl, fun h => h⟩

theorem genEvo_modCell_path (g : Grid) (p : Position) :
    GenEvo g (modCell g p (fun c => { c with type := CellType.PATH })) := by
  refine ⟨shapeEq_modCell g p _, fun q => ?_⟩
  by_cases hq : q = p
  · subst hq
    cases hg : gridGet g q with
    | none =>
      unfold modCell
      rw [hg]
      exact Or.inl rfl
    | some c =>
      rw [cellAt_modCell_self _ (by rw [hg]; rfl)]
      exact Or.inr (Or.inl rfl)
  · rw [cellAt_modCell_ne g _ hq]
    exact Or.inl rfl

theorem genEvo_modCell_end (g : Grid) (p : Position) :
    GenEvo g (modCell g p (fun c => { c with type := CellType.END })) := by
  refine ⟨shapeEq_modCell g p _, fun q => ?_⟩
  by_cases hq : q = p
  · subst hq
    cases hg : gridGet g q with
    | none =>
      unfold modCell
      rw [hg]
      exact Or.inl rfl
    | some c =>
      rw [cellAt_modCell_self _ (by rw [hg]; rfl)]
      exact Or.inr (Or.inr rfl)
  · rw [cellAt_modCell_ne g _ hq]
    exact Or.inl rfl

theorem genEvo_carveCell_any (g : Grid) (p : Position) : GenEvo g (carveCell g p) := by
  unfold carveCell
  split
  · exact genEvo_modCell_path g p
  · exact genEvo_refl g

theorem genEvo_foldCarve : ∀ (L : List Position) (g : Grid), GenEvo g (L.foldl carveCell g)
  | [], g => genEvo_refl g
  | p :: rest, g => genEvo_trans (genEvo_carveCell_any g p) (genEvo_foldCarve rest (carveCell g p))

theorem genEvo_createPathToEnd (m : MazeData) : GenEvo m.grid (createPathToEnd m).grid := by
  rw [createPathToEnd_eq_specRepair]
  exact genEvo_foldCarve _ _

theorem genEvo_ensurePathExists (m : MazeData) : GenEvo m.grid (ensurePathExists m).grid := by
  unfold ensurePathExists
  show GenEvo m.grid
    (if bfsCheckLoop m.grid m.endPosition (gRows m.grid * gCols m.grid + 1)
        [m.startPosition] (visSet (initVis m.grid) m.startPosition true) = true
      then m else createPathToEnd m).grid
  split
  · exact genEvo_refl _
  · exact genEvo_createPathToEnd m

theorem cellEvo_foldlGL {β : Type} (f : Grid × List Position → β → Grid × List Position)
    (hf : ∀ acc b, CellEvo acc.1 (f acc b).1) :
    ∀ (l : List β) (acc : Grid × List Position), CellEvo acc.1 (l.foldl f acc).1
  | [], acc => cellEvo_refl acc.1
  | b :: rest, acc => cellEvo_trans (hf acc b) (cellEvo_foldlGL f hf rest (f acc b))

theorem cellEvo_reconstruct : ∀ (fuel : Nat) (g : Grid) (pos : Position),
    CellEvo g (reconstructPathMark g pos fuel).2
  | 0, g, _ => cellEvo_refl g
  | fuel + 1, g, pos => by
    simp only [reconstructPathMark]
    split
    · exact cellEvo_refl g
    · refine cellEvo_trans ?_ (cellEvo_reconstruct fuel _ _)
      split
      · exact cellEvo_modCell _ _ _ (fun c => ⟨rfl, rfl, fun h => by simp at h⟩)
      · exact cellEvo_refl g

theorem cellEvo_finishRun (s : AlgState) (rest : List Position) :
    CellEvo s.maze.grid ((finishRun s rest).2).maze.grid := by
  unfold finishRun
  exact cellEvo_reconstruct _ _ _

theorem cellEvo_expand (cur : Position) (push : List Position → Position → List Position)
    (dirs : List Position) (g : Grid) (q : List Position) :
    CellEvo g (expandUnvisited cur push dirs g q).1 := by
  unfold expandUnvisited
  exact cellEvo_foldlGL _ (fun acc dir => by
    split
    · refine cellEvo_modCell _ _ _ (fun c => ⟨rfl, rfl, fun h => ?_⟩)
      by_cases he : c.isEnd
      · simpa [he] using h
      · simp [he] at h
    · exact cellEvo_refl acc.1) dirs (g, q)

theorem cellEvo_visitedMark (g : Grid) (cur : Position) :
    CellEvo g (if !(cellAt g cur).isStart && !(cellAt g cur).isEnd then
      modCell g cur (fun c => { c with type := CellType.VISITED }) else g) := by
  split
  · exact cellEvo_modCell _ _ _ (fun c => ⟨rfl, rfl, fun h => by simp at h⟩)
  · exact cellEvo_refl g

theorem cellEvo_bfsNext (s : AlgState) :
    CellEvo s.maze.grid ((bfsNext s).2).maze.grid := by
  unfold bfsNext
  split
  · exact cellEvo_refl _
  · split
    · exact cellEvo_refl _
    · split
      · exact cellEvo_finishRun _ _
      · exact cellEvo_trans (cellEvo_visitedMark _ _) (cellEvo_expand _ _ _ _ _)

theorem cellEvo_dfsNext (s : AlgState) :
    CellEvo s.maze.grid ((dfsNext s).2).maze.grid := by
  unfold dfsNext
  split
  · exact cellEvo_refl _
  · split
    · exact cellEvo_refl _
    · split
      · exact cellEvo_finishRun _ _
      · exact cellEvo_trans (cellEvo_visitedMark _ _) (cellEvo_expand _ _ _ _ _)

set_option maxHeartbeats 1600000 in
theorem cellEvo_astarRelaxDir (endP cur : Position) (closed : List Position)
    (acc : Grid × List Position) (dir : Position) :
    CellEvo acc.1 (astarRelaxDir endP cur closed acc dir).1 := by
  unfold astarRelaxDir
  split
  · exact cellEvo_refl _
  · simp only []
    split
    · show CellEvo acc.1 (modCell (modCell acc.1 dir (fun c =>
        { c with visited := true,
                 type := if c.isEnd then c.type else CellType.VISITING })) dir (fun c =>
        { c with parent := some cur, g := jsAdd1 (cellAt acc.1 cur).g,
                 h := some ((manhattanDistance dir endP : Nat) : WithTop Nat),
                 f := jsAdd (jsAdd1 (cellAt acc.1 cur).g)
                   (some ((manhattanDistance dir endP : Nat) : WithTop Nat)) }))
      exact cellEvo_trans
        (cellEvo_modCell acc.1 dir (fun c =>
          { c with visited := true,
                   type := if c.isEnd then c.type else CellType.VISITING })
          (fun c => ⟨rfl, rfl, fun h => by
            by_cases he : c.isEnd
            · simpa [he] using h
            · simp [he] at h⟩))
        (cellEvo_modCell _ dir (fun c =>
          { c with parent := some cur, g := jsAdd1 (cellAt acc.1 cur).g,
                   h := some ((manhattanDistance dir endP : Nat) : WithTop Nat),
                   f := jsAdd (jsAdd1 (cellAt acc.1 cur).g)
                     (some ((manhattanDistance dir endP : Nat) : WithTop Nat)) })
          (fun c => ⟨rfl, rfl, fun h => h⟩))
    · split
      · exact cellEvo_refl _
      · exact cellEvo_modCell _ _ _ (fun c => ⟨rfl, rfl, fun h => h⟩)

theorem cellEvo_astarNext (s : AlgState) :
    CellEvo s.maze.grid ((astarNext s).2).maze.grid := by
  unfold astarNext
  split
  · exact cellEvo_refl _
  · simp only []
    split
    · exact cellEvo_finishRun _ _
    · exact cellEvo_trans (cellEvo_visitedMark _ _)
        (cellEvo_foldlGL _ (cellEvo_astarRelaxDir s.maze.endPosition _ _) _ _)

theorem cellEvo_dijkstraRelaxDir (cur : Position)
    (acc : Grid × List Position) (dir : Position) :
    CellEvo acc.1 (dijkstraRelaxDir cur acc dir).1 := by
  unfold dijkstraRelaxDir
  split
  · simp only []
    split
    · refine cellEvo_modCell _ _ _ (fun c => ⟨?_, ?_, fun h => ?_⟩)
      · by_cases hv : c.visited <;> simp [hv]
      · by_cases hv : c.visited <;> simp [hv]
      · by_cases hv : c.visited
        · simpa [hv] using h
        · by_cases he : c.isEnd
          · simpa [hv, he] using h
          · simp [hv, he] at h
    · exact cellEvo_refl _
  · exact cellEvo_refl _

theorem cellEvo_dijkstraNext (s : AlgState) :
    CellEvo s.maze.grid ((dijkstraNext s).2).maze.grid := by
  unfold dijkstraNext
  split
  · exact cellEvo_refl _
  · simp only []
    split
    · exact cellEvo_finishRun _ _
    · exact cellEvo_trans (cellEvo_visitedMark _ _)
        (cellEvo_foldlGL _ (cellEvo_dijkstraRelaxDir _) _ _)

theorem shapeEq_map (F : Cell → Cell) (g : Grid) :
    ShapeEq g (g.map (fun row => row.map F)) := by
  refine ⟨by simp, fun i => ?_⟩
  rw [List.getElem?_map]
  cases g[i]? <;> simp

theorem resetCell_facts (c : Cell) :
    (resetCell c).isStart = c.isStart ∧ (resetCell c).isEnd = c.isEnd ∧
    ((resetCell c).type = CellType.WALL → c.type = CellType.WALL) := by
  simp only [resetCell]
  split
  · split
    · exact ⟨rfl, rfl, fun h => by simp at h⟩
    · split
      · exact ⟨rfl, rfl, fun h => by simp at h⟩
      · exact ⟨rfl, rfl, fun h => by simp at h⟩
  · exact ⟨rfl, rfl, fun h => h⟩

theorem cellEvo_map (F : Cell → Cell)
    (hF : ∀ c, (F c).isStart = c.isStart ∧ (F c).isEnd = c.isEnd ∧
      ((F c).type = CellType.WALL → c.type = CellType.WALL)) (g : Grid) :
    CellEvo g (g.map (fun row => row.map F)) := by
  refine ⟨shapeEq_map F g, fun p => ?_⟩
  unfold cellAt
  rw [gridGet_map]
  cases gridGet g p with
  | none => exact ⟨rfl, rfl, fun h => h⟩
  | some c => exact hF c

theorem cellEvo_reset (m : MazeData) :
    CellEvo m.grid (resetMazeVisitation m).grid := by
  unfold resetMazeVisitation
  rw [cloneMazeData_eq]
  exact cellEvo_map resetCell resetCell_facts m.grid

theorem genEvo_pathWriteIf (g : Grid) (b : Bool) (p : Position) :
    GenEvo g (if b = true then
      modCell g p (fun c => { c with type := CellType.PATH }) else g) := by
  split
  · exact genEvo_modCell_path g p
  · exact genEvo_refl g

theorem genEvo_extraOpenings (R : Nat → Nat) (width height : Nat) :
    ∀ (n : Nat) (g : Grid) (k : Nat), GenEvo g (extraOpenings R width height n g k).1
  | 0, g, _ => genEvo_refl g
  | n + 1, g, k => by
    simp only [extraOpenings]
    refine genEvo_trans ?_ (genEvo_extraOpenings R width height n _ (k + 2))
    split
    · split
      · exact genEvo_modCell_path g _
      · exact genEvo_refl g
    · exact genEvo_refl g

theorem genEvo_corridorWalk (R : Nat → Nat) (width height : Nat) (endR endC : Int) :
    ∀ (fuel : Nat) (g : Grid) (r c : Int) (k : Nat),
      GenEvo g (corridorWalk R width height endR endC fuel g r c k).1
  | 0, g, _, _, _ => genEvo_refl g
  | fuel + 1, g, r, c, k => by
    simp only [corridorWalk]
    split
    · exact genEvo_refl g
    · refine genEvo_trans ?_ (genEvo_corridorWalk R width height endR endC fuel _ _ _ _)
      exact genEvo_pathWriteIf g _ _

theorem genEvo_approachLoop (R : Nat → Nat) (width height : Nat) (endR endC : Int) :
    ∀ (n : Nat) (g : Grid) (k : Nat),
      GenEvo g (approachLoop R width height endR endC n g k).1
  | 0, g, _ => genEvo_refl g
  | n + 1, g, k => by
    simp only [approachLoop]
    refine genEvo_trans ?_ (genEvo_approachLoop R width height endR endC n _ _)
    split
    · exact genEvo_corridorWalk R width height endR endC _ g _ _ _
    · exact genEvo_refl g

theorem genEvo_carve (R : Nat → Nat) (width height : Nat) :
    ∀ fuel : Nat,
      (∀ (g : Grid) (pos : Position) (k : Nat),
        GenEvo g (carvePath R width height fuel g pos k).1) ∧
      (∀ (g : Grid) (pos : Position) (ns : List Position) (k : Nat),
        GenEvo g (carveSeq R width height fuel g pos ns k).1) := by
  intro fuel
  induction fuel with
  | zero =>
    constructor
    · intro g pos k
      simp only [carvePath]
      exact genEvo_refl g
    · intro g pos ns k
      induction ns generalizing g k with
      | nil =>
        simp only [carveSeq]
        exact genEvo_refl g
      | cons n rest ih =>
        simp only [carveSeq]
        split
        · refine genEvo_trans ?_ (ih _ _)
          simp only [carvePath]
          exact genEvo_modCell_path g _
        · exact ih g k
  | succ f ihf =>
    have hP : ∀ (g : Grid) (pos : Position) (k : Nat),
        GenEvo g (carvePath R width height (f + 1) g pos k).1 := by
      intro g pos k
      simp only [carvePath]
      refine genEvo_trans ?_ (ihf.2 _ _ _ _)
      split
      · exact genEvo_modCell_path g pos
      · exact genEvo_refl g
    refine ⟨hP, ?_⟩
    intro g pos ns k
    induction ns generalizing g k with
    | nil =>
      simp only [carveSeq]
      exact genEvo_refl g
    | cons n rest ih =>
      simp only [carveSeq]
      split
      · refine genEvo_trans ?_ (ih _ _)
        exact genEvo_trans (genEvo_modCell_path g _) (hP _ _ _)
      · exact ih g k

/-! ## `generateMaze`: structure of the generated maze -/

theorem createEmptyMaze_dims (width height : Nat) :
    GridDims (createEmptyMaze width height).grid height width := by
  simp only [createEmptyMaze]
  apply GridDims_gridSet
  constructor
  · unfold gRows
    rw [List.length_map, List.length_range]
  · intro row hrow
    simp only [List.mem_map] at hrow
    obtain ⟨r, _, rfl⟩ := hrow
    rw [List.length_map, List.length_range]

theorem createEmptyMaze_get (width height : Nat) (p : Position) (c : Cell)
    (hc : gridGet (createEmptyMaze width height).grid p = some c) :
    (p = ⟨0, 0⟩ ∧
      c = { type := CellType.START, position := ⟨0, 0⟩, visited := false,
            isStart := true, isEnd := false }) ∨
    (p ≠ ⟨0, 0⟩ ∧ c.type = CellType.WALL ∧ c.visited = false ∧ c.parent = none ∧
      c.isStart = false ∧ c.isEnd = false) := by
  simp only [createEmptyMaze] at hc
  by_cases hp : p = (⟨0, 0⟩ : Position)
  · left
    subst hp
    have hsome := Option.isSome_iff_exists.mpr ⟨c, hc⟩
    rw [shapeEq_isSome (shapeEq_gridSet _ _ _) _] at hsome
    rw [gridGet_set_self hsome] at hc
    exact ⟨rfl, by injection hc with h; exact h.symm⟩
  · right
    rw [gridGet_set_ne hp _] at hc
    obtain ⟨hr0, hc0, row, hrow, hcell⟩ := gridGet_eq_some_unpack hc
    rw [List.getElem?_map] at hrow
    cases hrr : (List.range height)[p.row.toNat]? with
    | none =>
      rw [hrr] at hrow
      simp at hrow
    | some r =>
      rw [hrr] at hrow
      simp only [Option.map_some', Option.some.injEq] at hrow
      subst hrow
      rw [List.getElem?_map] at hcell
      cases hcc : (List.range width)[p.col.toNat]? with
      | none =>
        rw [hcc] at hcell
        simp at hcell
      | some cl =>
        rw [hcc] at hcell
        simp only [Option.map_some', Option.some.injEq] at hcell
        refine ⟨hp, ?_⟩
        rw [← hcell]
        exact ⟨rfl, rfl, rfl, rfl, rfl⟩

theorem gridInvB_pack {m : MazeData}
    (hd : GridDims m.grid m.height m.width) (hh : 0 < m.height)
    (hsb : 0 ≤ m.startPosition.row ∧ m.startPosition.row < (m.height : Int) ∧
      0 ≤ m.startPosition.col ∧ m.startPosition.col < (m.width : Int))
    (heb : 0 ≤ m.endPosition.row ∧ m.endPosition.row < (m.height : Int) ∧
      0 ≤ m.endPosition.col ∧ m.endPosition.col < (m.width : Int))
    (hne : m.startPosition ≠ m.endPosition)
    (hsw : (cellAt m.grid m.startPosition).type ≠ CellType.WALL)
    (hew : (cellAt m.grid m.endPosition).type ≠ CellType.WALL)
    (hcells : ∀ p c, gridGet m.grid p = some c →
      (c.isStart = true ↔ p = m.startPosition) ∧
      (c.isEnd = true ↔ p = m.endPosition) ∧
      c.visited = false ∧ c.parent = none) :
    gridInvB m = true := by
  unfold gridInvB
  simp only [Bool.and_eq_true, decide_eq_true_eq, List.all_eq_true]
  refine ⟨⟨⟨⟨⟨⟨⟨⟨hd.1, gCols_eq hd hh⟩, ?_⟩, ?_⟩, ?_⟩, hne⟩, hsw⟩, hew⟩, ?_⟩
  · intro row hrow
    rw [hd.2 row hrow, gCols_eq hd hh]
  · exact (inBoundsB_iff hd hh _).mpr hsb
  · exact (inBoundsB_iff hd hh _).mpr heb
  · intro x hx y hy
    obtain ⟨i, row⟩ := x
    obtain ⟨j, c⟩ := y
    have hrow := List.mk_mem_enum_iff_getElem?.mp hx
    have hcell := List.mk_mem_enum_iff_getElem?.mp hy
    have hget : gridGet m.grid ⟨(i : Int), (j : Int)⟩ = some c := by
      unfold gridGet
      rw [if_neg (by dsimp only; omega)]
      dsimp only
      have h1 : ((i : Int)).toNat = i := rfl
      have h2 : ((j : Int)).toNat = j := rfl
      rw [h1, h2, hrow]
      exact hcell
    obtain ⟨hf1, hf2, hf3, hf4⟩ := hcells _ c hget
    unfold cellClean
    simp only [Bool.and_eq_true, beq_iff_eq, Bool.not_eq_true', decide_eq_true_eq]
    refine ⟨⟨⟨?_, ?_⟩, hf3⟩, hf4⟩
    · by_cases hp : (⟨(i : Int), (j : Int)⟩ : Position) = m.startPosition
      · rw [decide_eq_true hp]
        exact hf1.mpr hp
      · rw [decide_eq_false hp]
        rcases hb : c.isStart with hv | hv
        · rfl
        · exact absurd (hf1.mp hb) hp
    · by_cases hp : (⟨(i : Int), (j : Int)⟩ : Position) = m.endPosition
      · rw [decide_eq_true hp]
        exact hf2.mpr hp
      · rw [decide_eq_false hp]
        rcases hb : c.isEnd with hv | hv
        · rfl
        · exact absurd (hf2.mp hb) hp

theorem genEvo_get_transfer {g g' : Grid} (h : GenEvo g g') {p : Position} {c' : Cell}
    (hc' : gridGet g' p = some c') :
    ∃ c, gridGet g p = some c ∧ c'.isStart = c.isStart ∧ c'.isEnd = c.isEnd ∧
      c'.visited = c.visited ∧ c'.parent = c.parent ∧
      (c'.type = CellType.WALL → c.type = CellType.WALL) := by
  have hsome : (gridGet g p).isSome = true := by
    rw [← shapeEq_isSome h.1 p, hc']
    rfl
  obtain ⟨c, hc⟩ := Option.isSome_iff_exists.mp hsome
  have hca : cellAt g' p = c' := by
    unfold cellAt
    rw [hc']
    rfl
  have hcb : cellAt g p = c := by
    unfold cellAt
    rw [hc]
    rfl
  refine ⟨c, hc, ?_⟩
  rcases h.2 p with he | he | he <;> rw [hca, hcb] at he <;> rw [he] <;>
    exact ⟨rfl, rfl, rfl, rfl, fun hw => by first | exact hw | simp at hw⟩

theorem GridDims_shapeEq {g g' : Grid} {h w : Nat} (hs : ShapeEq g g')
    (hd : GridDims g h w) : GridDims g' h w := by
  constructor
  · unfold gRows
    rw [hs.1]
    exact hd.1
  · intro row hrow
    obtain ⟨i, hi⟩ := List.mem_iff_getElem?.mp hrow
    have := hs.2 i
    rw [hi] at this
    cases hg : g[i]? with
    | none =>
      rw [hg] at this
      simp at this
    | some row0 =>
      rw [hg] at this
      simp only [Option.map_some', Option.some.injEq] at this
      rw [this]
      exact hd.2 row0 (List.getElem?_mem hg)

theorem genSetup_inv (width height : Nat) (hw : 2 ≤ width) (hh : 2 ≤ height)
    (e : Position)
    (he : e = ⟨0, (width : Int) - 1⟩ ∨ e = ⟨(height : Int) - 1, 0⟩ ∨
      e = ⟨(height : Int) - 1, (width : Int) - 1⟩)
    (g5 : Grid)
    (hgen : GenEvo (gridSet (createEmptyMaze width height).grid e
      { type := CellType.END, position := e, visited := false,
        isStart := false, isEnd := true }) g5) :
    gridInvB { grid := g5, startPosition := ⟨0, 0⟩, endPosition := e,
               width := width, height := height } = true := by
  have heb : 0 ≤ e.row ∧ e.row < (height : Int) ∧ 0 ≤ e.col ∧ e.col < (width : Int) := by
    rcases he with he | he | he <;> subst he <;> refine ⟨?_, ?_, ?_, ?_⟩ <;>
      dsimp only <;> omega
  have hne0 : e ≠ (⟨0, 0⟩ : Position) := by
    rcases he with he | he | he <;> subst he <;> intro hc <;>
      rw [Position.mk.injEq] at hc <;> omega
  have hd0 : GridDims (createEmptyMaze width height).grid height width :=
    createEmptyMaze_dims width height
  have hd1 : GridDims (gridSet (createEmptyMaze width height).grid e
      { type := CellType.END, position := e, visited := false,
        isStart := false, isEnd := true }) height width :=
    GridDims_gridSet hd0 _ _
  have hd5 : GridDims g5 height width := GridDims_shapeEq hgen.1 hd1
  have hesome : (gridGet (createEmptyMaze width height).grid e).isSome := by
    rw [gridGet_isSome_iff hd0 e]
    exact heb
  have hg1get : ∀ p c, gridGet (gridSet (createEmptyMaze width height).grid e
      { type := CellType.END, position := e, visited := false,
        isStart := false, isEnd := true }) p = some c →
      (c.isStart = true ↔ p = (⟨0, 0⟩ : Position)) ∧ (c.isEnd = true ↔ p = e) ∧
      c.visited = false ∧ c.parent = none ∧
      (p = (⟨0, 0⟩ : Position) → c.type = CellType.START) ∧
      (p = e → c.type = CellType.END) := by
    intro p c hc
    by_cases hpe : p = e
    · subst hpe
      rw [gridGet_set_self hesome] at hc
      injection hc with hc
      subst hc
      exact ⟨⟨fun h => by simp at h, fun h => absurd h hne0⟩,
        ⟨fun _ => rfl, fun _ => rfl⟩, rfl, rfl, fun h => absurd h hne0, fun _ => rfl⟩
    · rw [gridGet_set_ne hpe _] at hc
      rcases createEmptyMaze_get width height p c hc with ⟨hp0, hcell⟩ | ⟨hp0, ht, hv, hpar, hs, hee⟩
      · subst hp0
        subst hcell
        exact ⟨⟨fun _ => rfl, fun _ => rfl⟩,
          ⟨fun h => by simp at h, fun h => absurd h hpe⟩, rfl, rfl,
          fun _ => rfl, fun h => absurd h hpe⟩
      · exact ⟨⟨fun h => by rw [hs] at h; simp at h, fun h => absurd h hp0⟩,
          ⟨fun h => by rw [hee] at h; simp at h, fun h => absurd h hpe⟩, hv, hpar,
          fun h => absurd h hp0, fun h => absurd h hpe⟩
  have hcells5 : ∀ p c, gridGet g5 p = some c →
      (c.isStart = true ↔ p = (⟨0, 0⟩ : Position)) ∧ (c.isEnd = true ↔ p = e) ∧
      c.visited = false ∧ c.parent = none := by
    intro p c hc
    obtain ⟨c0, hc0, hfs, hfe, hfv, hfp, _⟩ := genEvo_get_transfer hgen hc
    obtain ⟨i1, i2, i3, i4, _, _⟩ := hg1get p c0 hc0
    rw [hfs, hfe, hfv, hfp]
    exact ⟨i1, i2, i3, i4⟩
  have hwm : WallMono (gridSet (createEmptyMaze width height).grid e
      { type := CellType.END, position := e, visited := false,
        isStart := false, isEnd := true }) g5 :=
    cellEvo_wallMono (genEvo_cellEvo hgen)
  have hsb : 0 ≤ (0 : Int) ∧ (0 : Int) < (height : Int) ∧
      0 ≤ (0 : Int) ∧ (0 : Int) < (width : Int) := ⟨le_refl 0, by omega, le_refl 0, by omega⟩
  have hssome : (gridGet (createEmptyMaze width height).grid ⟨0, 0⟩).isSome := by
    rw [gridGet_isSome_iff hd0 ⟨0, 0⟩]
    exact hsb
  have hstype : (cellAt (gridSet (createEmptyMaze width height).grid e
      { type := CellType.END, position := e, visited := false,
        isStart := false, isEnd := true }) ⟨0, 0⟩).type = CellType.START := by
    unfold cellAt
    rw [gridGet_set_ne (fun hq => hne0 hq.symm) _]
    obtain ⟨c0, hc0⟩ := Option.isSome_iff_exists.mp hssome
    rw [hc0]
    rcases createEmptyMaze_get width height _ _ hc0 with ⟨_, hcell⟩ | ⟨hp0, _⟩
    · rw [hcell]
      rfl
    · exact absurd rfl hp0
  have hetype : (cellAt (gridSet (createEmptyMaze width height).grid e
      { type := CellType.END, position := e, visited := false,
        isStart := false, isEnd := true }) e).type = CellType.END := by
    unfold cellAt
    rw [gridGet_set_self hesome]
    rfl
  apply gridInvB_pack
  · exact hd5
  · show 0 < height
    omega
  · exact hsb
  · exact heb
  · exact fun hc => hne0 hc.symm
  · show (cellAt g5 ⟨0, 0⟩).type ≠ CellType.WALL
    intro hc
    rw [hwm ⟨0, 0⟩ hc] at hstype
    cases hstype
  · show (cellAt g5 e).type ≠ CellType.WALL
    intro hc
    rw [hwm e hc] at hetype
    cases hetype
  · exact hcells5

theorem genEnd_corner (R : Nat → Nat) (width height : Nat)
    (hw : 2 ≤ width) (hh : 2 ≤ height) :
    genEnd R width height = ⟨0, (width : Int) - 1⟩ ∨
    genEnd R width height = ⟨(height : Int) - 1, 0⟩ ∨
    genEnd R width height = ⟨(height : Int) - 1, (width : Int) - 1⟩ := by
  unfold genEnd
  have h1 : ((width : Int) - 1 = 0) = False := by
    simp only [eq_iff_iff, iff_false]
    omega
  have h2 : ((height : Int) - 1 = 0) = False := by
    simp only [eq_iff_iff, iff_false]
    omega
  have hfil : ([⟨0, (width : Int) - 1⟩, ⟨(height : Int) - 1, 0⟩,
        ⟨(height : Int) - 1, (width : Int) - 1⟩] : List Position).filter
      (fun pos => !(decide (pos.row = (0 : Int)) &&
        decide (pos.col = (0 : Int)))) =
      [⟨0, (width : Int) - 1⟩, ⟨(height : Int) - 1, 0⟩,
       ⟨(height : Int) - 1, (width : Int) - 1⟩] := by
    simp [List.filter, h1, h2]
  show (List.filter _ _).getD (draw R 0 (List.filter _ _).length) default = _ ∨
    (List.filter _ _).getD (draw R 0 (List.filter _ _).length) default = _ ∨
    (List.filter _ _).getD (draw R 0 (List.filter _ _).length) default = _
  rw [hfil]
  rw [show ([⟨0, (width : Int) - 1⟩, ⟨(height : Int) - 1, 0⟩,
    ⟨(height : Int) - 1, (width : Int) - 1⟩] : List Position).length = 3 from rfl]
  have hlt : draw R 0 (3 : Nat) < 3 := by
    unfold draw
    rw [if_neg (by omega)]
    exact Nat.mod_lt _ (by omega)
  rcases hv : draw R 0 (3 : Nat) with _ | _ | _ | i
  · left
    rfl
  · right
    left
    rfl
  · right
    right
    rfl
  · rw [hv] at hlt
    omega

theorem genEvo_setup (R : Nat → Nat) (width height : Nat) :
    GenEvo (genGrid0 R width height) (genAdjFixed R width height) := by
  unfold genAdjFixed
  refine genEvo_trans ?_ (genEvo_pathWriteIf _ _ _)
  unfold genApproached
  refine genEvo_trans ?_ (genEvo_approachLoop R width height _ _ _ _ _)
  unfold genOpened
  refine genEvo_trans ?_ (genEvo_extraOpenings R width height _ _ _)
  unfold genGrid2
  refine genEvo_trans ?_ (genEvo_modCell_end _ _)
  unfold genCarved
  exact (genEvo_carve R width height _).1 _ _ _

theorem generateMaze_pre (R : Nat → Nat) (width height : Nat)
    (hw : 2 ≤ width) (hh : 2 ≤ height) :
    generateMaze R width height = ensurePathExists (genPre R width height) ∧
    (genPre R width height).startPosition = ⟨0, 0⟩ ∧
    ((genPre R width height).endPosition = ⟨0, (width : Int) - 1⟩ ∨
     (genPre R width height).endPosition = ⟨(height : Int) - 1, 0⟩ ∨
     (genPre R width height).endPosition = ⟨(height : Int) - 1, (width : Int) - 1⟩) ∧
    (genPre R width height).width = width ∧ (genPre R width height).height = height ∧
    gridInvB (genPre R width height) = true := by
  refine ⟨rfl, rfl, genEnd_corner R width height hw hh, rfl, rfl, ?_⟩
  exact genSetup_inv width height hw hh _ (genEnd_corner R width height hw hh) _
    (genEvo_setup R width height)

theorem ensurePathExists_fields (m : MazeData) :
    (ensurePathExists m).startPosition = m.startPosition ∧
    (ensurePathExists m).endPosition = m.endPosition ∧
    (ensurePathExists m).width = m.width ∧ (ensurePathExists m).height = m.height := by
  by_cases hb : bfsCheckLoop m.grid m.endPosition (gRows m.grid * gCols m.grid + 1)
      [m.startPosition] (visSet (initVis m.grid) m.startPosition true) = true
  · rw [show ensurePathExists m = m from by unfold ensurePathExists; exact if_pos hb]
    exact ⟨rfl, rfl, rfl, rfl⟩
  · rw [show ensurePathExists m = createPathToEnd m from by
      unfold ensurePathExists; exact if_neg hb]
    exact ⟨rfl, rfl, rfl, rfl⟩

theorem ensurePathExists_reach {m : MazeData} (hm : gridInvB m = true) :
    Reach (ensurePathExists m).grid m.startPosition m.endPosition := by
  by_cases hr : Reach m.grid m.startPosition m.endPosition
  · rw [ensurePathExists_of_reach hm hr]
    exact hr
  · rw [ensurePathExists_of_not_reach hm hr, createPathToEnd_eq_specRepair]
    exact repairGrid_reach hm

theorem gridInvB_withGrid {m : MazeData} {g2 : Grid} (hm : gridInvB m = true)
    (hg : GenEvo m.grid g2) : gridInvB { m with grid := g2 } = true := by
  obtain ⟨hd, hhp, hwp, hsb, heb, hne, hsw, hew, hcells⟩ := gridInvB_unpack hm
  have hwm : WallMono m.grid g2 := cellEvo_wallMono (genEvo_cellEvo hg)
  apply gridInvB_pack
  · exact GridDims_shapeEq hg.1 hd
  · exact hhp
  · exact hsb
  · exact heb
  · exact hne
  · show (cellAt g2 m.startPosition).type ≠ CellType.WALL
    intro hc
    exact hsw (hwm _ hc)
  · show (cellAt g2 m.endPosition).type ≠ CellType.WALL
    intro hc
    exact hew (hwm _ hc)
  · intro p c hc
    obtain ⟨c0, hc0, hfs, hfe, hfv, hfp, _⟩ := genEvo_get_transfer hg hc
    obtain ⟨i1, i2, i3, i4⟩ := hcells p c0 hc0
    rw [hfs, hfe, hfv, hfp]
    exact ⟨i1, i2, i3, i4⟩

theorem gridInvB_ensure {m : MazeData} (hm : gridInvB m = true) :
    gridInvB (ensurePathExists m) = true := by
  unfold ensurePathExists
  show gridInvB (if bfsCheckLoop m.grid m.endPosition (gRows m.grid * gCols m.grid + 1)
      [m.startPosition] (visSet (initVis m.grid) m.startPosition true) = true
    then m else createPathToEnd m) = true
  split
  · exact hm
  · exact gridInvB_withGrid hm (genEvo_createPathToEnd m)

theorem generateMaze_inv (R : Nat → Nat) (width height : Nat)
    (hw : 2 ≤ width) (hh : 2 ≤ height) :
    gridInvB (generateMaze R width height) = true := by
  obtain ⟨heq, _, _, _, _, hinv⟩ := generateMaze_pre R width height hw hh
  rw [heq]
  exact gridInvB_ensure hinv

/-- C2: for every supported size (width, height ≥ 5) and every random
oracle, `generateMaze` returns a maze whose start is (0, 0), whose end
is one of the three non-start corners, and whose grid has a walkable
(orthogonal, non-WALL) path from start to end. -/
theorem claim_C2 (R : Nat → Nat) (width height : Nat)
    (hw : 5 ≤ width) (hh : 5 ≤ height) :
    (generateMaze R width height).startPosition = ⟨0, 0⟩ ∧
    ((generateMaze R width height).endPosition = ⟨0, (width : Int) - 1⟩ ∨
     (generateMaze R width height).endPosition = ⟨(height : Int) - 1, 0⟩ ∨
     (generateMaze R width height).endPosition = ⟨(height : Int) - 1, (width : Int) - 1⟩) ∧
    Reach (generateMaze R width height).grid
      (generateMaze R width height).startPosition
      (generateMaze R width height).endPosition := by
  obtain ⟨heq, hs, he, hwid, hhei, hinv⟩ :=
    generateMaze_pre R width height (by omega) (by omega)
  obtain ⟨f1, f2, f3, f4⟩ := ensurePathExists_fields (genPre R width height)
  refine ⟨?_, ?_, ?_⟩
  · rw [heq, f1, hs]
  · rw [heq, f2]
    exact he
  · rw [heq, f1, f2]
    exact ensurePathExists_reach hinv

/-- C2, witness: the claim applied at size 5×5 with the all-zeros
oracle. -/
theorem claim_C2_witness :
    5 ≤ 5 ∧
    ((generateMaze (fun _ => 0) 5 5).startPosition = ⟨0, 0⟩ ∧
     ((generateMaze (fun _ => 0) 5 5).endPosition = ⟨0, (5 : Int) - 1⟩ ∨
      (generateMaze (fun _ => 0) 5 5).endPosition = ⟨(5 : Int) - 1, 0⟩ ∨
      (generateMaze (fun _ => 0) 5 5).endPosition = ⟨(5 : Int) - 1, (5 : Int) - 1⟩) ∧
     Reach (generateMaze (fun _ => 0) 5 5).grid
       (generateMaze (fun _ => 0) 5 5).startPosition
       (generateMaze (fun _ => 0) 5 5).endPosition) :=
  ⟨by omega, claim_C2 (fun _ => 0) 5 5 (by omega) (by omega)⟩

/-- C6: a maze produced by `generateMaze` has `isStart` exactly at its
`startPosition` and `isEnd` exactly at its `endPosition` (so exactly one
cell carries each flag), start and end are distinct, and neither the
start cell nor the end cell is a WALL; moreover every `next()` call of
each of the four steppers and `resetMazeVisitation` evolve the grid by
`CellEvo`: the shape is unchanged, no cell's `isStart`/`isEnd` flag
changes, and no cell ever becomes a WALL (so the flag layout and the
non-WALL kinds of the start and end cells persist). -/
theorem claim_C6 (R : Nat → Nat) (width height : Nat)
    (hw : 2 ≤ width) (hh : 2 ≤ height) (m : MazeData) (s : AlgState) :
    ((∀ p c, gridGet (generateMaze R width height).grid p = some c →
        ((c.isStart = true ↔ p = (generateMaze R width height).startPosition) ∧
         (c.isEnd = true ↔ p = (generateMaze R width height).endPosition))) ∧
     (generateMaze R width height).startPosition ≠
       (generateMaze R width height).endPosition ∧
     (cellAt (generateMaze R width height).grid
       (generateMaze R width height).startPosition).type ≠ CellType.WALL ∧
     (cellAt (generateMaze R width height).grid
       (generateMaze R width height).endPosition).type ≠ CellType.WALL) ∧
    CellEvo s.maze.grid ((bfsNext s).2).maze.grid ∧
    CellEvo s.maze.grid ((dfsNext s).2).maze.grid ∧
    CellEvo s.maze.grid ((astarNext s).2).maze.grid ∧
    CellEvo s.maze.grid ((dijkstraNext s).2).maze.grid ∧
    CellEvo m.grid (resetMazeVisitation m).grid := by
  obtain ⟨_, _, _, ⟨_, _⟩, ⟨_, _⟩, hne, hsw, hew, hcells⟩ :=
    gridInvB_unpack (generateMaze_inv R width height hw hh)
  exact ⟨⟨fun p c hc => ⟨(hcells p c hc).1, (hcells p c hc).2.1⟩, hne, hsw, hew⟩,
    cellEvo_bfsNext s, cellEvo_dfsNext s, cellEvo_astarNext s,
    cellEvo_dijkstraNext s, cellEvo_reset m⟩

/-- C6, witness: the claim applied at size 2×2 with the all-zeros
oracle, the walled 2×2 maze and the BFS initial state on it. -/
theorem claim_C6_witness :
    2 ≤ 2 ∧
    (((∀ p c, gridGet (generateMaze (fun _ => 0) 2 2).grid p = some c →
        ((c.isStart = true ↔ p = (generateMaze (fun _ => 0) 2 2).startPosition) ∧
         (c.isEnd = true ↔ p = (generateMaze (fun _ => 0) 2 2).endPosition))) ∧
      (generateMaze (fun _ => 0) 2 2).startPosition ≠
        (generateMaze (fun _ => 0) 2 2).endPosition ∧
      (cellAt (generateMaze (fun _ => 0) 2 2).grid
        (generateMaze (fun _ => 0) 2 2).startPosition).type ≠ CellType.WALL ∧
      (cellAt (generateMaze (fun _ => 0) 2 2).grid
        (generateMaze (fun _ => 0) 2 2).endPosition).type ≠ CellType.WALL) ∧
     CellEvo (bfsInit deadMaze).maze.grid
       ((bfsNext (bfsInit deadMaze)).2).maze.grid ∧
     CellEvo (bfsInit deadMaze).maze.grid
       ((dfsNext (bfsInit deadMaze)).2).maze.grid ∧
     CellEvo (bfsInit deadMaze).maze.grid
       ((astarNext (bfsInit deadMaze)).2).maze.grid ∧
     CellEvo (bfsInit deadMaze).maze.grid
       ((dijkstraNext (bfsInit deadMaze)).2).maze.grid ∧
     CellEvo deadMaze.grid (resetMazeVisitation deadMaze).grid) :=
  ⟨by omega, claim_C6 (fun _ => 0) 2 2 (by omega) (by omega) deadMaze (bfsInit deadMaze)⟩

/-- C10, counterexample: post-processing does not only convert WALL
cells to PATH — on `corrGrid` the approach-corridor loop converts the
END cell at (2, 2), which is not a WALL (its kind is END and its
`isEnd` flag is set), to PATH. -/
theorem claim_C10_counterexample :
    (cellAt corrGrid ⟨2, 2⟩).type = CellType.END ∧
    (cellAt corrGrid ⟨2, 2⟩).isEnd = true ∧
    (cellAt (approachLoop (fun k => k % 2) 3 3 2 2 3 corrGrid 0).1 ⟨2, 2⟩).type
      = CellType.PATH := by
  refine ⟨rfl, rfl, ?_⟩
  decide

/-- C10, amended: no operation after the initial build ever converts a
cell to a WALL — the extra-openings loop, the corridor walk and the
approach loop, the repair (`createPathToEnd` and `ensurePathExists`),
`resetMazeVisitation`, and a `next()` call of each of the four steppers
are all `WallMono`: any cell that is a WALL afterwards was already a
WALL before, so the set of walkable (non-WALL) cells never shrinks.
(The spec wording "post-processing only converts WALL to PATH" is too
strong: the approach corridor also converts the non-WALL END cell to
PATH, see the counterexample.) -/
theorem claim_C10_amended (R : Nat → Nat) (width height n fuel k : Nat)
    (g : Grid) (endR endC r c : Int) (m : MazeData) (s : AlgState) :
    WallMono g (extraOpenings R width height n g k).1 ∧
    WallMono g (corridorWalk R width height endR endC fuel g r c k).1 ∧
    WallMono g (approachLoop R width height endR endC n g k).1 ∧
    WallMono m.grid (createPathToEnd m).grid ∧
    WallMono m.grid (ensurePathExists m).grid ∧
    WallMono m.grid (resetMazeVisitation m).grid ∧
    WallMono s.maze.grid ((bfsNext s).2).maze.grid ∧
    WallMono s.maze.grid ((dfsNext s).2).maze.grid ∧
    WallMono s.maze.grid ((astarNext s).2).maze.grid ∧
    WallMono s.maze.grid ((dijkstraNext s).2).maze.grid :=
  ⟨cellEvo_wallMono (genEvo_cellEvo (genEvo_extraOpenings R width height n g k)),
   cellEvo_wallMono (genEvo_cellEvo (genEvo_corridorWalk R width height endR endC fuel g r c k)),
   cellEvo_wallMono (genEvo_cellEvo (genEvo_approachLoop R width height endR endC n g k)),
   cellEvo_wallMono (genEvo_cellEvo (genEvo_createPathToEnd m)),
   cellEvo_wallMono (genEvo_cellEvo (genEvo_ensurePathExists m)),
   cellEvo_wallMono (cellEvo_reset m),
   cellEvo_wallMono (cellEvo_bfsNext s),
   cellEvo_wallMono (cellEvo_dfsNext s),
   cellEvo_wallMono (cellEvo_astarNext s),
   cellEvo_wallMono (cellEvo_dijkstraNext s)⟩

/-! ## BFS stepper: run invariant machinery -/

theorem walkEq_refl (g : Grid) : WalkEq g g := ⟨shapeEq_refl g, fun _ => Iff.rfl⟩

theorem isValid_isSome {g : Grid} {p : Position}
    (h : isValidPosition g p = true) : (gridGet g p).isSome = true := by
  rcases hs : (gridGet g p).isSome with hv | hv
  · exfalso
    have hd : cellAt g p = default := by
      unfold cellAt
      cases hg : gridGet g p with
      | none => rfl
      | some c =>
        rw [hg] at hs
        cases hs
    unfold isValidPosition at h
    rw [Bool.and_eq_true] at h
    rw [hd] at h
    exact absurd (of_decide_eq_true h.2) (fun hc => hc rfl)
  · rfl

theorem walkEq_valid {g0 g : Grid} (h : WalkEq g0 g) (p : Position) :
    isValidPosition g p = isValidPosition g0 p := by
  unfold isValidPosition inBoundsB
  unfold gRows gCols
  rw [h.1.1, show (g.headD []).length = (g0.headD []).length from by
    rw [headD_eq_getElem?, headD_eq_getElem?]
    have h0 := h.1.2 0
    cases hg : g0[0]? with
    | none =>
      rw [hg] at h0
      simp only [Option.map_none'] at h0
      cases hg2 : g[0]? with
      | none => rfl
      | some r =>
        rw [hg2] at h0
        simp at h0
    | some r =>
      rw [hg] at h0
      cases hg2 : g[0]? with
      | none =>
        rw [hg2] at h0
        simp at h0
      | some r2 =>
        rw [hg2] at h0
        simp only [Option.map_some', Option.some.injEq] at h0
        simpa using h0]
  congr 1
  rw [decide_eq_decide]
  constructor
  · intro hne hc
    exact hne ((h.2 p).mpr hc)
  · intro hne hc
    exact hne ((h.2 p).mp hc)

theorem walkEq_write {g0 g : Grid} (h : WalkEq g0 g) (p : Position)
    (hold : (cellAt g p).type ≠ CellType.WALL) (f : Cell → Cell)
    (hf : ∀ c, (f c).type = c.type ∨ (f c).type ≠ CellType.WALL) :
    WalkEq g0 (modCell g p f) := by
  refine ⟨shapeEq_trans h.1 (shapeEq_modCell g p f), fun q => ?_⟩
  by_cases hq : q = p
  · subst hq
    cases hg : gridGet g q with
    | none =>
      unfold modCell
      rw [hg]
      exact h.2 q
    | some c =>
      rw [cellAt_modCell_self _ (by rw [hg]; rfl)]
      have hcq : cellAt g q = c := by
        unfold cellAt
        rw [hg]
        rfl
      rw [hcq]
      rcases hf c with hc | hc
      · rw [hc, ← hcq]
        exact h.2 q
      · constructor
        · intro hw
          exact absurd hw hc
        · intro hw
          rw [hcq] at hold
          exact absurd ((h.2 q).mpr hw) (fun hc2 => hold (hcq ▸ hc2))
  · rw [cellAt_modCell_ne g _ hq]
    exact h.2 q

theorem expand_spec (cur : Position) :
    ∀ (dirs : List Position) (g : Grid) (q : List Position), dirs.Nodup →
      (expandUnvisited cur (fun l d => l ++ [d]) dirs g q).2 =
        q ++ dirs.filter (fun d => isValidPosition g d && !(cellAt g d).visited) ∧
      (∀ p, p ∈ dirs.filter (fun d => isValidPosition g d && !(cellAt g d).visited) →
        cellAt (expandUnvisited cur (fun l d => l ++ [d]) dirs g q).1 p =
          { cellAt g p with
              visited := true, parent := some cur,
              type := if (cellAt g p).isEnd then (cellAt g p).type
                else CellType.VISITING }) ∧
      (∀ p, p ∉ dirs.filter (fun d => isValidPosition g d && !(cellAt g d).visited) →
        cellAt (expandUnvisited cur (fun l d => l ++ [d]) dirs g q).1 p = cellAt g p) ∧
      ShapeEq g (expandUnvisited cur (fun l d => l ++ [d]) dirs g q).1
  | [], g, q, _ => by
    refine ⟨by simp [expandUnvisited], fun p hp => by simp at hp,
      fun p _ => rfl, shapeEq_refl g⟩
  | d :: rest, g, q, hnd => by
    rw [List.nodup_cons] at hnd
    obtain ⟨hd, hrest⟩ := hnd
    have hstep : expandUnvisited cur (fun l x => l ++ [x]) (d :: rest) g q =
        expandUnvisited cur (fun l x => l ++ [x]) rest
          (if isValidPosition g d && !(cellAt g d).visited then
            modCell g d (fun c =>
              { c with visited := true, parent := some cur,
                       type := if c.isEnd then c.type else CellType.VISITING })
           else g)
          (if isValidPosition g d && !(cellAt g d).visited then q ++ [d] else q) := by
      unfold expandUnvisited
      rw [List.foldl_cons]
      split
      · rfl
      · rfl
    by_cases hb : (isValidPosition g d && !(cellAt g d).visited) = true
    · have hsome : (gridGet g d).isSome = true :=
        isValid_isSome (Bool.and_eq_true .. ▸ hb).1
      rw [hstep, if_pos hb, if_pos hb]
      have hfeq : rest.filter (fun x => isValidPosition
            (modCell g d (fun c =>
              { c with visited := true, parent := some cur,
                       type := if c.isEnd then c.type else CellType.VISITING })) x &&
            !(cellAt (modCell g d (fun c =>
              { c with visited := true, parent := some cur,
                       type := if c.isEnd then c.type else CellType.VISITING })) x).visited) =
          rest.filter (fun x => isValidPosition g x && !(cellAt g x).visited) := by
        apply List.filter_congr
        intro x hx
        have hxd : x ≠ d := fun hc => hd (hc ▸ hx)
        have hcell : cellAt (modCell g d (fun c =>
            { c with visited := true, parent := some cur,
                     type := if c.isEnd then c.type else CellType.VISITING })) x =
            cellAt g x := cellAt_modCell_ne g _ hxd
        have hval : isValidPosition (modCell g d (fun c =>
            { c with visited := true, parent := some cur,
                     type := if c.isEnd then c.type else CellType.VISITING })) x =
            isValidPosition g x := by
          unfold isValidPosition inBoundsB
          rw [gRows_modCell, gCols_modCell, hcell]
        rw [hval, hcell]
      obtain ⟨ih1, ih2, ih3, ih4⟩ := expand_spec cur rest
        (modCell g d (fun c =>
          { c with visited := true, parent := some cur,
                   type := if c.isEnd then c.type else CellType.VISITING }))
        (q ++ [d]) hrest
      rw [hfeq] at ih1 ih2 ih3
      have hfl : (d :: rest).filter
          (fun x => isValidPosition g x && !(cellAt g x).visited) =
          d :: rest.filter (fun x => isValidPosition g x && !(cellAt g x).visited) := by
        rw [List.filter_cons, if_pos hb]
      refine ⟨?_, ?_, ?_, ?_⟩
      · rw [ih1, hfl, List.append_assoc]
        rfl
      · intro p hp
        rw [hfl, List.mem_cons] at hp
        rcases hp with hp | hp
        · subst hp
          have hnp : p ∉ rest.filter
              (fun x => isValidPosition g x && !(cellAt g x).visited) :=
            fun hc => hd (List.mem_of_mem_filter hc)
          rw [ih3 p hnp, cellAt_modCell_self _ hsome]
        · have hpd : p ≠ d := fun hc =>
            hd (hc ▸ List.mem_of_mem_filter hp)
          rw [ih2 p hp, cellAt_modCell_ne g _ hpd]
      · intro p hp
        rw [hfl, List.mem_cons] at hp
        push_neg at hp
        obtain ⟨hp1, hp2⟩ := hp
        rw [ih3 p hp2, cellAt_modCell_ne g _ hp1]
      · exact shapeEq_trans (shapeEq_modCell g d _) ih4
    · rw [hstep, if_neg hb, if_neg hb]
      have hfl : (d :: rest).filter
          (fun x => isValidPosition g x && !(cellAt g x).visited) =
          rest.filter (fun x => isValidPosition g x && !(cellAt g x).visited) := by
        rw [List.filter_cons, if_neg hb]
      obtain ⟨ih1, ih2, ih3, ih4⟩ := expand_spec cur rest g q hrest
      rw [hfl]
      exact ⟨ih1, ih2, ih3, ih4⟩

theorem forall2_mem_left {R : Position → Nat → Prop} :
    ∀ {l : List Position} {ds : List Nat}, List.Forall₂ R l ds →
      ∀ p ∈ l, ∃ k ∈ ds, R p k := by
  intro l ds h
  induction h with
  | nil => intro p hp; simp at hp
  | cons hr _ ih =>
    intro p hp
    rcases List.mem_cons.mp hp with hp | hp
    · subst hp
      exact ⟨_, List.mem_cons_self _ _, hr⟩
    · obtain ⟨k, hk, hrk⟩ := ih p hp
      exact ⟨k, List.mem_cons_of_mem _ hk, hrk⟩

theorem start_valid {m0 : MazeData} (hm : gridInvB m0 = true) :
    isValidPosition m0.grid m0.startPosition = true := by
  obtain ⟨hd, hh, hw, hsb, _, _, hsw, _, _⟩ := gridInvB_unpack hm
  unfold isValidPosition
  rw [Bool.and_eq_true]
  exact ⟨(inBoundsB_iff hd hh _).mpr hsb, decide_eq_true hsw⟩

theorem bfsInv_init {m0 : MazeData} (hm : gridInvB m0 = true) :
    BfsInv m0 (bfsInit m0) := by
  obtain ⟨hd, hh, hw, hsb, heb, hne, hsw, hew, hcells⟩ := gridInvB_unpack hm
  have hssome : (gridGet m0.grid m0.startPosition).isSome = true := by
    rw [gridGet_isSome_iff hd]
    exact hsb
  obtain ⟨sc, hsc⟩ := Option.isSome_iff_exists.mp hssome
  have hscc : cellAt m0.grid m0.startPosition = sc := by
    unfold cellAt
    rw [hsc]
    rfl
  have hsparent : (cellAt m0.grid m0.startPosition).parent = none := by
    rw [hscc]
    exact (hcells _ sc hsc).2.2.2
  have hclean : ∀ p, (cellAt m0.grid p).visited = false := by
    intro p
    cases hg : gridGet m0.grid p with
    | none =>
      unfold cellAt
      rw [hg]
      rfl
    | some c =>
      have := (hcells p c hg).2.2.1
      unfold cellAt
      rw [hg]
      exact this
  have hmark : ∀ p, cellAt (bfsInit m0).maze.grid p =
      (if p = m0.startPosition then
        { cellAt m0.grid p with visited := true, type := CellType.VISITING }
       else cellAt m0.grid p) := by
    intro p
    show cellAt (modCell m0.grid m0.startPosition _) p = _
    by_cases hp : p = m0.startPosition
    · subst hp
      rw [if_pos rfl, cellAt_modCell_self _ hssome]
    · rw [if_neg hp, cellAt_modCell_ne _ _ hp]
  have hvisiff : ∀ p, ((cellAt (bfsInit m0).maze.grid p).visited = true ↔
      p = m0.startPosition) := by
    intro p
    rw [hmark p]
    by_cases hp : p = m0.startPosition
    · rw [if_pos hp]
      exact ⟨fun _ => hp, fun _ => rfl⟩
    · rw [if_neg hp]
      rw [hclean p]
      exact ⟨(fun hc => by cases hc), fun hc => absurd hc hp⟩
  have hvalid0 : isValidPosition m0.grid m0.startPosition = true := start_valid hm
  have hdist0 : IsDist m0.grid m0.startPosition m0.startPosition 0 :=
    ⟨PathN.refl _ hvalid0, fun j _ => Nat.zero_le j⟩
  refine ⟨rfl, rfl, rfl, rfl, ?_, ?_, ?_, ?_, ?_, ?_, ?_, ?_⟩
  · exact walkEq_write (walkEq_refl m0.grid) _ hsw _
      (fun c => Or.inr (fun hc => by simp at hc))
  · constructor
    · exact (hvisiff _).mpr rfl
    · rw [hmark _, if_pos rfl]
      exact hsparent
  · intro p hp
    have hps := (hvisiff p).mp hp
    subst hps
    exact ⟨0, hdist0, ChainTo.base⟩
  · intro p hp
    rw [hmark p] at hp ⊢
    by_cases hps : p = m0.startPosition
    · rw [if_pos hps] at hp
      cases hp
    · rw [if_neg hps] at hp ⊢
      cases hg : gridGet m0.grid p with
      | none =>
        unfold cellAt
        rw [hg]
        rfl
      | some c =>
        have := (hcells p c hg).2.2.2
        unfold cellAt
        rw [hg]
        exact this
  · intro p hp
    rw [show (bfsInit m0).frontier = [m0.startPosition] from rfl,
      List.mem_singleton] at hp
    subst hp
    exact (hvisiff _).mpr rfl
  · intro p hp hnp q _ _
    exfalso
    apply hnp
    rw [show (bfsInit m0).frontier = [m0.startPosition] from rfl, List.mem_singleton]
    exact (hvisiff p).mp hp
  · intro hp
    exact absurd ((hvisiff m0.endPosition).mp hp).symm hne
  · refine ⟨[0], ?_, ?_, ?_, ?_⟩
    · exact List.Forall₂.cons hdist0 List.Forall₂.nil
    · simp
    · intro a ha b hb
      simp at ha hb
      omega
    · intro x kx hxv hxd D hD
      simp only [List.head?_cons, Option.some.injEq] at hD
      subst hD
      constructor
      · intro hkx
        have hkx0 : kx = 0 := by omega
        subst hkx0
        have := PathN.zero_eq hxd.1
        subst this
        exact (hvisiff _).mpr rfl
      · intro hkx
        omega

theorem bfs_finish_sound {m0 : MazeData} {s : AlgState} (hm : gridInvB m0 = true)
    (hinv : BfsInv m0 s) {cur : Position} {rest : List Position}
    (hf : cur ∈ s.frontier)
    (hcur : cur = s.maze.endPosition) :
    ∃ st, (finishRun s rest).1 = some st ∧ st.success = true ∧ st.isDone = true ∧
      ∀ d, IsDist m0.grid m0.startPosition m0.endPosition d → st.pathLength = d + 1 := by
  obtain ⟨hs1, hs2, _, _, hwalk, ⟨hsv, hsp⟩, hchains, _, hfv, _, _, _⟩ := hinv
  obtain ⟨hd, hh, hw, _, _, _, _, _, _⟩ := gridInvB_unpack hm
  have hev : (cellAt s.maze.grid m0.endPosition).visited = true := by
    rw [← hs2, ← hcur]
    exact hfv cur hf
  obtain ⟨k, hk, hch⟩ := hchains _ hev
  refine ⟨_, rfl, rfl, rfl, ?_⟩
  intro d hdist
  have hdk : d = k := IsDist.unique hdist hk
  subst hdk
  show (reconstructPathMark s.maze.grid s.maze.endPosition
    (pathFuel s.maze.grid)).1.length = d + 1
  rw [hs2]
  have hfuel : d + 1 ≤ pathFuel s.maze.grid := by
    unfold pathFuel
    rw [shapeEq_gRows hwalk.1, shapeEq_gCols hwalk.1, hd.1, gCols_eq hd hh]
    have := isDist_lt_cells hd hh hk
    omega
  exact reconstruct_len hch hsp hfuel

theorem dirsOf_nodup (p : Position) : (dirsOf p).Nodup := by
  unfold dirsOf
  refine List.nodup_cons.mpr ⟨?_, List.nodup_cons.mpr ⟨?_, List.nodup_cons.mpr
    ⟨?_, List.nodup_singleton _⟩⟩⟩ <;>
    simp only [List.mem_cons, List.mem_singleton, List.not_mem_nil] <;>
    intro hc <;>
    rcases hc with hc | hc | hc | hc <;>
    first
      | (rw [Position.mk.injEq] at hc; omega)
      | exact hc

theorem forall2_map_const {R : Position → Nat → Prop} {c : Nat} :
    ∀ {l : List Position}, (∀ x ∈ l, R x c) →
      List.Forall₂ R l (l.map (fun _ => c))
  | [], _ => List.Forall₂.nil
  | x :: xs, h => List.Forall₂.cons (h x (List.mem_cons_self _ _))
      (forall2_map_const (fun y hy => h y (List.mem_cons_of_mem _ hy)))

theorem pairwise_le_map_const (c : Nat) :
    ∀ (l : List Position), (l.map (fun _ => c)).Pairwise (· ≤ ·)
  | [] => List.Pairwise.nil
  | x :: xs => by
    rw [List.map_cons, List.pairwise_cons]
    refine ⟨?_, pairwise_le_map_const c xs⟩
    intro b hb
    rw [List.mem_map] at hb
    obtain ⟨y, _, rfl⟩ := hb
    exact le_refl c

theorem bfsNext_pop_eq (s : AlgState) (cur : Position) (rest : List Position)
    (hdone : s.isDone = false) (hf : s.frontier = cur :: rest)
    (hne : ¬(cur.row = s.maze.endPosition.row ∧ cur.col = s.maze.endPosition.col)) :
    bfsNext s = (some
      { grid := (expandUnvisited cur (fun l d => l ++ [d]) (dirsOf cur)
          (if !(cellAt s.maze.grid cur).isStart && !(cellAt s.maze.grid cur).isEnd then
            modCell s.maze.grid cur (fun c => { c with type := CellType.VISITED })
           else s.maze.grid) rest).1,
        visitedCount := countVisited (expandUnvisited cur (fun l d => l ++ [d]) (dirsOf cur)
          (if !(cellAt s.maze.grid cur).isStart && !(cellAt s.maze.grid cur).isEnd then
            modCell s.maze.grid cur (fun c => { c with type := CellType.VISITED })
           else s.maze.grid) rest).1,
        pathLength := 0, elapsedTime := 0, isDone := false, success := s.success },
      { s with
        maze := { s.maze with grid := (expandUnvisited cur (fun l d => l ++ [d]) (dirsOf cur)
          (if !(cellAt s.maze.grid cur).isStart && !(cellAt s.maze.grid cur).isEnd then
            modCell s.maze.grid cur (fun c => { c with type := CellType.VISITED })
           else s.maze.grid) rest).1 },
        frontier := (expandUnvisited cur (fun l d => l ++ [d]) (dirsOf cur)
          (if !(cellAt s.maze.grid cur).isStart && !(cellAt s.maze.grid cur).isEnd then
            modCell s.maze.grid cur (fun c => { c with type := CellType.VISITED })
           else s.maze.grid) rest).2 }) := by
  unfold bfsNext
  rw [hf, hdone]
  rw [if_neg (by simp)]
  show (if cur.row = s.maze.endPosition.row ∧ cur.col = s.maze.endPosition.col then
      finishRun s rest
    else _) = _
  rw [if_neg hne]

theorem valid_nonwall {g : Grid} {p : Position}
    (h : isValidPosition g p = true) : (cellAt g p).type ≠ CellType.WALL := by
  unfold isValidPosition at h
  rw [Bool.and_eq_true] at h
  exact of_decide_eq_true h.2


theorem forall2_append {R : Position → Nat → Prop} :
    ∀ {l1 l2 : List Position} {d1 d2 : List Nat},
      List.Forall₂ R l1 d1 → List.Forall₂ R l2 d2 →
      List.Forall₂ R (l1 ++ l2) (d1 ++ d2) := by
  intro l1 l2 d1 d2 h1 h2
  induction h1 with
  | nil => exact h2
  | cons hr _ ih => exact List.Forall₂.cons hr ih

theorem pairwise_head?_le {l : List Nat} {a : Nat}
    (hs : l.Pairwise (· ≤ ·)) (ha : l.head? = some a) : ∀ b ∈ l, a ≤ b := by
  cases l with
  | nil => cases ha
  | cons x t =>
    simp only [List.head?_cons, Option.some.injEq] at ha
    subst ha
    intro b hb
    rcases List.mem_cons.mp hb with hb | hb
    · omega
    · exact (List.pairwise_cons.mp hs).1 b hb

set_option maxHeartbeats 2000000 in
theorem bfs_pop_inv {m0 : MazeData} {s : AlgState} (hm : gridInvB m0 = true)
    (hinv : BfsInv m0 s) (cur : Position) (rest : List Position)
    (hf : s.frontier = cur :: rest)
    (hnee : ¬(cur.row = s.maze.endPosition.row ∧ cur.col = s.maze.endPosition.col)) :
    BfsInv m0 ((bfsNext s).2) ∧ stepMeasure ((bfsNext s).2) < stepMeasure s := by
  obtain ⟨hs1, hs2, hdone, hsucc, hwalk, ⟨hsv, hsp⟩, hchains, hunv, hfv, hclo, hpend, hds⟩ := hinv
  obtain ⟨hd, hh, hw, hsb, hebd, hnese, hsw, hew, hcells⟩ := gridInvB_unpack hm
  rw [bfsNext_pop_eq s cur rest hdone hf hnee]
  obtain ⟨ds, hF2, hsort, hspread, hlayer⟩ := hds
  rw [hf] at hF2
  rcases hF2 with _ | ⟨hDcur, hF2t⟩
  rename_i D dsRest
  have hcvis : (cellAt s.maze.grid cur).visited = true := by
    apply hfv
    rw [hf]
    exact List.mem_cons_self _ _
  have hcurvalid : isValidPosition m0.grid cur = true := hDcur.1.valid_right
  have hcurNW : (cellAt s.maze.grid cur).type ≠ CellType.WALL :=
    fun hc => valid_nonwall hcurvalid ((hwalk.2 cur).mp hc)
  have hlayerD : ∀ x kx, isValidPosition m0.grid x = true →
      IsDist m0.grid m0.startPosition x kx →
      (kx ≤ D → (cellAt s.maze.grid x).visited = true) ∧
      (kx < D → x ∉ s.frontier) := by
    intro x kx hv hdist
    exact hlayer x kx hv hdist D rfl
  have hDle : ∀ b ∈ dsRest, D ≤ b := (List.pairwise_cons.mp hsort).1
  have hsortRest : dsRest.Pairwise (· ≤ ·) := (List.pairwise_cons.mp hsort).2
  have hspreadOld : ∀ a ∈ dsRest, a ≤ D + 1 := by
    intro a ha
    exact hspread a (List.mem_cons_of_mem _ ha) D (List.mem_cons_self _ _)
  have hwalk1 : WalkEq m0.grid (if !(cellAt s.maze.grid cur).isStart &&
      !(cellAt s.maze.grid cur).isEnd then
      modCell s.maze.grid cur (fun c => { c with type := CellType.VISITED })
    else s.maze.grid) := by
    split
    · exact walkEq_write hwalk cur hcurNW _ (fun c => Or.inr (fun hc => by simp at hc))
    · exact hwalk
  have hg1vis : ∀ p, (cellAt (if !(cellAt s.maze.grid cur).isStart &&
      !(cellAt s.maze.grid cur).isEnd then
      modCell s.maze.grid cur (fun c => { c with type := CellType.VISITED })
    else s.maze.grid) p).visited = (cellAt s.maze.grid p).visited := by
    intro p
    split
    · by_cases hp : p = cur
      · subst hp
        cases hg : gridGet s.maze.grid p with
        | none =>
          unfold modCell
          rw [hg]
        | some c =>
          rw [cellAt_modCell_self _ (by rw [hg]; rfl)]
      · rw [cellAt_modCell_ne _ _ hp]
    · rfl
  have hg1par : ∀ p, (cellAt (if !(cellAt s.maze.grid cur).isStart &&
      !(cellAt s.maze.grid cur).isEnd then
      modCell s.maze.grid cur (fun c => { c with type := CellType.VISITED })
    else s.maze.grid) p).parent = (cellAt s.maze.grid p).parent := by
    intro p
    split
    · by_cases hp : p = cur
      · subst hp
        cases hg : gridGet s.maze.grid p with
        | none =>
          unfold modCell
          rw [hg]
        | some c =>
          rw [cellAt_modCell_self _ (by rw [hg]; rfl)]
      · rw [cellAt_modCell_ne _ _ hp]
    · rfl
  have hg1isEnd : ∀ p, (cellAt (if !(cellAt s.maze.grid cur).isStart &&
      !(cellAt s.maze.grid cur).isEnd then
      modCell s.maze.grid cur (fun c => { c with type := CellType.VISITED })
    else s.maze.grid) p).isEnd = (cellAt s.maze.grid p).isEnd := by
    intro p
    split
    · by_cases hp : p = cur
      · subst hp
        cases hg : gridGet s.maze.grid p with
        | none =>
          unfold modCell
          rw [hg]
        | some c =>
          rw [cellAt_modCell_self _ (by rw [hg]; rfl)]
      · rw [cellAt_modCell_ne _ _ hp]
    · rfl
  have hshape01 : ShapeEq s.maze.grid (if !(cellAt s.maze.grid cur).isStart &&
      !(cellAt s.maze.grid cur).isEnd then
      modCell s.maze.grid cur (fun c => { c with type := CellType.VISITED })
    else s.maze.grid) := by
    split
    · exact shapeEq_modCell _ _ _
    · exact shapeEq_refl _
  obtain ⟨hq2, hnew2, hnew3, hshapeEx⟩ := expand_spec cur (dirsOf cur)
    (if !(cellAt s.maze.grid cur).isStart && !(cellAt s.maze.grid cur).isEnd then
      modCell s.maze.grid cur (fun c => { c with type := CellType.VISITED })
     else s.maze.grid) rest (dirsOf_nodup cur)
  have hvalid1 := walkEq_valid hwalk1
  have hmemNEW : ∀ v ∈ (dirsOf cur).filter (fun d =>
      isValidPosition (if !(cellAt s.maze.grid cur).isStart &&
        !(cellAt s.maze.grid cur).isEnd then
        modCell s.maze.grid cur (fun c => { c with type := CellType.VISITED })
       else s.maze.grid) d &&
      !(cellAt (if !(cellAt s.maze.grid cur).isStart &&
        !(cellAt s.maze.grid cur).isEnd then
        modCell s.maze.grid cur (fun c => { c with type := CellType.VISITED })
       else s.maze.grid) d).visited),
      adjStep cur v ∧ isValidPosition m0.grid v = true ∧
        (cellAt s.maze.grid v).visited = false := by
    intro v hv
    rw [List.mem_filter, Bool.and_eq_true] at hv
    obtain ⟨hvd, hvv, hvu⟩ := hv
    refine ⟨mem_dirsOf_iff.mp hvd, ?_, ?_⟩
    · rw [← hvalid1 v]
      exact hvv
    · rw [Bool.not_eq_true'] at hvu
      rw [← hg1vis v]
      exact hvu
  have hwalkEq1 := hvalid1
  have hNEWdist : ∀ v ∈ (dirsOf cur).filter (fun d =>
      isValidPosition (if !(cellAt s.maze.grid cur).isStart &&
        !(cellAt s.maze.grid cur).isEnd then
        modCell s.maze.grid cur (fun c => { c with type := CellType.VISITED })
       else s.maze.grid) d &&
      !(cellAt (if !(cellAt s.maze.grid cur).isStart &&
        !(cellAt s.maze.grid cur).isEnd then
        modCell s.maze.grid cur (fun c => { c with type := CellType.VISITED })
       else s.maze.grid) d).visited),
      IsDist m0.grid m0.startPosition v (D + 1) := by
    intro v hv
    obtain ⟨hadj, hval, hunvis⟩ := hmemNEW v hv
    have hpath : PathN m0.grid m0.startPosition v (D + 1) := hDcur.1.snoc hadj hval
    obtain ⟨kv, hkv⟩ := exists_isDist ⟨D + 1, hpath⟩
    have hk1 : kv ≤ D + 1 := hkv.2 _ hpath
    have hk2 : ¬(kv ≤ D) := by
      intro hc
      have := (hlayerD v kv hval hkv).1 hc
      rw [this] at hunvis
      cases hunvis
    have hkeq : kv = D + 1 := by omega
    rw [← hkeq]
    exact hkv
  set g1 := (if !(cellAt s.maze.grid cur).isStart && !(cellAt s.maze.grid cur).isEnd then
      modCell s.maze.grid cur (fun c => { c with type := CellType.VISITED })
    else s.maze.grid) with hg1def
  set EX := expandUnvisited cur (fun l d => l ++ [d]) (dirsOf cur) g1 rest with hEXdef
  set NEW := (dirsOf cur).filter (fun d =>
    isValidPosition g1 d && !(cellAt g1 d).visited) with hNEWdef
  have hfinvis : ∀ p, ((cellAt EX.1 p).visited = true ↔
      ((cellAt s.maze.grid p).visited = true ∨ p ∈ NEW)) := by
    intro p
    by_cases hp : p ∈ NEW
    · rw [hnew2 p hp]
      exact ⟨fun _ => Or.inr hp, fun _ => rfl⟩
    · rw [hnew3 p hp, hg1vis p]
      constructor
      · exact Or.inl
      · intro h
        rcases h with h | h
        · exact h
        · exact absurd h hp
  have hfinparNEW : ∀ p ∈ NEW, (cellAt EX.1 p).parent = some cur := by
    intro p hp
    rw [hnew2 p hp]
  have hfinparOLD : ∀ p, p ∉ NEW →
      (cellAt EX.1 p).parent = (cellAt s.maze.grid p).parent := by
    intro p hp
    rw [hnew3 p hp, hg1par p]
  have hparmono : ∀ x r, (cellAt s.maze.grid x).parent = some r →
      (cellAt EX.1 x).parent = some r := by
    intro x r hx
    by_cases hxN : x ∈ NEW
    · exfalso
      obtain ⟨_, _, hxu⟩ := hmemNEW x hxN
      rw [hunv x hxu] at hx
      cases hx
    · rw [hfinparOLD x hxN]
      exact hx
  have hshapeAll : ShapeEq s.maze.grid EX.1 := shapeEq_trans hshape01 hshapeEx
  have hwalkFin : WalkEq m0.grid EX.1 := by
    refine ⟨shapeEq_trans hwalk1.1 hshapeEx, fun p => ?_⟩
    by_cases hp : p ∈ NEW
    · rw [hnew2 p hp]
      show (if (cellAt g1 p).isEnd = true then (cellAt g1 p).type
        else CellType.VISITING) = CellType.WALL ↔ _
      split
      · exact hwalk1.2 p
      · constructor
        · intro hc
          simp at hc
        · intro hc
          exfalso
          obtain ⟨_, hval, _⟩ := hmemNEW p hp
          exact valid_nonwall hval hc
    · rw [hnew3 p hp]
      exact hwalk1.2 p
  have hB10fin : ∀ p, (cellAt EX.1 p).visited = true → p ∉ EX.2 →
      ∀ q, adjStep p q → isValidPosition m0.grid q = true →
        (cellAt EX.1 q).visited = true := by
    intro p hp hpF q hadj hqval
    rw [hq2] at hpF
    rcases (hfinvis p).mp hp with hpv | hpN
    · by_cases hpc : p = cur
      · subst hpc
        have hqd : q ∈ dirsOf p := mem_dirsOf_iff.mpr hadj
        by_cases hqvis : (cellAt s.maze.grid q).visited = true
        · exact (hfinvis q).mpr (Or.inl hqvis)
        · have hqm : (cellAt s.maze.grid q).visited = false := by
            cases hb : (cellAt s.maze.grid q).visited with
            | false => rfl
            | true => exact absurd hb hqvis
          have hqN : q ∈ NEW := by
            rw [hNEWdef]
            rw [List.mem_filter]
            refine ⟨hqd, ?_⟩
            rw [Bool.and_eq_true]
            constructor
            · rw [hvalid1 q]
              exact hqval
            · rw [Bool.not_eq_true', hg1vis q]
              exact hqm
          exact (hfinvis q).mpr (Or.inr hqN)
      · have hpFold : p ∉ s.frontier := by
          rw [hf]
          intro hc
          rcases List.mem_cons.mp hc with hc | hc
          · exact hpc hc
          · exact hpF (List.mem_append.mpr (Or.inl hc))
        exact (hfinvis q).mpr (Or.inl (hclo p hpv hpFold q hadj hqval))
    · exact absurd (List.mem_append.mpr (Or.inr hpN)) hpF
  have hB6fin : ∀ p, (cellAt EX.1 p).visited = true →
      ∃ k, IsDist m0.grid m0.startPosition p k ∧
        ChainTo EX.1 m0.startPosition p k := by
    intro p hp
    rcases (hfinvis p).mp hp with hpv | hpN
    · obtain ⟨k, hk, hch⟩ := hchains p hpv
      exact ⟨k, hk, ChainTo_mono hparmono hch⟩
    · refine ⟨D + 1, hNEWdist p hpN, ?_⟩
      obtain ⟨k0, hk0, hchc⟩ := hchains cur hcvis
      have hkD : k0 = D := IsDist.unique hk0 hDcur
      subst hkD
      exact ChainTo.step p cur k0 (hfinparNEW p hpN) (ChainTo_mono hparmono hchc)
  have hB7fin : ∀ p, (cellAt EX.1 p).visited = false →
      (cellAt EX.1 p).parent = none := by
    intro p hp
    have hnot : ¬((cellAt s.maze.grid p).visited = true ∨ p ∈ NEW) := by
      intro hc
      rw [(hfinvis p).mpr hc] at hp
      cases hp
    push_neg at hnot
    have hpu : (cellAt s.maze.grid p).visited = false := by
      cases hb : (cellAt s.maze.grid p).visited with
      | false => rfl
      | true => exact absurd hb hnot.1
    rw [hfinparOLD p hnot.2]
    exact hunv p hpu
  have hB8fin : ∀ p ∈ EX.2, (cellAt EX.1 p).visited = true := by
    intro p hp
    rw [hq2] at hp
    rcases List.mem_append.mp hp with hp | hp
    · refine (hfinvis p).mpr (Or.inl (hfv p ?_))
      rw [hf]
      exact List.mem_cons_of_mem _ hp
    · exact (hfinvis p).mpr (Or.inr hp)
  have hB12fin : (cellAt EX.1 m0.endPosition).visited = true →
      m0.endPosition ∈ EX.2 := by
    intro hp
    rw [hq2]
    rcases (hfinvis _).mp hp with hpv | hpN
    · have hmem := hpend hpv
      rw [hf] at hmem
      rcases List.mem_cons.mp hmem with hc | hc
      · exfalso
        apply hnee
        constructor
        · rw [hs2, ← hc]
        · rw [hs2, ← hc]
      · exact List.mem_append.mpr (Or.inl hc)
    · exact List.mem_append.mpr (Or.inr hpN)
  have hsort2 : (dsRest ++ NEW.map (fun _ => D + 1)).Pairwise (· ≤ ·) := by
    rw [List.pairwise_append]
    refine ⟨hsortRest, pairwise_le_map_const _ _, ?_⟩
    intro a ha b hb
    rw [List.mem_map] at hb
    obtain ⟨_, _, rfl⟩ := hb
    exact hspreadOld a ha
  have hB9fin : ∃ ds2 : List Nat,
      List.Forall₂ (fun p k => IsDist m0.grid m0.startPosition p k) EX.2 ds2 ∧
      ds2.Pairwise (· ≤ ·) ∧
      (∀ a ∈ ds2, ∀ b ∈ ds2, a ≤ b + 1) ∧
      (∀ x kx, isValidPosition m0.grid x = true →
        IsDist m0.grid m0.startPosition x kx →
        ∀ Dp, ds2.head? = some Dp →
          (kx ≤ Dp → (cellAt EX.1 x).visited = true) ∧
          (kx < Dp → x ∉ EX.2)) := by
    refine ⟨dsRest ++ NEW.map (fun _ => D + 1), ?_, hsort2, ?_, ?_⟩
    · rw [hq2]
      exact forall2_append hF2t (forall2_map_const hNEWdist)
    · intro a ha b hb
      rw [List.mem_append] at ha hb
      have haD : D ≤ a ∧ a ≤ D + 1 := by
        rcases ha with ha | ha
        · exact ⟨hDle a ha, hspreadOld a ha⟩
        · rw [List.mem_map] at ha
          obtain ⟨_, _, rfl⟩ := ha
          omega
      have hbD : D ≤ b ∧ b ≤ D + 1 := by
        rcases hb with hb | hb
        · exact ⟨hDle b hb, hspreadOld b hb⟩
        · rw [List.mem_map] at hb
          obtain ⟨_, _, rfl⟩ := hb
          omega
      omega
    · intro x kx hxval hxdist Dp hDp
      have hDpmem := List.mem_of_mem_head? hDp
      have hDpbounds : D ≤ Dp ∧ Dp ≤ D + 1 := by
        rcases List.mem_append.mp hDpmem with hc | hc
        · exact ⟨hDle _ hc, hspreadOld _ hc⟩
        · rw [List.mem_map] at hc
          obtain ⟨_, _, rfl⟩ := hc
          omega
      have hDpmin : ∀ b ∈ dsRest ++ NEW.map (fun _ => D + 1), Dp ≤ b :=
        pairwise_head?_le hsort2 hDp
      constructor
      · intro hkx
        by_cases hkxD : kx ≤ D
        · exact (hfinvis x).mpr (Or.inl ((hlayerD x kx hxval hxdist).1 hkxD))
        · have hkx1 : kx = D + 1 := by omega
          have hallD1 : ∀ b ∈ dsRest, b = D + 1 := by
            intro b hb
            have h1 := hDpmin b (List.mem_append.mpr (Or.inl hb))
            have h2 := hspreadOld b hb
            omega
          have hclosedD : ∀ u ku, ku ≤ D → isValidPosition m0.grid u = true →
              IsDist m0.grid m0.startPosition u ku → u ∉ EX.2 := by
            intro u ku hku huval hudist
            rw [hq2]
            intro hc
            rcases List.mem_append.mp hc with hc | hc
            · obtain ⟨d2, hd2m, hd2⟩ := forall2_mem_left hF2t u hc
              have he1 := IsDist.unique hudist hd2
              have he2 := hallD1 d2 hd2m
              omega
            · have := IsDist.unique hudist (hNEWdist u hc)
              omega
          subst hkx1
          obtain ⟨u, hup, huadj, _⟩ := hxdist.1.peel_last
          obtain ⟨ku, hku⟩ := exists_isDist ⟨D, hup⟩
          have hkuD : ku ≤ D := hku.2 D hup
          have huval : isValidPosition m0.grid u = true := hup.valid_right
          have huvis : (cellAt EX.1 u).visited = true :=
            (hfinvis u).mpr (Or.inl ((hlayerD u ku huval hku).1 hkuD))
          exact hB10fin u huvis (hclosedD u ku hkuD huval hku) x huadj hxval
      · intro hkx
        rw [hq2]
        intro hc
        rcases List.mem_append.mp hc with hc | hc
        · obtain ⟨d2, hd2m, hd2⟩ := forall2_mem_left hF2t x hc
          have he1 := IsDist.unique hxdist hd2
          have he2 := hDpmin d2 (List.mem_append.mpr (Or.inl hd2m))
          omega
        · have he1 := IsDist.unique hxdist (hNEWdist x hc)
          have he2 : Dp ≤ D + 1 := hDpbounds.2
          omega
  have hrg : gRows s.maze.grid = m0.height := by
    rw [shapeEq_gRows hwalk.1, hd.1]
  have hcg : gCols s.maze.grid = m0.width := by
    rw [shapeEq_gCols hwalk.1, gCols_eq hd hh]
  have hunvisEq : unvisFinset EX.1 =
      (unvisFinset s.maze.grid) \ NEW.toFinset := by
    unfold unvisFinset
    rw [shapeEq_gRows hshapeAll, shapeEq_gCols hshapeAll]
    ext p
    rw [Finset.mem_sdiff, Finset.mem_filter, Finset.mem_filter, List.mem_toFinset]
    constructor
    · intro ⟨hpr, hpv⟩
      have hnot : ¬((cellAt s.maze.grid p).visited = true ∨ p ∈ NEW) := by
        intro hc
        exact hpv (((hfinvis p).mpr hc) ▸ rfl)
      push_neg at hnot
      exact ⟨⟨hpr, fun hc => hnot.1 hc⟩, hnot.2⟩
    · intro ⟨⟨hpr, hpv⟩, hpN⟩
      refine ⟨hpr, ?_⟩
      intro hc
      rcases (hfinvis p).mp hc with hc2 | hc2
      · exact hpv hc2
      · exact hpN hc2
  have hsub : NEW.toFinset ⊆ unvisFinset s.maze.grid := by
    intro v hv
    rw [List.mem_toFinset] at hv
    obtain ⟨_, hval, hunvis⟩ := hmemNEW v hv
    unfold unvisFinset
    rw [Finset.mem_filter]
    constructor
    · rw [hrg, hcg, mem_posRange]
      unfold isValidPosition at hval
      rw [Bool.and_eq_true] at hval
      exact (inBoundsB_iff hd hh v).mp hval.1
    · rw [hunvis]
      simp
  have hnodupNEW : NEW.Nodup := List.Nodup.filter _ (dirsOf_nodup cur)
  have hcard : (unvisFinset EX.1).card =
      (unvisFinset s.maze.grid).card - NEW.length := by
    rw [hunvisEq, Finset.card_sdiff hsub, List.toFinset_card_of_nodup hnodupNEW]
  have hle : NEW.length ≤ (unvisFinset s.maze.grid).card := by
    rw [← List.toFinset_card_of_nodup hnodupNEW]
    exact Finset.card_le_card hsub
  constructor
  · exact ⟨hs1, hs2, hdone, hsucc, hwalkFin,
      ⟨(hfinvis _).mpr (Or.inl hsv), by
        rw [hfinparOLD _ (fun hc => by
          obtain ⟨_, _, hu⟩ := hmemNEW _ hc
          rw [hsv] at hu
          cases hu)]
        exact hsp⟩,
      hB6fin, hB7fin, hB8fin, hB10fin, hB12fin, hB9fin⟩
  · show EX.2.length + (unvisFinset EX.1).card <
      s.frontier.length + (unvisFinset s.maze.grid).card
    rw [hq2, hf, hcard, List.length_append, List.length_cons]
    omega

theorem bfsNext_finish_eq (s : AlgState) (cur : Position) (rest : List Position)
    (hdone : s.isDone = false) (hf : s.frontier = cur :: rest)
    (hend : cur.row = s.maze.endPosition.row ∧ cur.col = s.maze.endPosition.col) :
    bfsNext s = finishRun s rest := by
  unfold bfsNext
  rw [hf, hdone]
  rw [if_neg (by simp)]
  show (if cur.row = s.maze.endPosition.row ∧ cur.col = s.maze.endPosition.col then
      finishRun s rest
    else _) = _
  rw [if_pos hend]

theorem bfsNext_empty_eq (s : AlgState) (hdone : s.isDone = false)
    (hf : s.frontier = []) :
    bfsNext s = (none, { s with isDone := true }) := by
  unfold bfsNext
  rw [hf, hdone]
  rw [if_pos (by simp)]

theorem bfsInv_step {m0 : MazeData} {s : AlgState} (hm : gridInvB m0 = true)
    (hinv : BfsInv m0 s) :
    (∃ st : AlgorithmStep, (bfsNext s).1 = some st ∧ st.success = true ∧
      st.isDone = true ∧
      ∀ d, IsDist m0.grid m0.startPosition m0.endPosition d → st.pathLength = d + 1) ∨
    (BfsInv m0 ((bfsNext s).2) ∧ stepMeasure ((bfsNext s).2) < stepMeasure s) ∨
    (s.frontier = [] ∧ (cellAt s.maze.grid m0.endPosition).visited = false) := by
  have hdone := hinv.2.2.1
  rcases hfr : s.frontier with _ | ⟨cur, rest⟩
  · right
    right
    refine ⟨rfl, ?_⟩
    cases hb : (cellAt s.maze.grid m0.endPosition).visited with
    | false => rfl
    | true =>
      exfalso
      have := hinv.2.2.2.2.2.2.2.2.2.2.1 hb
      rw [hfr] at this
      cases this
  · by_cases hend : cur.row = s.maze.endPosition.row ∧ cur.col = s.maze.endPosition.col
    · left
      rw [bfsNext_finish_eq s cur rest hdone hfr hend]
      have hcureq : cur = s.maze.endPosition := by
        cases cur with
        | mk r c =>
          cases hsm : s.maze.endPosition with
          | mk er ec =>
            rw [hsm] at hend
            dsimp only at hend
            rw [Position.mk.injEq]
            exact hend
      exact bfs_finish_sound hm hinv (hfr ▸ List.mem_cons_self _ _) hcureq
    · right
      left
      exact bfs_pop_inv hm hinv cur rest hfr hend

theorem iter_shift (next : AlgState → Option AlgorithmStep × AlgState) (s : AlgState) :
    ∀ n : Nat, iterState next ((next s).2) n = iterState next s (n + 1)
  | 0 => rfl
  | n + 1 => by
    show (next (iterState next ((next s).2) n)).2 = _
    rw [iter_shift next s n]
    rfl

theorem visited_of_reach {m0 : MazeData} {s : AlgState} (hinv : BfsInv m0 s)
    (hfr : s.frontier = []) :
    ∀ (k : Nat) (p : Position), PathN m0.grid m0.startPosition p k →
      (cellAt s.maze.grid p).visited = true := by
  intro k
  induction k with
  | zero =>
    intro p hp
    have := PathN.zero_eq hp
    subst this
    exact hinv.2.2.2.2.2.1.1
  | succ k ih =>
    intro p hp
    obtain ⟨u, hu, hadj, hval⟩ := hp.peel_last
    have huv := ih u hu
    have hclo := hinv.2.2.2.2.2.2.2.2.2.1
    exact hclo u huv (by rw [hfr]; exact List.not_mem_nil u) p hadj hval

theorem bfs_run {m0 : MazeData} (hm : gridInvB m0 = true)
    (hreach : Reach m0.grid m0.startPosition m0.endPosition) :
    ∀ (N : Nat) (s : AlgState), BfsInv m0 s → stepMeasure s ≤ N →
      ∃ (n : Nat) (st : AlgorithmStep),
        (bfsNext (iterState bfsNext s n)).1 = some st ∧
        st.success = true ∧ st.isDone = true ∧
        ∀ d, IsDist m0.grid m0.startPosition m0.endPosition d →
          st.pathLength = d + 1 := by
  intro N
  induction N with
  | zero =>
    intro s hinv hms
    rcases bfsInv_step hm hinv with ⟨st, h1, h2, h3, h4⟩ | ⟨_, hlt⟩ | ⟨hfr, hev⟩
    · exact ⟨0, st, h1, h2, h3, h4⟩
    · omega
    · exfalso
      obtain ⟨n, hn⟩ := hreach
      rw [visited_of_reach hinv hfr n m0.endPosition hn] at hev
      cases hev
  | succ N ih =>
    intro s hinv hms
    rcases bfsInv_step hm hinv with ⟨st, h1, h2, h3, h4⟩ | ⟨hinv2, hlt⟩ | ⟨hfr, hev⟩
    · exact ⟨0, st, h1, h2, h3, h4⟩
    · obtain ⟨n, st, h1, h2, h3, h4⟩ := ih ((bfsNext s).2) hinv2 (by omega)
      rw [iter_shift bfsNext s n] at h1
      exact ⟨n + 1, st, h1, h2, h3, h4⟩
    · exfalso
      obtain ⟨n, hn⟩ := hreach
      rw [visited_of_reach hinv hfr n m0.endPosition hn] at hev
      cases hev

theorem reconstruct_par : ∀ (fuel : Nat) (g : Grid) (pos p : Position),
    (cellAt (reconstructPathMark g pos fuel).2 p).parent = (cellAt g p).parent
  | 0, _, _, _ => rfl
  | fuel + 1, g, pos, p => by
    simp only [reconstructPathMark]
    split
    · rfl
    · rename_i par hpar
      simp only []
      rw [reconstruct_par fuel _ par p]
      split
      · exact cellAt_modCell_parent_eq g par
          (fun c => { c with type := CellType.SOLUTION }) (fun c => rfl) p
      · rfl

theorem bfs_parent_once {m0 : MazeData} {s : AlgState} (hinv : BfsInv m0 s)
    (p : Position)
    (hch : (cellAt ((bfsNext s).2).maze.grid p).parent ≠
      (cellAt s.maze.grid p).parent) :
    (cellAt s.maze.grid p).visited = false ∧
    (cellAt s.maze.grid p).parent = none ∧
    (cellAt ((bfsNext s).2).maze.grid p).visited = true ∧
    ∃ cur rest, s.frontier = cur :: rest ∧
      (cellAt ((bfsNext s).2).maze.grid p).parent = some cur := by
  have hdone := hinv.2.2.1
  have hunv := hinv.2.2.2.2.2.2.2.1
  rcases hfr : s.frontier with _ | ⟨cur, rest⟩
  · exfalso
    apply hch
    rw [bfsNext_empty_eq s hdone hfr]
  · by_cases hend : cur.row = s.maze.endPosition.row ∧ cur.col = s.maze.endPosition.col
    · exfalso
      apply hch
      rw [bfsNext_finish_eq s cur rest hdone hfr hend]
      exact reconstruct_par _ _ _ p
    · rw [bfsNext_pop_eq s cur rest hdone hfr hend] at hch ⊢
      set g1 := (if !(cellAt s.maze.grid cur).isStart &&
          !(cellAt s.maze.grid cur).isEnd then
          modCell s.maze.grid cur (fun c => { c with type := CellType.VISITED })
        else s.maze.grid) with hg1def
      have hg1vis : ∀ x, (cellAt g1 x).visited = (cellAt s.maze.grid x).visited := by
        intro x
        rw [hg1def]
        split
        · by_cases hx : x = cur
          · subst hx
            cases hg : gridGet s.maze.grid x with
            | none =>
              unfold modCell
              rw [hg]
            | some c =>
              rw [cellAt_modCell_self _ (by rw [hg]; rfl)]
          · rw [cellAt_modCell_ne _ _ hx]
        · rfl
      have hg1par : ∀ x, (cellAt g1 x).parent = (cellAt s.maze.grid x).parent := by
        intro x
        rw [hg1def]
        split
        · by_cases hx : x = cur
          · subst hx
            cases hg : gridGet s.maze.grid x with
            | none =>
              unfold modCell
              rw [hg]
            | some c =>
              rw [cellAt_modCell_self _ (by rw [hg]; rfl)]
          · rw [cellAt_modCell_ne _ _ hx]
        · rfl
      obtain ⟨hq2, hnew2, hnew3, _⟩ := expand_spec cur (dirsOf cur) g1 rest
        (dirsOf_nodup cur)
      by_cases hpN : p ∈ (dirsOf cur).filter (fun d =>
          isValidPosition g1 d && !(cellAt g1 d).visited)
      · have hvisold : (cellAt s.maze.grid p).visited = false := by
          rw [List.mem_filter, Bool.and_eq_true] at hpN
          have := hpN.2.2
          rw [Bool.not_eq_true', hg1vis p] at this
          exact this
        refine ⟨hvisold, hunv p hvisold, ?_, cur, rest, rfl, ?_⟩
        · rw [hnew2 p hpN]
        · rw [hnew2 p hpN]
      · exfalso
        apply hch
        rw [hnew3 p hpN, hg1par p]

/-- C3: on every maze satisfying the grid invariants in which the end
is reachable from the start over walkable cells, driving the BFS
stepper (from `bfsInit`) eventually yields a final step with
`success = true`, `isDone = true`, and `pathLength` equal to `d + 1`
cells where `d` is the length in steps of a shortest walkable path
(so `pathLength` counts the fewest possible cells including both
endpoints); moreover, on every state satisfying the run invariant a
`next()` call changes a cell's parent pointer only when that cell was
unvisited with no parent, setting it to the just-popped cell (its
first discoverer) while marking it visited — so each parent pointer is
set at most once. -/
theorem claim_C3 (m0 : MazeData) (hm : gridInvB m0 = true)
    (hreach : Reach m0.grid m0.startPosition m0.endPosition) :
    (∃ (n : Nat) (st : AlgorithmStep),
      (bfsNext (iterState bfsNext (bfsInit m0) n)).1 = some st ∧
      st.success = true ∧ st.isDone = true ∧
      ∃ d, IsDist m0.grid m0.startPosition m0.endPosition d ∧
        st.pathLength = d + 1) ∧
    (∀ (s : AlgState) (p : Position), BfsInv m0 s →
      (cellAt ((bfsNext s).2).maze.grid p).parent ≠
        (cellAt s.maze.grid p).parent →
      (cellAt s.maze.grid p).visited = false ∧
      (cellAt s.maze.grid p).parent = none ∧
      (cellAt ((bfsNext s).2).maze.grid p).visited = true ∧
      ∃ cur rest, s.frontier = cur :: rest ∧
        (cellAt ((bfsNext s).2).maze.grid p).parent = some cur) := by
  constructor
  · obtain ⟨n, st, h1, h2, h3, h4⟩ := bfs_run hm hreach (stepMeasure (bfsInit m0))
      (bfsInit m0) (bfsInv_init hm) (le_refl _)
    obtain ⟨d, hd⟩ := exists_isDist hreach
    exact ⟨n, st, h1, h2, h3, d, hd, h4 d hd⟩
  · intro s p hinv hch
    exact bfs_parent_once hinv p hch

/-- C3, witness: the claim applied to the concrete open 2×2 maze with
an explicit two-step walkable path from its start to its end. -/
theorem claim_C3_witness :
    gridInvB wMaze = true ∧
    Reach wMaze.grid wMaze.startPosition wMaze.endPosition ∧
    ((∃ (n : Nat) (st : AlgorithmStep),
      (bfsNext (iterState bfsNext (bfsInit wMaze) n)).1 = some st ∧
      st.success = true ∧ st.isDone = true ∧
      ∃ d, IsDist wMaze.grid wMaze.startPosition wMaze.endPosition d ∧
        st.pathLength = d + 1) ∧
    (∀ (s : AlgState) (p : Position), BfsInv wMaze s →
      (cellAt ((bfsNext s).2).maze.grid p).parent ≠
        (cellAt s.maze.grid p).parent →
      (cellAt s.maze.grid p).visited = false ∧
      (cellAt s.maze.grid p).parent = none ∧
      (cellAt ((bfsNext s).2).maze.grid p).visited = true ∧
      ∃ cur rest, s.frontier = cur :: rest ∧
        (cellAt ((bfsNext s).2).maze.grid p).parent = some cur)) := by
  have hp : PathN wMaze.grid wMaze.startPosition wMaze.endPosition 2 :=
    PathN.cons _ ⟨0, 1⟩ _ 1 (by decide) (by decide)
      (PathN.cons _ ⟨1, 1⟩ _ 0 (by decide) (by decide)
        (PathN.refl _ (by decide)))
  exact ⟨by decide, ⟨2, hp⟩, claim_C3 wMaze (by decide) ⟨2, hp⟩⟩

/-! ### Dijkstra correctness: comparison and argmin facts -/

theorem jsLt_irrefl (a : Option (WithTop Nat)) : jsLt a a = false := by
  cases a with
  | none => rfl
  | some x => simp [jsLt]

theorem jsLt_trans {a b c : Option (WithTop Nat)} (h1 : jsLt a b = true)
    (h2 : jsLt b c = true) : jsLt a c = true := by
  cases a with
  | none => cases h1
  | some x =>
    cases b with
    | none => cases h1
    | some y =>
      cases c with
      | none => cases h2
      | some z =>
        simp only [jsLt, decide_eq_true_eq] at h1 h2 ⊢
        exact lt_trans h1 h2

theorem scanMin_fold (score : Position → Option (WithTop Nat)) (l : List Position) :
    ∀ n : Nat,
      (List.range n).foldl
        (fun best i =>
          if jsLt (score (l.getD i default)) (score (l.getD best default)) then i
          else best) 0 < max n 1 ∧
      ∀ i < n, jsLt (score (l.getD i default))
        (score (l.getD ((List.range n).foldl
          (fun best i =>
            if jsLt (score (l.getD i default)) (score (l.getD best default)) then i
            else best) 0) default)) = false := by
  intro n
  induction n with
  | zero =>
    refine ⟨by simp, ?_⟩
    intro i hi
    omega
  | succ n ih =>
    obtain ⟨ih1, ih2⟩ := ih
    rw [List.range_succ, List.foldl_append, List.foldl_cons, List.foldl_nil]
    by_cases hc : jsLt (score (l.getD n default))
        (score (l.getD ((List.range n).foldl
          (fun best i =>
            if jsLt (score (l.getD i default)) (score (l.getD best default)) then i
            else best) 0) default)) = true
    · rw [if_pos hc]
      refine ⟨by omega, ?_⟩
      intro i hi
      rcases Nat.lt_succ_iff_lt_or_eq.mp hi with hi | hi
      · cases hlt : jsLt (score (l.getD i default)) (score (l.getD n default)) with
        | false => rfl
        | true =>
          exfalso
          have := jsLt_trans hlt hc
          rw [ih2 i hi] at this
          cases this
      · subst hi
        exact jsLt_irrefl _
    · rw [if_neg hc]
      refine ⟨by omega, ?_⟩
      intro i hi
      rcases Nat.lt_succ_iff_lt_or_eq.mp hi with hi | hi
      · exact ih2 i hi
      · subst hi
        simp only [Bool.not_eq_true] at hc
        exact hc

theorem scanMinIdx_lt (score : Position → Option (WithTop Nat)) {l : List Position}
    (hne : l ≠ []) : scanMinIdx score l < l.length := by
  have h := (scanMin_fold score l l.length).1
  have hl : 1 ≤ l.length := List.length_pos.mpr hne
  unfold scanMinIdx
  omega

theorem scanMinIdx_min (score : Position → Option (WithTop Nat)) (l : List Position) :
    ∀ i < l.length, jsLt (score (l.getD i default))
      (score (l.getD (scanMinIdx score l) default)) = false :=
  (scanMin_fold score l l.length).2

theorem getD_mem {l : List Position} {i : Nat} (h : i < l.length) :
    l.getD i default ∈ l := by
  rw [List.getD_eq_getElem?_getD, List.getElem?_eq_getElem h, Option.getD_some]
  exact List.getElem_mem h

theorem mem_of_mem_eraseIdx {l : List Position} {i : Nat} {x : Position}
    (h : x ∈ l.eraseIdx i) : x ∈ l :=
  List.eraseIdx_subset l i h

theorem mem_eraseIdx_of_ne {l : List Position} {i : Nat} (hi : i < l.length)
    {x : Position} (hx : x ∈ l) (hne : x ≠ l.getD i default) :
    x ∈ l.eraseIdx i := by
  rw [List.eraseIdx_eq_take_drop_succ]
  rw [show l = l.take i ++ l.drop i from (List.take_append_drop i l).symm] at hx
  rw [List.mem_append] at hx ⊢
  rcases hx with hx | hx
  · exact Or.inl hx
  · rw [List.drop_eq_getElem_cons hi] at hx
    rcases List.mem_cons.mp hx with hx | hx
    · exfalso
      apply hne
      rw [List.getD_eq_getElem?_getD, List.getElem?_eq_getElem hi, Option.getD_some]
      exact hx
    · exact Or.inr hx

theorem length_eraseIdx_lt {l : List Position} {i : Nat} (h : i < l.length) :
    (l.eraseIdx i).length < l.length := by
  rw [List.length_eraseIdx]
  simp only [h, if_true]
  omega

theorem not_mem_dirsOf (p : Position) : p ∉ dirsOf p := by
  obtain ⟨r, c⟩ := p
  unfold dirsOf
  simp only [List.mem_cons, List.not_mem_nil, or_false, Position.mk.injEq]
  omega

theorem dijRelax_spec (cur : Position) :
    ∀ (dirs : List Position) (g : Grid) (q : List Position), dirs.Nodup →
      cur ∉ dirs →
      (dirs.foldl (dijkstraRelaxDir cur) (g, q)).2 =
        q ++ dirs.filter (fun x => isValidPosition g x &&
          jsLt (jsAdd1 (cellAt g cur).g) (cellAt g x).g && !(cellAt g x).visited) ∧
      (∀ p, p ∈ dirs.filter (fun x => isValidPosition g x &&
          jsLt (jsAdd1 (cellAt g cur).g) (cellAt g x).g) →
        cellAt (dirs.foldl (dijkstraRelaxDir cur) (g, q)).1 p =
          (if !(cellAt g p).visited then
            { cellAt g p with g := jsAdd1 (cellAt g cur).g, parent := some cur,
                              visited := true,
                              type := if (cellAt g p).isEnd then (cellAt g p).type
                                else CellType.VISITING }
           else { cellAt g p with g := jsAdd1 (cellAt g cur).g,
                                  parent := some cur })) ∧
      (∀ p, p ∉ dirs.filter (fun x => isValidPosition g x &&
          jsLt (jsAdd1 (cellAt g cur).g) (cellAt g x).g) →
        cellAt (dirs.foldl (dijkstraRelaxDir cur) (g, q)).1 p = cellAt g p) ∧
      ShapeEq g (dirs.foldl (dijkstraRelaxDir cur) (g, q)).1 := by
  intro dirs
  induction dirs with
  | nil =>
    intro g q _ _
    exact ⟨by simp, fun p hp => by simp at hp, fun p _ => rfl, shapeEq_refl g⟩
  | cons d rest ih =>
    intro g q hnd hcur
    rw [List.nodup_cons] at hnd
    obtain ⟨hd, hrest⟩ := hnd
    rw [List.mem_cons, not_or] at hcur
    obtain ⟨hcd, hcrest⟩ := hcur
    rw [show (d :: rest).foldl (dijkstraRelaxDir cur) (g, q) =
      rest.foldl (dijkstraRelaxDir cur) (dijkstraRelaxDir cur (g, q) d) from rfl]
    by_cases hb : (isValidPosition g d &&
        jsLt (jsAdd1 (cellAt g cur).g) (cellAt g d).g) = true
    · have hb1 : isValidPosition g d = true := (Bool.and_eq_true .. ▸ hb).1
      have hb2 : jsLt (jsAdd1 (cellAt g cur).g) (cellAt g d).g = true :=
        (Bool.and_eq_true .. ▸ hb).2
      have hsome : (gridGet g d).isSome = true := isValid_isSome hb1
      have hred : dijkstraRelaxDir cur (g, q) d =
          (modCell g d (fun c =>
             if !c.visited then
               { c with g := jsAdd1 (cellAt g cur).g, parent := some cur,
                        visited := true,
                        type := if c.isEnd then c.type else CellType.VISITING }
             else { c with g := jsAdd1 (cellAt g cur).g, parent := some cur }),
           if !(cellAt g d).visited then q ++ [d] else q) := by
        show (if isValidPosition g d then
            if jsLt (jsAdd1 (cellAt g cur).g) (cellAt g d).g then
              (modCell g d (fun c =>
                 if !c.visited then
                   { c with g := jsAdd1 (cellAt g cur).g, parent := some cur,
                            visited := true,
                            type := if c.isEnd then c.type else CellType.VISITING }
                 else { c with g := jsAdd1 (cellAt g cur).g, parent := some cur }),
               if !(cellAt g d).visited then q ++ [d] else q)
            else (g, q)
          else (g, q)) = _
        rw [if_pos hb1, if_pos hb2]
      rw [hred]
      have hcell : ∀ x : Position, x ≠ d →
          cellAt (modCell g d (fun c =>
             if !c.visited then
               { c with g := jsAdd1 (cellAt g cur).g, parent := some cur,
                        visited := true,
                        type := if c.isEnd then c.type else CellType.VISITING }
             else { c with g := jsAdd1 (cellAt g cur).g, parent := some cur })) x =
          cellAt g x := fun x hx => cellAt_modCell_ne g _ hx
      have hval : ∀ x : Position, x ≠ d →
          isValidPosition (modCell g d (fun c =>
             if !c.visited then
               { c with g := jsAdd1 (cellAt g cur).g, parent := some cur,
                        visited := true,
                        type := if c.isEnd then c.type else CellType.VISITING }
             else { c with g := jsAdd1 (cellAt g cur).g, parent := some cur })) x =
          isValidPosition g x := by
        intro x hx
        unfold isValidPosition inBoundsB
        rw [gRows_modCell, gCols_modCell, hcell x hx]
      have hfeqR : rest.filter (fun x =>
            isValidPosition (modCell g d (fun c =>
               if !c.visited then
                 { c with g := jsAdd1 (cellAt g cur).g, parent := some cur,
                          visited := true,
                          type := if c.isEnd then c.type else CellType.VISITING }
               else { c with g := jsAdd1 (cellAt g cur).g, parent := some cur })) x &&
            jsLt (jsAdd1 (cellAt (modCell g d (fun c =>
               if !c.visited then
                 { c with g := jsAdd1 (cellAt g cur).g, parent := some cur,
                          visited := true,
                          type := if c.isEnd then c.type else CellType.VISITING }
               else { c with g := jsAdd1 (cellAt g cur).g, parent := some cur })) cur).g)
              (cellAt (modCell g d (fun c =>
               if !c.visited then
                 { c with g := jsAdd1 (cellAt g cur).g, parent := some cur,
                          visited := true,
                          type := if c.isEnd then c.type else CellType.VISITING }
               else { c with g := jsAdd1 (cellAt g cur).g, parent := some cur })) x).g) =
          rest.filter (fun x => isValidPosition g x &&
            jsLt (jsAdd1 (cellAt g cur).g) (cellAt g x).g) := by
        apply List.filter_congr
        intro x hx
        have hxd : x ≠ d := fun hc => hd (hc ▸ hx)
        rw [hval x hxd, hcell x hxd, hcell cur hcd]
      have hfeqQ : rest.filter (fun x =>
            isValidPosition (modCell g d (fun c =>
               if !c.visited then
                 { c with g := jsAdd1 (cellAt g cur).g, parent := some cur,
                          visited := true,
                          type := if c.isEnd then c.type else CellType.VISITING }
               else { c with g := jsAdd1 (cellAt g cur).g, parent := some cur })) x &&
            jsLt (jsAdd1 (cellAt (modCell g d (fun c =>
               if !c.visited then
                 { c with g := jsAdd1 (cellAt g cur).g, parent := some cur,
                          visited := true,
                          type := if c.isEnd then c.type else CellType.VISITING }
               else { c with g := jsAdd1 (cellAt g cur).g, parent := some cur })) cur).g)
              (cellAt (modCell g d (fun c =>
               if !c.visited then
                 { c with g := jsAdd1 (cellAt g cur).g, parent := some cur,
                          visited := true,
                          type := if c.isEnd then c.type else CellType.VISITING }
               else { c with g := jsAdd1 (cellAt g cur).g, parent := some cur })) x).g &&
            !(cellAt (modCell g d (fun c =>
               if !c.visited then
                 { c with g := jsAdd1 (cellAt g cur).g, parent := some cur,
                          visited := true,
                          type := if c.isEnd then c.type else CellType.VISITING }
               else { c with g := jsAdd1 (cellAt g cur).g, parent := some cur })) x).visited) =
          rest.filter (fun x => isValidPosition g x &&
            jsLt (jsAdd1 (cellAt g cur).g) (cellAt g x).g && !(cellAt g x).visited) := by
        apply List.filter_congr
        intro x hx
        have hxd : x ≠ d := fun hc => hd (hc ▸ hx)
        rw [hval x hxd, hcell x hxd, hcell cur hcd]
      obtain ⟨ih1, ih2, ih3, ih4⟩ := ih (modCell g d (fun c =>
           if !c.visited then
             { c with g := jsAdd1 (cellAt g cur).g, parent := some cur,
                      visited := true,
                      type := if c.isEnd then c.type else CellType.VISITING }
           else { c with g := jsAdd1 (cellAt g cur).g, parent := some cur }))
        (if !(cellAt g d).visited then q ++ [d] else q) hrest hcrest
      rw [hfeqQ] at ih1
      rw [hfeqR] at ih2 ih3
      have hflR : (d :: rest).filter (fun x => isValidPosition g x &&
            jsLt (jsAdd1 (cellAt g cur).g) (cellAt g x).g) =
          d :: rest.filter (fun x => isValidPosition g x &&
            jsLt (jsAdd1 (cellAt g cur).g) (cellAt g x).g) := by
        rw [List.filter_cons, if_pos hb]
      refine ⟨?_, ?_, ?_, ?_⟩
      · rw [ih1]
        cases hv : (cellAt g d).visited with
        | false =>
          have hPd : (isValidPosition g d &&
              jsLt (jsAdd1 (cellAt g cur).g) (cellAt g d).g &&
              !(cellAt g d).visited) = true := by
            rw [hb1, hb2, hv]
            rfl
          rw [List.filter_cons, if_pos hPd]
          show (q ++ [d]) ++ _ = _
          rw [List.append_assoc]
          rfl
        | true =>
          have hPd : ¬((isValidPosition g d &&
              jsLt (jsAdd1 (cellAt g cur).g) (cellAt g d).g &&
              !(cellAt g d).visited) = true) := by
            rw [hb1, hb2, hv]
            intro hc
            cases hc
          rw [List.filter_cons, if_neg hPd]
          rfl
      · intro p hp
        rw [hflR, List.mem_cons] at hp
        rcases hp with hp | hp
        · subst hp
          have hnp : p ∉ rest.filter (fun x => isValidPosition g x &&
              jsLt (jsAdd1 (cellAt g cur).g) (cellAt g x).g) :=
            fun hc => hd (List.mem_of_mem_filter hc)
          rw [ih3 p hnp, cellAt_modCell_self _ hsome]
        · have hpd : p ≠ d := fun hc => hd (hc ▸ List.mem_of_mem_filter hp)
          rw [ih2 p hp, hcell p hpd, hcell cur hcd]
      · intro p hp
        rw [hflR, List.mem_cons] at hp
        push_neg at hp
        obtain ⟨hp1, hp2⟩ := hp
        rw [ih3 p hp2, hcell p hp1]
      · exact shapeEq_trans (shapeEq_modCell g d _) ih4
    · have hred : dijkstraRelaxDir cur (g, q) d = (g, q) := by
        show (if isValidPosition g d then
            if jsLt (jsAdd1 (cellAt g cur).g) (cellAt g d).g then
              (modCell g d (fun c =>
                 if !c.visited then
                   { c with g := jsAdd1 (cellAt g cur).g, parent := some cur,
                            visited := true,
                            type := if c.isEnd then c.type else CellType.VISITING }
                 else { c with g := jsAdd1 (cellAt g cur).g, parent := some cur }),
               if !(cellAt g d).visited then q ++ [d] else q)
            else (g, q)
          else (g, q)) = (g, q)
        by_cases hb1 : isValidPosition g d = true
        · rw [if_pos hb1]
          have hb2 : ¬(jsLt (jsAdd1 (cellAt g cur).g) (cellAt g d).g = true) := by
            intro hc
            exact hb (by rw [hb1, hc]; rfl)
          rw [if_neg hb2]
        · rw [if_neg hb1]
      rw [hred]
      have hPd : ¬((isValidPosition g d &&
          jsLt (jsAdd1 (cellAt g cur).g) (cellAt g d).g &&
          !(cellAt g d).visited) = true) := by
        intro hc
        rw [Bool.and_eq_true] at hc
        exact hb hc.1
      have hflR : (d :: rest).filter (fun x => isValidPosition g x &&
            jsLt (jsAdd1 (cellAt g cur).g) (cellAt g x).g) =
          rest.filter (fun x => isValidPosition g x &&
            jsLt (jsAdd1 (cellAt g cur).g) (cellAt g x).g) := by
        rw [List.filter_cons, if_neg hb]
      have hflQ : (d :: rest).filter (fun x => isValidPosition g x &&
            jsLt (jsAdd1 (cellAt g cur).g) (cellAt g x).g && !(cellAt g x).visited) =
          rest.filter (fun x => isValidPosition g x &&
            jsLt (jsAdd1 (cellAt g cur).g) (cellAt g x).g && !(cellAt g x).visited) := by
        rw [List.filter_cons, if_neg hPd]
      obtain ⟨ih1, ih2, ih3, ih4⟩ := ih g q hrest hcrest
      rw [hflR, hflQ]
      exact ⟨ih1, ih2, ih3, ih4⟩

theorem dijInv_init {m0 : MazeData} (hm : gridInvB m0 = true) :
    DijInv m0 (dijkstraInit m0) := by
  obtain ⟨hd, hh, hw, hsb, heb, hne, hsw, hew, hcells⟩ := gridInvB_unpack hm
  have hssome : (gridGet m0.grid m0.startPosition).isSome = true := by
    rw [gridGet_isSome_iff hd]
    exact hsb
  obtain ⟨sc, hsc⟩ := Option.isSome_iff_exists.mp hssome
  have hG0get : ∀ p, gridGet (m0.grid.map (fun row =>
      row.map (fun c => { c with g := some ⊤ }))) p =
      (gridGet m0.grid p).map (fun c => { c with g := some ⊤ }) :=
    fun p => gridGet_map _ m0.grid p
  have hG0some : (gridGet (m0.grid.map (fun row =>
      row.map (fun c => { c with g := some ⊤ }))) m0.startPosition).isSome = true := by
    rw [hG0get, hsc]
    rfl
  have hgrid : (dijkstraInit m0).maze.grid =
      modCell (m0.grid.map (fun row => row.map (fun c => { c with g := some ⊤ })))
        m0.startPosition
        (fun c => { c with g := some 0, visited := true,
                           type := CellType.VISITING }) := rfl
  have hG0start : cellAt (m0.grid.map (fun row =>
      row.map (fun c => { c with g := some ⊤ }))) m0.startPosition =
      { sc with g := some ⊤ } := by
    unfold cellAt
    rw [hG0get, hsc]
    rfl
  have hstart : cellAt (dijkstraInit m0).maze.grid m0.startPosition =
      { sc with g := some 0, visited := true, type := CellType.VISITING } := by
    rw [hgrid, cellAt_modCell_self _ hG0some, hG0start]
  have hcellne : ∀ p, p ≠ m0.startPosition →
      cellAt (dijkstraInit m0).maze.grid p =
        cellAt (m0.grid.map (fun row =>
          row.map (fun c => { c with g := some ⊤ }))) p := by
    intro p hp
    rw [hgrid, cellAt_modCell_ne _ _ hp]
  have hG0cases : ∀ p, (gridGet m0.grid p = none ∧
      cellAt (m0.grid.map (fun row =>
        row.map (fun c => { c with g := some ⊤ }))) p = default) ∨
      (∃ c, gridGet m0.grid p = some c ∧
        cellAt (m0.grid.map (fun row =>
          row.map (fun c => { c with g := some ⊤ }))) p = { c with g := some ⊤ }) := by
    intro p
    cases hg : gridGet m0.grid p with
    | none =>
      refine Or.inl ⟨rfl, ?_⟩
      unfold cellAt
      rw [hG0get, hg]
      rfl
    | some c =>
      refine Or.inr ⟨c, rfl, ?_⟩
      unfold cellAt
      rw [hG0get, hg]
      rfl
  have hvisited : ∀ p, p ≠ m0.startPosition →
      (cellAt (dijkstraInit m0).maze.grid p).visited = false := by
    intro p hp
    rw [hcellne p hp]
    rcases hG0cases p with ⟨_, hc⟩ | ⟨c, hg, hc⟩
    · rw [hc]
      rfl
    · rw [hc]
      exact (hcells p c hg).2.2.1
  have hparent : ∀ p, (cellAt (dijkstraInit m0).maze.grid p).parent = none := by
    intro p
    by_cases hp : p = m0.startPosition
    · subst hp
      rw [hstart]
      exact (hcells _ sc hsc).2.2.2
    · rw [hcellne p hp]
      rcases hG0cases p with ⟨_, hc⟩ | ⟨c, hg, hc⟩
      · rw [hc]
        rfl
      · rw [hc]
        exact (hcells p c hg).2.2.2
  have hgamma : ∀ p, p ≠ m0.startPosition →
      (cellAt (dijkstraInit m0).maze.grid p).g = some ⊤ ∨
      (cellAt (dijkstraInit m0).maze.grid p).g = none := by
    intro p hp
    rw [hcellne p hp]
    rcases hG0cases p with ⟨_, hc⟩ | ⟨c, _, hc⟩
    · rw [hc]
      exact Or.inr rfl
    · rw [hc]
      exact Or.inl rfl
  have hsomeiff : ∀ p, (gridGet (dijkstraInit m0).maze.grid p).isSome =
      (gridGet m0.grid p).isSome := by
    intro p
    by_cases hp : p = m0.startPosition
    · subst hp
      rw [hssome, hgrid, modCell_get_self, hG0get, hsc]
      rfl
    · rw [hgrid, modCell_get_ne _ _ hp, hG0get]
      cases gridGet m0.grid p <;> rfl
  refine ⟨rfl, rfl, rfl, rfl, ?_, ?_, ?_, ?_, ?_, ?_, ?_, ?_, ?_, ?_, ?_, ?_⟩
  · refine ⟨shapeEq_trans (shapeEq_map _ m0.grid) (shapeEq_modCell _ _ _), fun p => ?_⟩
    by_cases hp : p = m0.startPosition
    · subst hp
      rw [hstart]
      constructor
      · intro hc
        cases hc
      · intro hc
        exact absurd hc hsw
    · rw [hcellne p hp]
      rcases hG0cases p with ⟨hg, hc⟩ | ⟨c, hg, hc⟩
      · rw [hc]
        have : cellAt m0.grid p = default := by
          unfold cellAt
          rw [hg]
          rfl
        rw [this]
      · rw [hc]
        have : cellAt m0.grid p = c := by
          unfold cellAt
          rw [hg]
          rfl
        rw [this]
  · intro p c hpc
    by_cases hp : p = m0.startPosition
    · subst hp
      rw [hgrid, modCell_get_self, hG0get, hsc] at hpc
      simp only [Option.map_some'] at hpc
      cases hpc
      exact ⟨0, rfl⟩
    · rw [hgrid, modCell_get_ne _ _ hp, hG0get] at hpc
      rw [Option.map_eq_some'] at hpc
      obtain ⟨c0, _, hc0⟩ := hpc
      subst hc0
      exact ⟨⊤, rfl⟩
  · rw [hstart]
    refine ⟨?_, (hcells _ sc hsc).2.2.2, rfl⟩
    show some (0 : WithTop Nat) = some ((0 : Nat) : WithTop Nat)
    norm_cast
  · intro p
    by_cases hp : p = m0.startPosition
    · subst hp
      rw [hstart]
      constructor
      · intro _
        refine ⟨rfl, ?_⟩
        rw [hsomeiff]
        exact hssome
      · intro _
        refine ⟨0, ?_⟩
        show some (0 : WithTop Nat) = some ((0 : Nat) : WithTop Nat)
        norm_cast
    · constructor
      · rintro ⟨n, hn⟩
        rcases hgamma p hp with hg | hg <;> rw [hg] at hn
        · rw [Option.some.injEq] at hn
          exact absurd hn.symm (WithTop.coe_ne_top)
        · cases hn
      · rintro ⟨hv, _⟩
        rw [hvisited p hp] at hv
        cases hv
  · intro p q hpq
    rw [hparent p] at hpq
    cases hpq
  · intro p hv hp
    rw [hvisited p hp] at hv
    cases hv
  · intro p hv
    by_cases hp : p = m0.startPosition
    · subst hp
      exact start_valid hm
    · rw [hvisited p hp] at hv
      cases hv
  · intro p n hn
    by_cases hp : p = m0.startPosition
    · subst hp
      exact ⟨0, Nat.zero_le n, PathN.refl _ (start_valid hm)⟩
    · rcases hgamma p hp with hg | hg <;> rw [hg] at hn
      · rw [Option.some.injEq] at hn
        exact absurd hn.symm (WithTop.coe_ne_top)
      · cases hn
  · intro p hv hpf
    by_cases hp : p = m0.startPosition
    · subst hp
      exact absurd (List.mem_singleton.mpr rfl) hpf
    · rw [hvisited p hp] at hv
      cases hv
  · intro u hv huf
    by_cases hp : u = m0.startPosition
    · subst hp
      exact absurd (List.mem_singleton.mpr rfl) huf
    · rw [hvisited u hp] at hv
      cases hv
  · intro p hpf
    have hpf2 : p = m0.startPosition := List.mem_singleton.mp hpf
    subst hpf2
    rw [hstart]
  · intro hev
    rw [hvisited m0.endPosition (fun hc => hne hc.symm)] at hev
    cases hev

theorem jsAdd1_coe (n : Nat) :
    jsAdd1 (some ((n : Nat) : WithTop Nat)) =
      some (((n + 1 : Nat)) : WithTop Nat) := by
  unfold jsAdd1
  simp only [Option.map_some', Option.some.injEq]
  push_cast
  ring

theorem jsLt_coe_decide (a b : Nat) :
    jsLt (some ((a : Nat) : WithTop Nat)) (some ((b : Nat) : WithTop Nat)) =
      decide (a < b) := by
  show decide (((a : Nat) : WithTop Nat) < ((b : Nat) : WithTop Nat)) = decide (a < b)
  by_cases h : a < b
  · rw [decide_eq_true h,
      decide_eq_true (show ((a : Nat) : WithTop Nat) < ((b : Nat) : WithTop Nat) by
        exact_mod_cast h)]
  · rw [decide_eq_false h,
      decide_eq_false (show ¬(((a : Nat) : WithTop Nat) < ((b : Nat) : WithTop Nat)) by
        exact_mod_cast h)]

theorem jsLt_coe_top (a : Nat) :
    jsLt (some ((a : Nat) : WithTop Nat)) (some (⊤ : WithTop Nat)) = true := by
  show decide (((a : Nat) : WithTop Nat) < ⊤) = true
  rw [decide_eq_true_eq]
  exact_mod_cast WithTop.coe_lt_top (a : Nat)

theorem isDist_adj_le {g : Grid} {s u v : Position} {ku kv : Nat}
    (hu : IsDist g s u ku) (hv : IsDist g s v kv) (hadj : adjStep u v)
    (hval : isValidPosition g v = true) : kv ≤ ku + 1 :=
  hv.2 (ku + 1) (hu.1.snoc hadj hval)

theorem dij_chain {m0 : MazeData} {s : AlgState} (hm : gridInvB m0 = true)
    (hinv : DijInv m0 s) :
    ∀ (n : Nat) (p : Position),
      (cellAt s.maze.grid p).g = some ((n : Nat) : WithTop Nat) →
      ∃ l2, l2 ≤ n ∧ ChainTo s.maze.grid m0.startPosition p l2 ∧
        PathN m0.grid m0.startPosition p l2 := by
  obtain ⟨h1, h2, h3, h4, hwalk, hD1, hD9, hD5, hD3, hD4, hVal, hD2, hD7, hD11,
    hFr, hPend⟩ := hinv
  intro n
  induction n using Nat.strong_induction_on with
  | _ n ih =>
    intro p hp
    by_cases hps : p = m0.startPosition
    · subst hps
      exact ⟨0, Nat.zero_le n, ChainTo.base, PathN.refl _ (start_valid hm)⟩
    · have hvp : (cellAt s.maze.grid p).visited = true :=
        ((hD5 p).mp ⟨n, hp⟩).1
      obtain ⟨q, hq⟩ := hD4 p hvp hps
      obtain ⟨hadj, hvalp, np, nq, hnp, hnq, hlt⟩ := hD3 p q hq
      have hnpn : np = n := by
        rw [hp, Option.some.injEq] at hnp
        exact_mod_cast hnp.symm
      subst hnpn
      obtain ⟨l2, hl2, hchain, hpath⟩ := ih nq (by omega) q hnq
      exact ⟨l2 + 1, by omega, ChainTo.step p q l2 hq hchain,
        hpath.snoc hadj hvalp⟩

theorem dij_boundary {m0 : MazeData} {s : AlgState} (hinv : DijInv m0 s) :
    ∀ (k : Nat) (x : Position), PathN m0.grid m0.startPosition x k →
      ((cellAt s.maze.grid x).visited = true → x ∈ s.frontier) →
      ∃ v, v ∈ s.frontier ∧ ∃ nv : Nat,
        (cellAt s.maze.grid v).g = some ((nv : Nat) : WithTop Nat) ∧ nv ≤ k := by
  obtain ⟨h1, h2, h3, h4, hwalk, hD1, hD9, hD5, hD3, hD4, hVal, hD2, hD7, hD11,
    hFr, hPend⟩ := hinv
  intro k
  induction k with
  | zero =>
    intro x hp hx
    obtain rfl := PathN.zero_eq hp
    exact ⟨m0.startPosition, hx hD9.2.2, 0, hD9.1, le_refl 0⟩
  | succ k ih =>
    intro x hp hx
    obtain ⟨u, hu, hadj, hvalx⟩ := hp.peel_last
    by_cases hus : (cellAt s.maze.grid u).visited = true ∧ u ∉ s.frontier
    · obtain ⟨ku, hku⟩ := exists_isDist ⟨k, hu⟩
      have hgu : (cellAt s.maze.grid u).g = some ((ku : Nat) : WithTop Nat) :=
        hD7 u hus.1 hus.2 ku hku
      obtain ⟨hvx, hbound⟩ := hD11 u hus.1 hus.2 x hadj hvalx
      obtain ⟨nx, hnx, hnxle⟩ := hbound ku hgu
      have hkuk : ku ≤ k := hku.2 k hu
      exact ⟨x, hx hvx, nx, hnx, by omega⟩
    · have hu2 : (cellAt s.maze.grid u).visited = true → u ∈ s.frontier := by
        intro hv
        by_contra hc
        exact hus ⟨hv, hc⟩
      obtain ⟨v, hvf, nv, hnv, hle⟩ := ih u hu hu2
      exact ⟨v, hvf, nv, hnv, by omega⟩

theorem dij_argmin {m0 : MazeData} {s : AlgState} (hm : gridInvB m0 = true)
    (hinv : DijInv m0 s) (hne : s.frontier ≠ []) :
    ∃ n : Nat,
      (cellAt s.maze.grid (s.frontier.getD
        (scanMinIdx (fun p => (cellAt s.maze.grid p).g) s.frontier) default)).g =
        some ((n : Nat) : WithTop Nat) ∧
      IsDist m0.grid m0.startPosition
        (s.frontier.getD (scanMinIdx (fun p => (cellAt s.maze.grid p).g)
          s.frontier) default) n := by
  have hinv' := hinv
  obtain ⟨h1, h2, h3, h4, hwalk, hD1, hD9, hD5, hD3, hD4, hVal, hD2, hD7, hD11,
    hFr, hPend⟩ := hinv
  obtain ⟨hd, hh, hw, _, _, _, _, _, _⟩ := gridInvB_unpack hm
  have hMI := scanMinIdx_lt (fun p => (cellAt s.maze.grid p).g) hne
  set CUR := s.frontier.getD
    (scanMinIdx (fun p => (cellAt s.maze.grid p).g) s.frontier) default with hCUR
  have hcurmem : CUR ∈ s.frontier := getD_mem hMI
  have hvcur : (cellAt s.maze.grid CUR).visited = true := hFr CUR hcurmem
  have hvalcur : isValidPosition m0.grid CUR = true := hVal CUR hvcur
  have hd2 : GridDims s.maze.grid m0.height m0.width :=
    GridDims_shapeEq hwalk.1 hd
  have hsome2 : (gridGet s.maze.grid CUR).isSome = true :=
    (gridGet_isSome_iff hd2 CUR).mpr
      ((gridGet_isSome_iff hd CUR).mp (isValid_isSome hvalcur))
  obtain ⟨n, hn⟩ := (hD5 CUR).mpr ⟨hvcur, hsome2⟩
  obtain ⟨l2, hl2, hpathl⟩ := hD2 CUR n hn
  obtain ⟨kc, hkc⟩ := exists_isDist ⟨l2, hpathl⟩
  have hkn : kc ≤ n := le_trans (hkc.2 l2 hpathl) hl2
  obtain ⟨v, hvf, nv, hnv, hnvk⟩ :=
    dij_boundary hinv' kc CUR hkc.1 (fun _ => hcurmem)
  obtain ⟨i, hi, hieq⟩ := List.mem_iff_getElem.mp hvf
  have hgetD : s.frontier.getD i default = v := by
    rw [List.getD_eq_getElem?_getD, List.getElem?_eq_getElem hi, Option.getD_some,
      hieq]
  have hmin := scanMinIdx_min (fun p => (cellAt s.maze.grid p).g) s.frontier i hi
  simp only [] at hmin
  rw [← hCUR, hgetD, hnv, hn, jsLt_coe_decide] at hmin
  have hnnv : n ≤ nv := by
    rw [decide_eq_false_iff_not] at hmin
    omega
  have hnkc : n = kc := le_antisymm (le_trans hnnv hnvk) hkn
  exact ⟨n, hn, by rw [hnkc]; exact hkc⟩

theorem dijNext_empty_eq (s : AlgState) (hdone : s.isDone = false)
    (hf : s.frontier = []) :
    dijkstraNext s = (none, { s with isDone := true }) := by
  unfold dijkstraNext
  rw [hf, hdone]
  rw [if_pos (by simp)]

theorem dijNext_done_eq (s : AlgState) (hdone : s.isDone = true) :
    dijkstraNext s = (none, { s with isDone := true }) := by
  unfold dijkstraNext
  rw [hdone]
  rw [if_pos (by simp)]

theorem bfsNext_done_eq (s : AlgState) (hdone : s.isDone = true) :
    bfsNext s = (none, { s with isDone := true }) := by
  unfold bfsNext
  rw [hdone]
  rw [if_pos (by simp)]

theorem dijNext_finish_eq (s : AlgState) (hdone : s.isDone = false)
    (hne : s.frontier.isEmpty = false)
    (hend : (s.frontier.getD (scanMinIdx (fun p => (cellAt s.maze.grid p).g)
        s.frontier) default).row = s.maze.endPosition.row ∧
      (s.frontier.getD (scanMinIdx (fun p => (cellAt s.maze.grid p).g)
        s.frontier) default).col = s.maze.endPosition.col) :
    dijkstraNext s = finishRun s (s.frontier.eraseIdx
      (scanMinIdx (fun p => (cellAt s.maze.grid p).g) s.frontier)) := by
  unfold dijkstraNext
  rw [hdone, hne]
  rw [if_neg (by simp)]
  simp only []
  rw [if_pos hend]

theorem dijNext_pop_eq (s : AlgState) (hdone : s.isDone = false)
    (hne : s.frontier.isEmpty = false)
    (hnend : ¬((s.frontier.getD (scanMinIdx (fun p => (cellAt s.maze.grid p).g)
        s.frontier) default).row = s.maze.endPosition.row ∧
      (s.frontier.getD (scanMinIdx (fun p => (cellAt s.maze.grid p).g)
        s.frontier) default).col = s.maze.endPosition.col)) :
    dijkstraNext s = (some
      { grid := ((dirsOf (s.frontier.getD (scanMinIdx
            (fun p => (cellAt s.maze.grid p).g) s.frontier) default)).foldl
          (dijkstraRelaxDir (s.frontier.getD (scanMinIdx
            (fun p => (cellAt s.maze.grid p).g) s.frontier) default))
          (if !(cellAt s.maze.grid (s.frontier.getD (scanMinIdx
              (fun p => (cellAt s.maze.grid p).g) s.frontier) default)).isStart &&
              !(cellAt s.maze.grid (s.frontier.getD (scanMinIdx
              (fun p => (cellAt s.maze.grid p).g) s.frontier) default)).isEnd then
            modCell s.maze.grid (s.frontier.getD (scanMinIdx
              (fun p => (cellAt s.maze.grid p).g) s.frontier) default)
              (fun c => { c with type := CellType.VISITED })
           else s.maze.grid,
           s.frontier.eraseIdx (scanMinIdx
             (fun p => (cellAt s.maze.grid p).g) s.frontier))).1,
        visitedCount := s.visitedCount + 1, pathLength := 0, elapsedTime := 0,
        isDone := false, success := s.success },
      { s with
        maze := { s.maze with grid := ((dirsOf (s.frontier.getD (scanMinIdx
            (fun p => (cellAt s.maze.grid p).g) s.frontier) default)).foldl
          (dijkstraRelaxDir (s.frontier.getD (scanMinIdx
            (fun p => (cellAt s.maze.grid p).g) s.frontier) default))
          (if !(cellAt s.maze.grid (s.frontier.getD (scanMinIdx
              (fun p => (cellAt s.maze.grid p).g) s.frontier) default)).isStart &&
              !(cellAt s.maze.grid (s.frontier.getD (scanMinIdx
              (fun p => (cellAt s.maze.grid p).g) s.frontier) default)).isEnd then
            modCell s.maze.grid (s.frontier.getD (scanMinIdx
              (fun p => (cellAt s.maze.grid p).g) s.frontier) default)
              (fun c => { c with type := CellType.VISITED })
           else s.maze.grid,
           s.frontier.eraseIdx (scanMinIdx
             (fun p => (cellAt s.maze.grid p).g) s.frontier))).1 },
        frontier := ((dirsOf (s.frontier.getD (scanMinIdx
            (fun p => (cellAt s.maze.grid p).g) s.frontier) default)).foldl
          (dijkstraRelaxDir (s.frontier.getD (scanMinIdx
            (fun p => (cellAt s.maze.grid p).g) s.frontier) default))
          (if !(cellAt s.maze.grid (s.frontier.getD (scanMinIdx
              (fun p => (cellAt s.maze.grid p).g) s.frontier) default)).isStart &&
              !(cellAt s.maze.grid (s.frontier.getD (scanMinIdx
              (fun p => (cellAt s.maze.grid p).g) s.frontier) default)).isEnd then
            modCell s.maze.grid (s.frontier.getD (scanMinIdx
              (fun p => (cellAt s.maze.grid p).g) s.frontier) default)
              (fun c => { c with type := CellType.VISITED })
           else s.maze.grid,
           s.frontier.eraseIdx (scanMinIdx
             (fun p => (cellAt s.maze.grid p).g) s.frontier))).2,
        visitedCount := s.visitedCount + 1 }) := by
  unfold dijkstraNext
  rw [hdone, hne]
  rw [if_neg (by simp)]
  simp only []
  rw [if_neg hnend]

theorem dij_finish_sound {m0 : MazeData} {s : AlgState} (hm : gridInvB m0 = true)
    (hinv : DijInv m0 s) (hne : s.frontier ≠ [])
    (hcur : s.frontier.getD (scanMinIdx (fun p => (cellAt s.maze.grid p).g)
      s.frontier) default = s.maze.endPosition) (rest : List Position) :
    ∃ st, (finishRun s rest).1 = some st ∧ st.success = true ∧ st.isDone = true ∧
      ∃ d, IsDist m0.grid m0.startPosition m0.endPosition d ∧
        st.pathLength = d + 1 := by
  have hA := hinv
  have hB := hinv
  obtain ⟨n, hn, hdist⟩ := dij_argmin hm hA hne
  obtain ⟨h1, h2, h3, h4, hwalk, hD1, hD9, hD5, hD3, hD4, hVal, hD2, hD7, hD11,
    hFr, hPend⟩ := hinv
  rw [hcur, h2] at hn hdist
  obtain ⟨hd, hh, hw, _, _, _, _, _, _⟩ := gridInvB_unpack hm
  obtain ⟨l2, hl2, hchain, hpath⟩ := dij_chain hm hB n m0.endPosition hn
  have hl2n : l2 = n := le_antisymm hl2 (hdist.2 l2 hpath)
  subst hl2n
  refine ⟨_, rfl, rfl, rfl, l2, hdist, ?_⟩
  show (reconstructPathMark s.maze.grid s.maze.endPosition
    (pathFuel s.maze.grid)).1.length = l2 + 1
  rw [h2]
  have hfuel : l2 + 1 ≤ pathFuel s.maze.grid := by
    unfold pathFuel
    rw [shapeEq_gRows hwalk.1, shapeEq_gCols hwalk.1, hd.1, gCols_eq hd hh]
    have := isDist_lt_cells hd hh hdist
    omega
  exact reconstruct_len hchain hD9.2.1 hfuel

set_option maxHeartbeats 2000000 in
theorem dij_pop_inv {m0 : MazeData} {s : AlgState} (hm : gridInvB m0 = true)
    (hinv : DijInv m0 s) (hne : s.frontier.isEmpty = false)
    (hnend : ¬((s.frontier.getD (scanMinIdx (fun p => (cellAt s.maze.grid p).g)
        s.frontier) default).row = s.maze.endPosition.row ∧
      (s.frontier.getD (scanMinIdx (fun p => (cellAt s.maze.grid p).g)
        s.frontier) default).col = s.maze.endPosition.col)) :
    DijInv m0 ((dijkstraNext s).2) := by
  have hA := hinv
  obtain ⟨h1, h2, h3, h4, hwalk, hD1, hD9, hD5, hD3, hD4, hVal, hD2, hD7, hD11,
    hFr, hPend⟩ := hinv
  obtain ⟨hd, hh, hw, hsb, hebd, hnese, hsw, hew, hcells⟩ := gridInvB_unpack hm
  have hfne : s.frontier ≠ [] := by
    intro hc
    rw [hc] at hne
    simp at hne
  rw [dijNext_pop_eq s h3 hne hnend]
  set MI := scanMinIdx (fun p => (cellAt s.maze.grid p).g) s.frontier with hMIdef
  set CUR := s.frontier.getD MI default with hCURdef
  set REST := s.frontier.eraseIdx MI with hRESTdef
  set G1 := (if !(cellAt s.maze.grid CUR).isStart &&
      !(cellAt s.maze.grid CUR).isEnd then
      modCell s.maze.grid CUR (fun c => { c with type := CellType.VISITED })
    else s.maze.grid) with hG1def
  set FOLD := (dirsOf CUR).foldl (dijkstraRelaxDir CUR) (G1, REST) with hFOLDdef
  have hMIlt : MI < s.frontier.length :=
    scanMinIdx_lt (fun p => (cellAt s.maze.grid p).g) hfne
  obtain ⟨nC, hnC, hdistC⟩ := dij_argmin hm hA hfne
  rw [← hMIdef, ← hCURdef] at hnC hdistC
  have hcurmem : CUR ∈ s.frontier := getD_mem hMIlt
  have hcvis : (cellAt s.maze.grid CUR).visited = true := hFr CUR hcurmem
  have hcurvalid : isValidPosition m0.grid CUR = true := hVal CUR hcvis
  have hcurNW : (cellAt s.maze.grid CUR).type ≠ CellType.WALL :=
    fun hc => valid_nonwall hcurvalid ((hwalk.2 CUR).mp hc)
  have hd2 : GridDims s.maze.grid m0.height m0.width :=
    GridDims_shapeEq hwalk.1 hd
  have hcurend : CUR ≠ m0.endPosition := by
    intro hc
    apply hnend
    rw [hc, h2]
    exact ⟨rfl, rfl⟩
  have hne_cur : ∀ p ∈ dirsOf CUR, p ≠ CUR :=
    fun p hp hc => (not_mem_dirsOf CUR) (hc ▸ hp)
  have hg1ne : ∀ p, p ≠ CUR → cellAt G1 p = cellAt s.maze.grid p := by
    intro p hp
    rw [hG1def]
    split
    · exact cellAt_modCell_ne _ _ hp
    · rfl
  have hg1fields : ∀ p, (cellAt G1 p).g = (cellAt s.maze.grid p).g ∧
      (cellAt G1 p).visited = (cellAt s.maze.grid p).visited ∧
      (cellAt G1 p).parent = (cellAt s.maze.grid p).parent := by
    intro p
    by_cases hp : p = CUR
    · subst hp
      rw [hG1def]
      split
      · cases hg : gridGet s.maze.grid CUR with
        | none =>
          have hmc : modCell s.maze.grid CUR
              (fun c => { c with type := CellType.VISITED }) = s.maze.grid := by
            unfold modCell
            rw [hg]
          rw [hmc]
          exact ⟨rfl, rfl, rfl⟩
        | some c =>
          rw [cellAt_modCell_self _ (by rw [hg]; rfl)]
          exact ⟨rfl, rfl, rfl⟩
      · exact ⟨rfl, rfl, rfl⟩
    · rw [hg1ne p hp]
      exact ⟨rfl, rfl, rfl⟩
  have hwalk1 : WalkEq m0.grid G1 := by
    rw [hG1def]
    split
    · exact walkEq_write hwalk CUR hcurNW _ (fun c => Or.inr (fun hc => by simp at hc))
    · exact hwalk
  have hvalid1 : ∀ p, isValidPosition G1 p = isValidPosition m0.grid p :=
    walkEq_valid hwalk1
  have hshape01 : ShapeEq s.maze.grid G1 := by
    rw [hG1def]
    split
    · exact shapeEq_modCell _ _ _
    · exact shapeEq_refl _
  obtain ⟨hq2, hupd, hkeep, hshapeF⟩ := dijRelax_spec CUR (dirsOf CUR) G1 REST
    (dirsOf_nodup CUR) (not_mem_dirsOf CUR)
  have hnd1 : jsAdd1 (cellAt G1 CUR).g = some (((nC + 1 : Nat)) : WithTop Nat) := by
    rw [(hg1fields CUR).1, hnC, jsAdd1_coe]
  rw [hnd1] at hq2 hupd hkeep
  set RELAX := (dirsOf CUR).filter (fun x => isValidPosition G1 x &&
    jsLt (some (((nC + 1 : Nat)) : WithTop Nat)) (cellAt G1 x).g) with hRELAXdef
  set NEWQ := (dirsOf CUR).filter (fun x => isValidPosition G1 x &&
    jsLt (some (((nC + 1 : Nat)) : WithTop Nat)) (cellAt G1 x).g &&
    !(cellAt G1 x).visited) with hNEWQdef
  have hshapeSF : ShapeEq s.maze.grid FOLD.1 := shapeEq_trans hshape01 hshapeF
  have hsomeSF : ∀ p, (gridGet FOLD.1 p).isSome = (gridGet s.maze.grid p).isSome :=
    shapeEq_isSome hshapeSF
  have hCURnR : CUR ∉ RELAX := fun hc => not_mem_dirsOf CUR
    (by rw [hRELAXdef] at hc; exact List.mem_of_mem_filter hc)
  have hRELAXmem : ∀ p ∈ RELAX, adjStep CUR p ∧ isValidPosition m0.grid p = true ∧
      ∃ w, (cellAt s.maze.grid p).g = some w ∧
        (((nC + 1 : Nat)) : WithTop Nat) < w := by
    intro p hp
    rw [hRELAXdef, List.mem_filter, Bool.and_eq_true] at hp
    obtain ⟨hpd, hpv, hplt⟩ := hp
    have hpne : p ≠ CUR := hne_cur p hpd
    refine ⟨mem_dirsOf_iff.mp hpd, by rw [← hvalid1]; exact hpv, ?_⟩
    cases hgp : (cellAt G1 p).g with
    | none =>
      rw [hgp] at hplt
      cases hplt
    | some w =>
      rw [hgp] at hplt
      have hgs : (cellAt s.maze.grid p).g = some w := by
        rw [← hg1ne p hpne, hgp]
      exact ⟨w, hgs, of_decide_eq_true hplt⟩
  have hRELAXfields : ∀ p ∈ RELAX,
      (cellAt FOLD.1 p).g = some (((nC + 1 : Nat)) : WithTop Nat) ∧
      (cellAt FOLD.1 p).parent = some CUR ∧
      (cellAt FOLD.1 p).visited = true ∧
      ((cellAt FOLD.1 p).type = (cellAt s.maze.grid p).type ∨
        (cellAt FOLD.1 p).type = CellType.VISITING) := by
    intro p hp
    have hpd : p ∈ dirsOf CUR := by
      rw [hRELAXdef] at hp
      exact List.mem_of_mem_filter hp
    have hpne : p ≠ CUR := hne_cur p hpd
    rw [hupd p hp, hg1ne p hpne]
    split
    · refine ⟨rfl, rfl, rfl, ?_⟩
      split
      · exact Or.inl rfl
      · exact Or.inr rfl
    · rename_i hbv
      refine ⟨rfl, rfl, ?_, Or.inl rfl⟩
      show (cellAt s.maze.grid p).visited = true
      cases hv2 : (cellAt s.maze.grid p).visited with
      | true => rfl
      | false =>
        exfalso
        apply hbv
        rw [hv2]
        rfl
  have hKEEPcell : ∀ p, p ∉ RELAX → p ≠ CUR →
      cellAt FOLD.1 p = cellAt s.maze.grid p := by
    intro p hp hpc
    rw [hkeep p hp, hg1ne p hpc]
  have hγ : ∀ p, p ∉ RELAX → (cellAt FOLD.1 p).g = (cellAt s.maze.grid p).g := by
    intro p hp
    by_cases hpc : p = CUR
    · subst hpc
      rw [hkeep CUR hp]
      exact (hg1fields CUR).1
    · rw [hKEEPcell p hp hpc]
  have hpar : ∀ p, p ∉ RELAX →
      (cellAt FOLD.1 p).parent = (cellAt s.maze.grid p).parent := by
    intro p hp
    by_cases hpc : p = CUR
    · subst hpc
      rw [hkeep CUR hp]
      exact (hg1fields CUR).2.2
    · rw [hKEEPcell p hp hpc]
  have hvis : ∀ p, ((cellAt FOLD.1 p).visited = true ↔
      ((cellAt s.maze.grid p).visited = true ∨ p ∈ RELAX)) := by
    intro p
    by_cases hp : p ∈ RELAX
    · rw [(hRELAXfields p hp).2.2.1]
      exact ⟨fun _ => Or.inr hp, fun _ => rfl⟩
    · by_cases hpc : p = CUR
      · subst hpc
        rw [hkeep CUR hp, (hg1fields CUR).2.1]
        exact ⟨fun h => Or.inl h, fun _ => hcvis⟩
      · rw [hKEEPcell p hp hpc]
        exact ⟨fun h => Or.inl h, fun h => h.resolve_right hp⟩
  have hstartNR : m0.startPosition ∉ RELAX := by
    intro hc
    have hslt := ((hRELAXmem _ hc).2.2)
    obtain ⟨w, hw, hlt⟩ := hslt
    rw [hD9.1, Option.some.injEq] at hw
    subst hw
    have : nC + 1 < 0 := by exact_mod_cast hlt
    omega
  have hNEWQmem : ∀ p ∈ NEWQ, p ∈ RELAX ∧
      (cellAt s.maze.grid p).visited = false := by
    intro p hp
    rw [hNEWQdef, List.mem_filter, Bool.and_eq_true, Bool.and_eq_true] at hp
    obtain ⟨hpd, ⟨hpv, hplt⟩, hpnv⟩ := hp
    have hpne : p ≠ CUR := hne_cur p hpd
    constructor
    · rw [hRELAXdef, List.mem_filter, Bool.and_eq_true]
      exact ⟨hpd, hpv, hplt⟩
    · rw [Bool.not_eq_true'] at hpnv
      rw [← hg1ne p hpne]
      exact hpnv
  have hRELAXQ : ∀ p ∈ RELAX, (cellAt s.maze.grid p).visited = false →
      p ∈ NEWQ := by
    intro p hp hpv
    rw [hRELAXdef, List.mem_filter, Bool.and_eq_true] at hp
    obtain ⟨hpd, hpv2, hplt⟩ := hp
    have hpne : p ≠ CUR := hne_cur p hpd
    rw [hNEWQdef, List.mem_filter, Bool.and_eq_true, Bool.and_eq_true]
    refine ⟨hpd, ⟨hpv2, hplt⟩, ?_⟩
    rw [Bool.not_eq_true', hg1ne p hpne]
    exact hpv
  have hRESTsub : ∀ p ∈ REST, p ∈ s.frontier := by
    intro p hp
    rw [hRESTdef] at hp
    exact mem_of_mem_eraseIdx hp
  have hmemREST : ∀ p ∈ s.frontier, p ≠ CUR → p ∈ REST := by
    intro p hp hpc
    rw [hRESTdef]
    exact mem_eraseIdx_of_ne hMIlt hp (by rw [← hCURdef]; exact hpc)
  have hsettledNR : ∀ p, (cellAt s.maze.grid p).visited = true →
      p ∉ s.frontier → p ∉ RELAX := by
    intro p hv hpf hc
    obtain ⟨hadj, hvalp, w, hw, hlt⟩ := hRELAXmem p hc
    have hsomep : (gridGet s.maze.grid p).isSome = true :=
      (gridGet_isSome_iff hd2 p).mpr
        ((gridGet_isSome_iff hd p).mp (isValid_isSome hvalp))
    obtain ⟨np, hnp⟩ := (hD5 p).mpr ⟨hv, hsomep⟩
    obtain ⟨l2, hl2, hpathp⟩ := hD2 p np hnp
    obtain ⟨kp, hkp⟩ := exists_isDist ⟨l2, hpathp⟩
    have hγp := hD7 p hv hpf kp hkp
    rw [hγp, Option.some.injEq] at hw
    subst hw
    have hle : kp ≤ nC + 1 := isDist_adj_le hdistC hkp hadj hvalp
    have : nC + 1 < kp := by exact_mod_cast hlt
    omega
  have hRELAXgone : ∀ p, p ∈ RELAX → p ∉ REST → p ∉ NEWQ → False := by
    intro p hp hnR hnQ
    cases hvs : (cellAt s.maze.grid p).visited with
    | false => exact hnQ (hRELAXQ p hp hvs)
    | true =>
      by_cases hpf : p ∈ s.frontier
      · have hpne : p ≠ CUR := fun hc => hCURnR (hc ▸ hp)
        exact hnR (hmemREST p hpf hpne)
      · exact (hsettledNR p hvs hpf) hp
  refine ⟨h1, h2, h3, h4, ?_, ?_, ?_, ?_, ?_, ?_, ?_, ?_, ?_, ?_, ?_, ?_⟩
  · refine ⟨shapeEq_trans hwalk.1 (shapeEq_trans hshape01 hshapeF), fun p => ?_⟩
    by_cases hp : p ∈ RELAX
    · rcases (hRELAXfields p hp).2.2.2 with hty | hty
      · rw [hty]
        exact hwalk.2 p
      · constructor
        · intro hc
          rw [hty] at hc
          cases hc
        · intro hc
          exact absurd hc (valid_nonwall (hRELAXmem p hp).2.1)
    · by_cases hpc : p = CUR
      · subst hpc
        rw [hkeep CUR hp]
        exact hwalk1.2 CUR
      · rw [hKEEPcell p hp hpc]
        exact hwalk.2 p
  · intro p c hpc
    have hcc : cellAt FOLD.1 p = c := by
      unfold cellAt
      rw [hpc]
      rfl
    by_cases hp : p ∈ RELAX
    · exact ⟨(((nC + 1 : Nat)) : WithTop Nat), by
        rw [← hcc]; exact (hRELAXfields p hp).1⟩
    · have hsome : (gridGet s.maze.grid p).isSome = true := by
        rw [← hsomeSF p, hpc]
        rfl
      obtain ⟨c0, hc0⟩ := Option.isSome_iff_exists.mp hsome
      obtain ⟨w, hwc⟩ := hD1 p c0 hc0
      have hcs : cellAt s.maze.grid p = c0 := by
        unfold cellAt
        rw [hc0]
        rfl
      refine ⟨w, ?_⟩
      rw [← hcc, hγ p hp, hcs]
      exact hwc
  · refine ⟨?_, ?_, ?_⟩
    · rw [hγ _ hstartNR]
      exact hD9.1
    · rw [hpar _ hstartNR]
      exact hD9.2.1
    · exact (hvis _).mpr (Or.inl hD9.2.2)
  · intro p
    by_cases hp : p ∈ RELAX
    · constructor
      · intro _
        refine ⟨(hRELAXfields p hp).2.2.1, ?_⟩
        rw [hsomeSF p]
        exact (gridGet_isSome_iff hd2 p).mpr
          ((gridGet_isSome_iff hd p).mp (isValid_isSome (hRELAXmem p hp).2.1))
      · intro _
        exact ⟨nC + 1, (hRELAXfields p hp).1⟩
    · rw [hγ p hp]
      constructor
      · intro hfin
        obtain ⟨hv, hs⟩ := (hD5 p).mp hfin
        refine ⟨(hvis p).mpr (Or.inl hv), ?_⟩
        rw [hsomeSF p]
        exact hs
      · rintro ⟨hv', hs'⟩
        have hv : (cellAt s.maze.grid p).visited = true :=
          ((hvis p).mp hv').resolve_right hp
        rw [hsomeSF p] at hs'
        exact (hD5 p).mpr ⟨hv, hs'⟩
  · intro p q hpq
    by_cases hp : p ∈ RELAX
    · rw [(hRELAXfields p hp).2.1, Option.some.injEq] at hpq
      subst hpq
      refine ⟨(hRELAXmem p hp).1, (hRELAXmem p hp).2.1,
        nC + 1, nC, (hRELAXfields p hp).1, ?_, by omega⟩
      rw [hγ _ hCURnR]
      exact hnC
    · rw [hpar p hp] at hpq
      obtain ⟨hadj, hvalp, np, nq, hnp, hnq, hlt⟩ := hD3 p q hpq
      by_cases hq : q ∈ RELAX
      · obtain ⟨_, _, w, hw, hltw⟩ := hRELAXmem q hq
        rw [hnq, Option.some.injEq] at hw
        subst hw
        have hlt2 : nC + 1 < nq := by exact_mod_cast hltw
        refine ⟨hadj, hvalp, np, nC + 1, ?_, (hRELAXfields q hq).1, by omega⟩
        rw [hγ p hp]
        exact hnp
      · refine ⟨hadj, hvalp, np, nq, ?_, ?_, hlt⟩
        · rw [hγ p hp]
          exact hnp
        · rw [hγ q hq]
          exact hnq
  · intro p hv' hps
    by_cases hp : p ∈ RELAX
    · exact ⟨CUR, (hRELAXfields p hp).2.1⟩
    · have hv : (cellAt s.maze.grid p).visited = true :=
        ((hvis p).mp hv').resolve_right hp
      obtain ⟨q, hq⟩ := hD4 p hv hps
      refine ⟨q, ?_⟩
      rw [hpar p hp]
      exact hq
  · intro p hv'
    by_cases hp : p ∈ RELAX
    · exact (hRELAXmem p hp).2.1
    · exact hVal p (((hvis p).mp hv').resolve_right hp)
  · intro p n hn
    by_cases hp : p ∈ RELAX
    · rw [(hRELAXfields p hp).1, Option.some.injEq] at hn
      have hneq : (nC + 1 : Nat) = n := by exact_mod_cast hn
      refine ⟨nC + 1, by omega, ?_⟩
      exact hdistC.1.snoc (hRELAXmem p hp).1 (hRELAXmem p hp).2.1
    · rw [hγ p hp] at hn
      exact hD2 p n hn
  · intro p hv' hpf' kp hkp
    rw [hq2, List.mem_append] at hpf'
    push_neg at hpf'
    obtain ⟨hnR, hnQ⟩ := hpf'
    by_cases hp : p ∈ RELAX
    · exact (hRELAXgone p hp hnR hnQ).elim
    · by_cases hpc : p = CUR
      · subst hpc
        rw [hγ CUR hCURnR, hnC, IsDist.unique hdistC hkp]
      · have hv : (cellAt s.maze.grid p).visited = true :=
          ((hvis p).mp hv').resolve_right hp
        have hpsf : p ∉ s.frontier := fun hpf => hnR (hmemREST p hpf hpc)
        rw [hγ p hp]
        exact hD7 p hv hpsf kp hkp
  · intro u hv' huf' v hadj hvalv
    rw [hq2, List.mem_append] at huf'
    push_neg at huf'
    obtain ⟨hnR, hnQ⟩ := huf'
    by_cases hu : u ∈ RELAX
    · exact (hRELAXgone u hu hnR hnQ).elim
    · by_cases huc : u = CUR
      · subst huc
        have hvdirs : v ∈ dirsOf CUR := mem_dirsOf_iff.mpr hadj
        have hvne : v ≠ CUR := hne_cur v hvdirs
        have hvalv1 : isValidPosition G1 v = true := by
          rw [hvalid1 v]
          exact hvalv
        by_cases hvR : v ∈ RELAX
        · refine ⟨(hRELAXfields v hvR).2.2.1, ?_⟩
          intro nu hnu
          rw [hγ CUR hCURnR, hnC, Option.some.injEq] at hnu
          have hnueq : nC = nu := by exact_mod_cast hnu
          exact ⟨nC + 1, (hRELAXfields v hvR).1, by omega⟩
        · have hnotlt : jsLt (some (((nC + 1 : Nat)) : WithTop Nat))
              (cellAt G1 v).g = false := by
            cases hb : jsLt (some (((nC + 1 : Nat)) : WithTop Nat))
                (cellAt G1 v).g with
            | false => rfl
            | true =>
              exfalso
              apply hvR
              rw [hRELAXdef, List.mem_filter, Bool.and_eq_true]
              exact ⟨hvdirs, hvalv1, hb⟩
          have hsomev : (gridGet s.maze.grid v).isSome = true :=
            (gridGet_isSome_iff hd2 v).mpr
              ((gridGet_isSome_iff hd v).mp (isValid_isSome hvalv))
          obtain ⟨cv, hcv⟩ := Option.isSome_iff_exists.mp hsomev
          obtain ⟨w, hwv⟩ := hD1 v cv hcv
          have hcvs : cellAt s.maze.grid v = cv := by
            unfold cellAt
            rw [hcv]
            rfl
          have hgv : (cellAt G1 v).g = some w := by
            rw [hg1ne v hvne, hcvs]
            exact hwv
          rw [hgv] at hnotlt
          have hwle : w ≤ (((nC + 1 : Nat)) : WithTop Nat) := by
            have : ¬((((nC + 1 : Nat)) : WithTop Nat) < w) := by
              intro hc
              rw [show jsLt (some (((nC + 1 : Nat)) : WithTop Nat)) (some w) =
                decide ((((nC + 1 : Nat)) : WithTop Nat) < w) from rfl,
                decide_eq_true hc] at hnotlt
              cases hnotlt
            exact le_of_not_lt this
          obtain ⟨nv, hnveq, hnvle⟩ := WithTop.le_coe_iff.mp hwle
          have hγsv : (cellAt s.maze.grid v).g = some ((nv : Nat) : WithTop Nat) := by
            rw [hcvs, hwv, hnveq]
            rfl
          have hvvis : (cellAt s.maze.grid v).visited = true :=
            ((hD5 v).mp ⟨nv, hγsv⟩).1
          refine ⟨(hvis v).mpr (Or.inl hvvis), ?_⟩
          intro nu hnu
          rw [hγ CUR hCURnR, hnC, Option.some.injEq] at hnu
          have hnueq : nC = nu := by exact_mod_cast hnu
          have hnvle2 : nv ≤ nC + 1 := by exact_mod_cast hnvle
          refine ⟨nv, ?_, by omega⟩
          rw [hγ v hvR]
          exact hγsv
      · have hv : (cellAt s.maze.grid u).visited = true :=
          ((hvis u).mp hv').resolve_right hu
        have husf : u ∉ s.frontier := fun hpf => hnR (hmemREST u hpf huc)
        obtain ⟨hvv, hbound⟩ := hD11 u hv husf v hadj hvalv
        refine ⟨(hvis v).mpr (Or.inl hvv), ?_⟩
        intro nu hnu
        rw [hγ u hu] at hnu
        obtain ⟨nv, hnv, hle⟩ := hbound nu hnu
        by_cases hvR : v ∈ RELAX
        · obtain ⟨_, _, w, hw, hltw⟩ := hRELAXmem v hvR
          rw [hnv, Option.some.injEq] at hw
          subst hw
          have hlt2 : nC + 1 < nv := by exact_mod_cast hltw
          exact ⟨nC + 1, (hRELAXfields v hvR).1, by omega⟩
        · refine ⟨nv, ?_, hle⟩
          rw [hγ v hvR]
          exact hnv
  · intro p hpf
    rw [hq2, List.mem_append] at hpf
    rcases hpf with hpf | hpf
    · exact (hvis p).mpr (Or.inl (hFr p (hRESTsub p hpf)))
    · exact (hvis p).mpr (Or.inr (hNEWQmem p hpf).1)
  · intro hev'
    rw [hq2, List.mem_append]
    have hendne : m0.endPosition ≠ CUR := fun hc => hcurend hc.symm
    rcases (hvis m0.endPosition).mp hev' with hvs | hR
    · exact Or.inl (hmemREST _ (hPend hvs) hendne)
    · cases hvse : (cellAt s.maze.grid m0.endPosition).visited with
      | false => exact Or.inr (hRELAXQ _ hR hvse)
      | true => exact Or.inl (hmemREST _ (hPend hvse) hendne)

theorem position_eq_of {p q : Position} (h : p.row = q.row ∧ p.col = q.col) :
    p = q := by
  cases p
  cases q
  rw [Position.mk.injEq]
  exact h

theorem dij_step {m0 : MazeData} {s : AlgState} (hm : gridInvB m0 = true)
    (hinv : DijInv m0 s) :
    (∃ st : AlgorithmStep, (dijkstraNext s).1 = some st ∧ st.success = true ∧
      ((dijkstraNext s).2).isDone = true ∧
      ∃ d, IsDist m0.grid m0.startPosition m0.endPosition d ∧
        st.pathLength = d + 1) ∨
    (DijInv m0 ((dijkstraNext s).2) ∧
      ∀ st, (dijkstraNext s).1 = some st → st.success = false) ∨
    ((dijkstraNext s).1 = none ∧ ((dijkstraNext s).2).isDone = true) := by
  have hdone := hinv.2.2.1
  have hsucc := hinv.2.2.2.1
  cases hfe : s.frontier.isEmpty with
  | true =>
    right
    right
    have hf : s.frontier = [] := by
      cases hfr : s.frontier with
      | nil => rfl
      | cons a l =>
        rw [hfr] at hfe
        simp at hfe
    rw [dijNext_empty_eq s hdone hf]
    exact ⟨rfl, rfl⟩
  | false =>
    by_cases hend : ((s.frontier.getD (scanMinIdx (fun p => (cellAt s.maze.grid p).g)
        s.frontier) default).row = s.maze.endPosition.row ∧
      (s.frontier.getD (scanMinIdx (fun p => (cellAt s.maze.grid p).g)
        s.frontier) default).col = s.maze.endPosition.col)
    · left
      have hfne : s.frontier ≠ [] := by
        intro hc
        rw [hc] at hfe
        simp at hfe
      rw [dijNext_finish_eq s hdone hfe hend]
      obtain ⟨st, h1, h2, h3, h4⟩ :=
        dij_finish_sound hm hinv hfne (position_eq_of hend)
          (s.frontier.eraseIdx (scanMinIdx (fun p => (cellAt s.maze.grid p).g)
            s.frontier))
      exact ⟨st, h1, h2, rfl, h4⟩
    · right
      left
      refine ⟨dij_pop_inv hm hinv hfe hend, ?_⟩
      intro st hst
      rw [dijNext_pop_eq s hdone hfe hend, Option.some.injEq] at hst
      subst hst
      exact hsucc

theorem dij_Q {m0 : MazeData} (hm : gridInvB m0 = true) :
    ∀ n : Nat, DijInv m0 (iterState dijkstraNext (dijkstraInit m0) n) ∨
      (iterState dijkstraNext (dijkstraInit m0) n).isDone = true := by
  intro n
  induction n with
  | zero => exact Or.inl (dijInv_init hm)
  | succ n ih =>
    show DijInv m0 ((dijkstraNext (iterState dijkstraNext (dijkstraInit m0) n)).2) ∨
      ((dijkstraNext (iterState dijkstraNext (dijkstraInit m0) n)).2).isDone = true
    rcases ih with hinv | hdone
    · rcases dij_step hm hinv with ⟨st, _, _, hdn, _⟩ | ⟨hinv2, _⟩ | ⟨_, hdn⟩
      · exact Or.inr hdn
      · exact Or.inl hinv2
      · exact Or.inr hdn
    · right
      rw [dijNext_done_eq _ hdone]

theorem dij_out_sound {m0 : MazeData} (hm : gridInvB m0 = true) :
    ∀ (n : Nat) (st : AlgorithmStep),
      (dijkstraNext (iterState dijkstraNext (dijkstraInit m0) n)).1 = some st →
      st.success = true →
      ∃ d, IsDist m0.grid m0.startPosition m0.endPosition d ∧
        st.pathLength = d + 1 := by
  intro n st hst hsucc
  rcases dij_Q hm n with hinv | hdone
  · rcases dij_step hm hinv with ⟨st', h1', h2', _, d, hd', hlen⟩ | ⟨_, hfail⟩ |
      ⟨hnone, _⟩
    · rw [h1', Option.some.injEq] at hst
      subst hst
      exact ⟨d, hd', hlen⟩
    · rw [hfail st hst] at hsucc
      cases hsucc
    · rw [hnone] at hst
      cases hst
  · rw [dijNext_done_eq _ hdone] at hst
    cases hst

theorem bfs_Q {m0 : MazeData} (hm : gridInvB m0 = true) :
    ∀ n : Nat, BfsInv m0 (iterState bfsNext (bfsInit m0) n) ∨
      (iterState bfsNext (bfsInit m0) n).isDone = true := by
  intro n
  induction n with
  | zero => exact Or.inl (bfsInv_init hm)
  | succ n ih =>
    show BfsInv m0 ((bfsNext (iterState bfsNext (bfsInit m0) n)).2) ∨
      ((bfsNext (iterState bfsNext (bfsInit m0) n)).2).isDone = true
    rcases ih with hinv | hdone
    · have hdone0 := hinv.2.2.1
      rcases hfr : (iterState bfsNext (bfsInit m0) n).frontier with _ | ⟨cur, rest⟩
      · right
        rw [bfsNext_empty_eq _ hdone0 hfr]
      · by_cases hend : cur.row =
            (iterState bfsNext (bfsInit m0) n).maze.endPosition.row ∧
            cur.col = (iterState bfsNext (bfsInit m0) n).maze.endPosition.col
        · right
          rw [bfsNext_finish_eq _ cur rest hdone0 hfr hend]
          rfl
        · left
          rcases bfsInv_step hm hinv with ⟨st, h1, h2, _⟩ | ⟨hinv2, _⟩ | ⟨hfr2, _⟩
          · exfalso
            rw [bfsNext_pop_eq _ cur rest hdone0 hfr hend,
              Option.some.injEq] at h1
            subst h1
            have h3 : (iterState bfsNext (bfsInit m0) n).success = true := h2
            rw [hinv.2.2.2.1] at h3
            cases h3
          · exact hinv2
          · rw [hfr2] at hfr
            cases hfr
    · right
      rw [bfsNext_done_eq _ hdone]

theorem bfs_out_sound {m0 : MazeData} (hm : gridInvB m0 = true) :
    ∀ (n : Nat) (st : AlgorithmStep),
      (bfsNext (iterState bfsNext (bfsInit m0) n)).1 = some st →
      st.success = true →
      ∃ d, IsDist m0.grid m0.startPosition m0.endPosition d ∧
        st.pathLength = d + 1 := by
  intro n st hst hsucc
  rcases bfs_Q hm n with hinv | hdone
  · have hdone0 := hinv.2.2.1
    rcases hfr : (iterState bfsNext (bfsInit m0) n).frontier with _ | ⟨cur, rest⟩
    · rw [bfsNext_empty_eq _ hdone0 hfr] at hst
      cases hst
    · by_cases hend : cur.row =
          (iterState bfsNext (bfsInit m0) n).maze.endPosition.row ∧
          cur.col = (iterState bfsNext (bfsInit m0) n).maze.endPosition.col
      · rw [bfsNext_finish_eq _ cur rest hdone0 hfr hend] at hst
        have hcureq : cur = (iterState bfsNext (bfsInit m0) n).maze.endPosition :=
          position_eq_of hend
        obtain ⟨st', h1, h2, h3, h4⟩ :=
          @bfs_finish_sound m0 (iterState bfsNext (bfsInit m0) n) hm hinv cur rest
            (hfr ▸ List.mem_cons_self _ _) hcureq
        rw [h1, Option.some.injEq] at hst
        subst hst
        have hev := hinv.2.2.2.2.2.2.2.2.1 cur (hfr ▸ List.mem_cons_self _ _)
        rw [hcureq, hinv.2.1] at hev
        obtain ⟨k, hk, _⟩ := hinv.2.2.2.2.2.2.1 _ hev
        exact ⟨k, hk, h4 k hk⟩
      · rw [bfsNext_pop_eq _ cur rest hdone0 hfr hend, Option.some.injEq] at hst
        subst hst
        have h3 : (iterState bfsNext (bfsInit m0) n).success = true := hsucc
        rw [hinv.2.2.2.1] at h3
        cases h3
  · rw [bfsNext_done_eq _ hdone] at hst
    cases hst

/-- C4: for every maze satisfying the grid invariants on which both runs
succeed, the BFS stepper and the Dijkstra stepper, each driven to
completion on their own copy of the same maze (from `bfs(mazeData)` /
`dijkstra(mazeData)`), report the same `pathLength` in their final step:
both equal one plus the shortest walkable start-to-end distance,
regardless of the call indices at which the two runs reach success. -/
theorem claim_C4 (m0 : MazeData) (hm : gridInvB m0 = true)
    (nb nd : Nat) (stb std : AlgorithmStep)
    (hb : (bfsNext (iterState bfsNext (bfsInit m0) nb)).1 = some stb)
    (hbs : stb.success = true)
    (hd : (dijkstraNext (iterState dijkstraNext (dijkstraInit m0) nd)).1 = some std)
    (hds : std.success = true) :
    stb.pathLength = std.pathLength := by
  obtain ⟨db, hdb, hlb⟩ := bfs_out_sound hm nb stb hb hbs
  obtain ⟨dd, hdd, hld⟩ := dij_out_sound hm nd std hd hds
  rw [hlb, hld, IsDist.unique hdb hdd]

/-- Witness for C4: on the concrete 2×2 maze `wMaze` both steppers reach a
successful final step on the fourth `next()` call, and the two reported
path lengths agree (both runs report 3 cells). -/
theorem claim_C4_witness :
    gridInvB wMaze = true ∧
    ∃ stb std : AlgorithmStep,
      (bfsNext (iterState bfsNext (bfsInit wMaze) 3)).1 = some stb ∧
      stb.success = true ∧
      (dijkstraNext (iterState dijkstraNext (dijkstraInit wMaze) 3)).1 = some std ∧
      std.success = true ∧
      stb.pathLength = std.pathLength :=
  ⟨by decide, _, _, rfl, rfl, rfl, rfl,
    claim_C4 wMaze (by decide) 3 3 _ _ rfl rfl rfl rfl⟩

end MazeQuest
